import Mathlib

/-!
# Feed-forward network of `neural-net/nn.go`

A shallow embedding of the single-hidden-layer network: the `gonum` dense-matrix
primitives the engine calls, the activation functions, `propagate`, `train`,
`predict` and the accuracy scoring done in `main`.

Conventions of the embedding.

* The arithmetic is a parameter. The definitions are written over a type `R`
  with the operations and comparisons the code uses, and run in exact
  arithmetic when `R` is an ordered field (the theorems that need analysis take
  `R := ℝ`) and with rounding, overflow to infinity and NaN when `R` is
  `Float64`, the model of `float64` defined after the four programs. Every
  theorem says in which arithmetic it holds.
* `math.Exp` is the parameter `exp : R → R`, `floats.Sum` the parameter
  `floatsSum` of `sumAlongAxis`, and `math.Sqrt` the parameter `sqrt` of
  `findDistance`. The comparison `==` of two `float64` is `==` on `R`: equality
  in an ordered field, `Float64.eq` on `Float64`.
* A Go run-time panic is `Except.error p`; a normal return is `Except.ok v`.
  A Go `error` return value is an `Option GoError` (`none` is `nil`), and a
  nilable `*mat.Dense` is an `Option (Dense R)`.
* A pointer receiver that the code overwrites is passed in and returned.
  `predict` is embedded a second time with its matrices in a store and its
  pointers as indices into it (`predictRef`), for what a call leaves behind.
* The random source `r1` is the stream of its successive `Float64()` draws.
* Printing (`pretty.Println`) has no effect on the values and is left out.
* `gonum/mat` is modelled as in its releases that refuse matrices with a zero
  dimension (`mat.ErrZeroLength`). The theorems about successful runs assume
  dimensions of at least 1, for which all releases agree.
-/

namespace NeuralNet

/-! ## Run-time panics and error values -/

/-- Panics that the matrix library and the Go run time raise. -/
inductive Panic where
  /-- `mat.ErrShape`: dimension mismatch. -/
  | shape
  /-- `mat.ErrZeroLength`: a matrix with a zero dimension. -/
  | zeroLength
  /-- `mat.ErrNegativeDimension`. -/
  | negativeDimension
  /-- `mat.ErrRowAccess`: row index out of range. -/
  | rowAccess
  /-- `mat.ErrColAccess`: column index out of range. -/
  | colAccess
  /-- `makeslice: len out of range`. -/
  | makeLen
  /-- `floats`: zero slice length. -/
  | zeroSlice
  /-- `runtime error: index out of range`. -/
  | indexOutOfRange
  deriving DecidableEq

/-- The `errors.New` values of `nn.go`. -/
inductive GoError where
  /-- `"the weights are empty"` -/
  | weightsEmpty
  /-- `"the biases are empty"` -/
  | biasesEmpty
  /-- `"invalid axis: must be 0 or 1"` -/
  | invalidAxis
  deriving DecidableEq

/-- The two errors with which `predict` refuses to run on a model that has no
fitted state. -/
def GoError.isUninitializedModel : GoError → Bool
  | .weightsEmpty => true
  | .biasesEmpty => true
  | .invalidAxis => false

/-! ## Dense matrices (`gonum/mat`) -/

/-- A `mat.Dense`: its dimensions and its entries, index-wise (the row-major
backing slice appears only where the code reads or writes it, in `NewDense`
and `RawData`). -/
structure Dense (R : Type) where
  rows : Nat
  cols : Nat
  data : Matrix (Fin rows) (Fin cols) R

/-- The matrix `M` as a `mat.Dense` value. -/
def Dense.ofMatrix {R : Type} {r c : Nat} (M : Matrix (Fin r) (Fin c) R) : Dense R :=
  ⟨r, c, M⟩

section Primitives

variable {R : Type} [Zero R] [One R] [HAdd R R R] [HSub R R R] [HMul R R R] [HDiv R R R] [Neg R]
  [HPow R Nat R] [NatCast R] [LT R] [LE R] [BEq R] [DecidableEq R]
  [∀ a b : R, Decidable (a < b)] [∀ a b : R, Decidable (a ≤ b)]

/-- `new(mat.Dense)`: the empty matrix, usable as the receiver of any operation. -/
def Dense.empty : Dense R :=
  ⟨0, 0, fun i _ => i.elim0⟩

/-- `IsEmpty`: the stride is zero. -/
def Dense.IsEmpty (m : Dense R) : Bool :=
  m.cols == 0

/-- `Dims`. -/
def Dense.Dims (m : Dense R) : Nat × Nat :=
  (m.rows, m.cols)

/-- `reuseAsNonZeroed`: prepare the receiver `m` for an `r × c` result. -/
def Dense.reuseAsNonZeroed (m : Dense R) (r c : Nat) : Except Panic Unit :=
  if r = 0 ∨ c = 0 then .error .zeroLength
  else if m.IsEmpty then .ok ()
  else if r ≠ m.rows ∨ c ≠ m.cols then .error .shape
  else .ok ()

/-- `make([]float64, n)`: a zeroed slice, a panic for negative `n`. -/
def makeSlice (n : Int) : Except Panic (List R) :=
  if n < 0 then .error .makeLen else .ok (List.replicate n.toNat 0)

/-- The matrix whose backing slice, row-major, is `raw`. -/
def Dense.ofRaw (r c : Nat) (raw : List R) : Dense R :=
  ⟨r, c, fun i j => raw.getD (i.val * c + j.val) 0⟩

/-- `mat.NewDense(r, c, data)`; `data = none` is the `nil` slice. -/
def NewDense (r c : Int) (data : Option (List R)) : Except Panic (Dense R) :=
  if r ≤ 0 ∨ c ≤ 0 then
    if r = 0 ∨ c = 0 then .error .zeroLength else .error .negativeDimension
  else
    match data with
    | none => .ok (Dense.ofRaw r.toNat c.toNat (List.replicate (r.toNat * c.toNat) 0))
    | some d =>
      if r * c ≠ (d.length : Int) then .error .shape
      else .ok (Dense.ofRaw r.toNat c.toNat d)

/-- `RawMatrix().Data` of a matrix made by `NewDense`: the row-major slice. -/
def Dense.RawData (m : Dense R) : List R :=
  (List.range (m.rows * m.cols)).map fun k =>
    if h : k / m.cols < m.rows ∧ k % m.cols < m.cols then m.data ⟨k / m.cols, h.1⟩ ⟨k % m.cols, h.2⟩
    else 0

/-- `At(i, j)`. -/
def Dense.At (m : Dense R) (i j : Nat) : Except Panic R :=
  if hi : i < m.rows then
    if hj : j < m.cols then .ok (m.data ⟨i, hi⟩ ⟨j, hj⟩) else .error .colAccess
  else .error .rowAccess

/-- `T()`: the transposed view. -/
def Dense.T (m : Dense R) : Dense R :=
  ⟨m.cols, m.rows, fun i j => m.data j i⟩

/-- `m.Mul(a, b)`: the matrix product. Entry `(i, j)` accumulates the products
`a[i][k] * b[k][j]` from zero; the order of the additions is the library's and
matters to rounding only, and is taken here by increasing `k`. -/
def Dense.Mul (m a b : Dense R) : Except Panic (Dense R) :=
  if h : a.cols = b.rows then do
    m.reuseAsNonZeroed a.rows b.cols
    pure ⟨a.rows, b.cols, fun i j =>
      (List.finRange a.cols).foldl (fun sum k => sum + a.data i k * b.data (Fin.cast h k) j) 0⟩
  else .error .shape

/-- The first panic among the calls `g i j`, in row-major order. -/
def firstPanic {r c : Nat} (g : Fin r → Fin c → Except Panic R) : Option Panic :=
  (List.finRange r).findSome? fun i =>
    (List.finRange c).findSome? fun j =>
      match g i j with
      | .error p => some p
      | .ok _ => none

/-- The value of a call that did not panic. -/
def valueOf (x : Except Panic R) : R :=
  match x with
  | .ok v => v
  | .error _ => 0

/-- `m.Apply(fn, a)`: entry `(i, j)` of the result is `fn(i, j, a[i][j])`; the
calls are made in row-major order and the first panic of `fn` propagates. -/
def Dense.Apply (m : Dense R) (fn : Nat → Nat → R → Except Panic R) (a : Dense R) :
    Except Panic (Dense R) := do
  m.reuseAsNonZeroed a.rows a.cols
  match firstPanic fun i j => fn i.val j.val (a.data i j) with
  | some p => throw p
  | none => pure ⟨a.rows, a.cols, fun i j => valueOf (fn i.val j.val (a.data i j))⟩

/-- The shape test of the element-wise operations `Sub`, `MulElem`, `Add`. -/
def Dense.elementwise (op : R → R → R) (m a b : Dense R) : Except Panic (Dense R) :=
  if h : a.rows = b.rows ∧ a.cols = b.cols then do
    m.reuseAsNonZeroed a.rows a.cols
    pure ⟨a.rows, a.cols, fun i j => op (a.data i j) (b.data (Fin.cast h.1 i) (Fin.cast h.2 j))⟩
  else .error .shape

/-- `m.Sub(a, b)`. -/
def Dense.Sub (m a b : Dense R) : Except Panic (Dense R) :=
  Dense.elementwise (fun x y => x - y) m a b

/-- `m.MulElem(a, b)`. -/
def Dense.MulElem (m a b : Dense R) : Except Panic (Dense R) :=
  Dense.elementwise (fun x y => x * y) m a b

/-- `m.Add(a, b)`. -/
def Dense.Add (m a b : Dense R) : Except Panic (Dense R) :=
  Dense.elementwise (fun x y => x + y) m a b

/-- `m.Scale(f, a)`. -/
def Dense.Scale (m : Dense R) (f : R) (a : Dense R) : Except Panic (Dense R) := do
  m.reuseAsNonZeroed a.rows a.cols
  pure ⟨a.rows, a.cols, fun i j => f * a.data i j⟩

/-- `mat.Row(nil, i, m)`: a copy of row `i`. For a row index out of range the
library panics with `mat.ErrColAccess`. -/
def Row (i : Nat) (m : Dense R) : Except Panic (List R) :=
  if h : i < m.rows then .ok (List.ofFn fun j => m.data ⟨i, h⟩ j) else .error .colAccess

/-- `floats.Max(s)`: the largest element, a panic on the empty slice. -/
def floatsMax (s : List R) : Except Panic R :=
  match s with
  | [] => .error .zeroSlice
  | x :: xs => .ok (xs.foldl (fun mx v => if v > mx then v else mx) x)

/-- `for i := lo; i < hi; i++ { s = body(i, s) }`, stopping at the first panic. -/
def forLoop {σ : Type} (hi : Int) (body : Int → σ → Except Panic σ) (i : Int) (s : σ) :
    Except Panic σ :=
  if i < hi then
    match body i s with
    | .error p => .error p
    | .ok s' => forLoop hi body (i + 1) s'
  else .ok s
termination_by (hi - i).toNat
decreasing_by omega

end Primitives

/-! ## The network -/

/-- Parameters for network structure (`networkConf`). -/
structure networkConf (R : Type) where
  numberOfInputNodes : Int
  numberOfOutputNodes : Int
  numberOfHiddenNodes : Int
  numberOfEpochs : Int
  learningRate : R

/-- The `network` structure: the config and the four nilable parameter matrices. -/
structure network (R : Type) where
  config : networkConf R
  hiddenWeights : Option (Dense R)
  hiddenBiases : Option (Dense R)
  outputWeights : Option (Dense R)
  outputBiases : Option (Dense R)

/-- The composite literal `network{config: c}` of `main`: no matrix is set. -/
def network.new {R : Type} (c : networkConf R) : network R :=
  ⟨c, none, none, none, none⟩

section Engine

variable {R : Type} [Zero R] [One R] [HAdd R R R] [HSub R R R] [HMul R R R] [HDiv R R R] [Neg R]
  [HPow R Nat R] [NatCast R] [LT R] [LE R] [BEq R] [DecidableEq R]
  [∀ a b : R, Decidable (a < b)] [∀ a b : R, Decidable (a ≤ b)]

/-- `sigmoid`: `1.0 / (1.0 + math.Exp(-x))`. -/
def sigmoid (exp : R → R) (x : R) : R :=
  1 / (1 + exp (-x))

/-- `sigmoidPrime`: `sigmoid(x) * (1.0 - sigmoid(x))`. -/
def sigmoidPrime (exp : R → R) (x : R) : R :=
  sigmoid exp x * (1 - sigmoid exp x)

/-- The closures `addhiddenBiases` and `addoutputBiases`: `v + biases.At(0, col)`. -/
def addBiases (biases : Dense R) (_row col : Nat) (v : R) : Except Panic R := do
  let b ← biases.At 0 col
  pure (v + b)

/-- The closure `applySigmoid`. -/
def applySigmoid (exp : R → R) (_row _col : Nat) (v : R) : Except Panic R :=
  pure (sigmoid exp v)

/-- The closure `applySigmoidPrime`. -/
def applySigmoidPrime (exp : R → R) (_row _col : Nat) (v : R) : Except Panic R :=
  pure (sigmoidPrime exp v)

/-- The matrices that `propagate` overwrites through its pointer arguments. -/
structure Params (R : Type) where
  hiddenWeights : Dense R
  outputWeights : Dense R
  output : Dense R

/-- The body of the epoch loop of `propagate` (lines 212-283). -/
def epoch (exp : R → R) (learningRate : R) (inputs labels hiddenBiases outputBiases : Dense R)
    (p : Params R) : Except Panic (Params R) := do
  -- Forward propagation
  let hiddenLayerInput ← Dense.empty.Mul inputs p.hiddenWeights
  let hiddenLayerInput ← hiddenLayerInput.Apply (addBiases hiddenBiases) hiddenLayerInput
  let hiddenLayerActivations ← Dense.empty.Apply (applySigmoid exp) hiddenLayerInput
  let outputLayerInput ← Dense.empty.Mul hiddenLayerActivations p.outputWeights
  let outputLayerInput ← outputLayerInput.Apply (addBiases outputBiases) outputLayerInput
  let output ← p.output.Apply (applySigmoid exp) outputLayerInput
  -- Backward propagation
  let networkError ← Dense.empty.Sub labels output
  let slopeOutputLayer ← Dense.empty.Apply (applySigmoidPrime exp) output
  let slopeHiddenLayer ← Dense.empty.Apply (applySigmoidPrime exp) hiddenLayerActivations
  let outputDifference ← Dense.empty.MulElem networkError slopeOutputLayer
  let errorAtHiddenLayer ← Dense.empty.Mul outputDifference p.outputWeights.T
  let hiddenLayerDifference ← Dense.empty.MulElem errorAtHiddenLayer slopeHiddenLayer
  -- Adjust the weights
  let outputWeightsAdj ← Dense.empty.Mul hiddenLayerActivations.T outputDifference
  let outputWeightsAdj ← outputWeightsAdj.Scale learningRate outputWeightsAdj
  let outputWeights ← p.outputWeights.Add p.outputWeights outputWeightsAdj
  let hiddenWeightsAdj ← Dense.empty.Mul inputs.T hiddenLayerDifference
  let hiddenWeightsAdj ← hiddenWeightsAdj.Scale learningRate hiddenWeightsAdj
  let hiddenWeights ← p.hiddenWeights.Add p.hiddenWeights hiddenWeightsAdj
  pure ⟨hiddenWeights, outputWeights, output⟩

/-- `propagate`: the epoch loop, then `return nil`. -/
def propagate (exp : R → R) (config : networkConf R)
    (inputs labels hiddenWeights hiddenBiases outputWeights outputBiases output : Dense R) :
    Except Panic (Params R × Option GoError) := do
  let p ← forLoop config.numberOfEpochs
    (fun _ p => epoch exp config.learningRate inputs labels hiddenBiases outputBiases p)
    0 ⟨hiddenWeights, outputWeights, output⟩
  pure (p, none)

/-- The loop `for i := range param { param[i] = r1.Float64() }`, when `k` draws
have been made before it. -/
def fillRandom (r1 : Nat → R) (k : Nat) (param : List R) : List R :=
  (List.range param.length).map fun i => r1 (k + i)

/-- The four matrices as `train` allocates them (lines 162-187), before the
call of `propagate`: constant biases, weights drawn from `r1`. -/
def allocate (config : networkConf R) (bias : R) (r1 : Nat → R) :
    Except Panic (Dense R × Dense R × Dense R × Dense R) := do
  let hiddenBiasesRaw : List R ← makeSlice config.numberOfHiddenNodes
  let hiddenBiasesRaw := hiddenBiasesRaw.map fun _ => bias
  let outputBiasesRaw : List R ← makeSlice config.numberOfOutputNodes
  let outputBiasesRaw := outputBiasesRaw.map fun _ => bias
  let hiddenWeights ← NewDense config.numberOfInputNodes config.numberOfHiddenNodes none
  let hiddenBiases ← NewDense 1 config.numberOfHiddenNodes (some hiddenBiasesRaw)
  let outputWeights ← NewDense config.numberOfHiddenNodes config.numberOfOutputNodes none
  let outputBiases ← NewDense 1 config.numberOfOutputNodes (some outputBiasesRaw)
  let hiddenWeightsRaw := hiddenWeights.RawData
  let outputWeightsRaw := outputWeights.RawData
  let hiddenWeightsRaw := fillRandom r1 0 hiddenWeightsRaw
  let outputWeightsRaw := fillRandom r1 hiddenWeightsRaw.length outputWeightsRaw
  let hiddenWeights := Dense.ofRaw hiddenWeights.rows hiddenWeights.cols hiddenWeightsRaw
  let outputWeights := Dense.ofRaw outputWeights.rows outputWeights.cols outputWeightsRaw
  pure (hiddenWeights, hiddenBiases, outputWeights, outputBiases)

/-- `train`: the receiver after the call, and how the call ended (a panic, or
the returned `error`). The receiver is assigned only after `propagate` returned
`nil`. -/
def train (exp : R → R) (net : network R) (inputs labels : Dense R) (bias : R) (r1 : Nat → R) :
    network R × Except Panic (Option GoError) :=
  let run : Except Panic (Params R × Option GoError × Dense R × Dense R) := do
    let (hiddenWeights, hiddenBiases, outputWeights, outputBiases) ← allocate net.config bias r1
    let output := Dense.empty
    let (p, err) ← propagate exp net.config inputs labels hiddenWeights hiddenBiases
      outputWeights outputBiases output
    pure (p, err, hiddenBiases, outputBiases)
  match run with
  | .error p => (net, .error p)
  | .ok (_, some err, _, _) => (net, .ok (some err))
  | .ok (p, none, hiddenBiases, outputBiases) =>
    ({ net with
        hiddenWeights := some p.hiddenWeights
        hiddenBiases := some hiddenBiases
        outputWeights := some p.outputWeights
        outputBiases := some outputBiases },
      .ok none)

/-- The forward propagation of `predict` (lines 330-361) on non-nil matrices. -/
def forward (exp : R → R) (x hiddenWeights hiddenBiases outputWeights outputBiases : Dense R) :
    Except Panic (Dense R) := do
  let output := Dense.empty
  let hiddenLayerInput ← Dense.empty.Mul x hiddenWeights
  let hiddenLayerInput ← hiddenLayerInput.Apply (addBiases hiddenBiases) hiddenLayerInput
  let hiddenLayerActivations ← Dense.empty.Apply (applySigmoid exp) hiddenLayerInput
  let outputLayerInput ← Dense.empty.Mul hiddenLayerActivations outputWeights
  let outputLayerInput ← outputLayerInput.Apply (addBiases outputBiases) outputLayerInput
  output.Apply (applySigmoid exp) outputLayerInput

/-- `predict`: the returned pair `(output, error)`, or a panic. -/
def predict (exp : R → R) (net : network R) (x : Dense R) :
    Except Panic (Option (Dense R) × Option GoError) :=
  match net.hiddenWeights, net.outputWeights with
  | some hiddenWeights, some outputWeights =>
    match net.hiddenBiases, net.outputBiases with
    | some hiddenBiases, some outputBiases => do
      let output ← forward exp x hiddenWeights hiddenBiases outputWeights outputBiases
      pure (some output, none)
    | _, _ => .ok (none, some .biasesEmpty)
  | _, _ => .ok (none, some .weightsEmpty)

end Engine

/-! ## `predict` on pointers

`predict` once more, statement by statement, with the objects `mat.Dense` in a
store and the pointers of the program as indices into it, so that the writes
of the matrix operations into their receivers, and what the two closures read,
are explicit. -/

section Pointers

variable {R : Type} [Zero R] [One R] [HAdd R R R] [HSub R R R] [HMul R R R] [HDiv R R R] [Neg R]
  [HPow R Nat R] [NatCast R] [LT R] [LE R] [BEq R] [DecidableEq R]
  [∀ a b : R, Decidable (a < b)] [∀ a b : R, Decidable (a ≤ b)]

/-- The objects `mat.Dense` that exist: a pointer `*mat.Dense` other than nil
is a number below `next`, and `cells p` is the object that `p` points to. -/
structure Store (R : Type) where
  next : Nat
  cells : Nat → Dense R

/-- `*p`: the object that `p` points to. -/
def Store.load (s : Store R) (p : Nat) : Dense R :=
  s.cells p

/-- `*p = m`: the object that `p` points to is overwritten. -/
def Store.write (s : Store R) (p : Nat) (m : Dense R) : Store R :=
  ⟨s.next, fun q => if q = p then m else s.cells q⟩

/-- `new(mat.Dense)`: the pointer to a new empty matrix, and the store with it. -/
def Store.new (s : Store R) : Nat × Store R :=
  (s.next, ⟨s.next + 1, fun q => if q = s.next then Dense.empty else s.cells q⟩)

/-- The `network` struct as it is in memory: the config and the four fields of
type `*mat.Dense`, `none` for nil. -/
structure networkRef (R : Type) where
  config : networkConf R
  hiddenWeights : Option Nat
  hiddenBiases : Option Nat
  outputWeights : Option Nat
  outputBiases : Option Nat

/-- What a call of `predict` can read and write: the store of the matrices and
the struct behind the receiver. -/
structure World (R : Type) where
  store : Store R
  net : networkRef R

/-- The network that the struct behind the receiver describes: every field
with the matrix it points to. -/
def World.fitted (w : World R) : network R :=
  ⟨w.net.config, w.net.hiddenWeights.map w.store.load, w.net.hiddenBiases.map w.store.load,
    w.net.outputWeights.map w.store.load, w.net.outputBiases.map w.store.load⟩

/-- `new(mat.Dense)` in a world. -/
def World.new (w : World R) : Nat × World R :=
  (w.store.new.1, { w with store := w.store.new.2 })

/-- `dst.Mul(a, b)`: the product of the objects behind `a` and `b` is written
into the object behind the receiver `dst`. -/
def mulAt (dst a b : Nat) (w : World R) : Except Panic (World R) := do
  let m ← (w.store.load dst).Mul (w.store.load a) (w.store.load b)
  pure { w with store := w.store.write dst m }

/-- `dst.Apply(fn, a)`: the closure `fn` reads the world in which it is called,
and the result is written into the object behind the receiver `dst`. -/
def applyAt (fn : World R → Nat → Nat → R → Except Panic R) (dst a : Nat) (w : World R) :
    Except Panic (World R) := do
  let m ← (w.store.load dst).Apply (fn w) (w.store.load a)
  pure { w with store := w.store.write dst m }

/-- `predict` (lines 320-366) with `x` and the receiver's fields as pointers:
the returned pair `(output, error)` and the world after the call, or a panic. -/
def predictRef (exp : R → R) (x : Nat) (w : World R) :
    Except Panic ((Option Nat × Option GoError) × World R) :=
  match w.net.hiddenWeights, w.net.outputWeights with
  | some hiddenWeights, some outputWeights =>
    match w.net.hiddenBiases, w.net.outputBiases with
    | some hiddenBiases, some outputBiases => do
      let (output, w) := w.new
      let (hiddenLayerInput, w) := w.new
      let w ← mulAt hiddenLayerInput x hiddenWeights w
      let w ← applyAt (fun w => addBiases (w.store.load hiddenBiases)) hiddenLayerInput
        hiddenLayerInput w
      let (hiddenLayerActivations, w) := w.new
      let w ← applyAt (fun _ => applySigmoid exp) hiddenLayerActivations hiddenLayerInput w
      let (outputLayerInput, w) := w.new
      let w ← mulAt outputLayerInput hiddenLayerActivations outputWeights w
      let w ← applyAt (fun w => addBiases (w.store.load outputBiases)) outputLayerInput
        outputLayerInput w
      let w ← applyAt (fun _ => applySigmoid exp) output outputLayerInput w
      pure ((some output, none), w)
    | _, _ => .ok ((none, some .biasesEmpty), w)
  | _, _ => .ok ((none, some .weightsEmpty), w)

/-- What the caller of `predict` gets: the matrix behind the returned pointer
and the error value, or the panic. -/
def predictResult (exp : R → R) (x : Nat) (w : World R) :
    Except Panic (Option (Dense R) × Option GoError) :=
  match predictRef exp x w with
  | .ok (r, w') => .ok (r.1.map w'.store.load, r.2)
  | .error p => .error p

/-- The pointers that a call of `predict` reads, `x` and the fields of the
receiver that are not nil, point to objects of the store. -/
def World.Valid (w : World R) (x : Nat) : Prop :=
  x < w.store.next
  ∧ (∀ p, w.net.hiddenWeights = some p → p < w.store.next)
  ∧ (∀ p, w.net.hiddenBiases = some p → p < w.store.next)
  ∧ (∀ p, w.net.outputWeights = some p → p < w.store.next)
  ∧ (∀ p, w.net.outputBiases = some p → p < w.store.next)

end Pointers


/-! ## Accuracy scoring (`main`, lines 122-144) -/

section Accuracy

variable {R : Type} [Zero R] [One R] [HAdd R R R] [HSub R R R] [HMul R R R] [HDiv R R R] [Neg R]
  [HPow R Nat R] [NatCast R] [LT R] [LE R] [BEq R] [DecidableEq R]
  [∀ a b : R, Decidable (a < b)] [∀ a b : R, Decidable (a ≤ b)]

/-- The search of lines 129-135 from position `ix` on: the index of the first
label equal to `1.0`, and 0, the zero value of `prediction`, when there is none. -/
def findPrediction : List R → Nat → Nat
  | [], _ => 0
  | label :: rest, ix => if label == 1 then ix else findPrediction rest (ix + 1)

/-- The body of the scoring loop (lines 128-140) for row `i`: the new value of
`hit`. -/
def scoreRow (outputs testLabels : Dense R) (i : Int) (hit : Nat) : Except Panic Nat := do
  let labelRow ← Row i.toNat testLabels
  let prediction := findPrediction labelRow 0
  let score ← outputs.At i.toNat prediction
  let outputRow ← Row i.toNat outputs
  let best ← floatsMax outputRow
  pure (if score == best then hit + 1 else hit)

/-- The accuracy that `main` computes from the outputs of `predict` and the
test labels: `float64(hit) / float64(numberOfOutputs)`. -/
def accuracy (outputs testLabels : Dense R) : Except Panic R := do
  let numberOfOutputs := outputs.Dims.1
  let hit ← forLoop (numberOfOutputs : Int) (scoreRow outputs testLabels) 0 0
  pure ((hit : R) / (numberOfOutputs : R))

end Accuracy

/-! ## The reference step

The definitions of this section are not translated from `nn.go`: they state the
forward pass and the weight update in the words of the specification (§4.2,
steps 1 and 2a-2d) with Mathlib's matrix algebra, for comparison with `epoch`,
`propagate`, `train` and `predict` above. -/

set_option linter.unusedSectionVars false

section Reference
open Matrix
variable {R : Type} [LinearOrderedField R] {n i h o c : Nat}

/-- Broadcast over rows: column `j` of the bias row is added to column `j` of
every row of `M`. -/
def addBroadcast (M : Matrix (Fin n) (Fin c) R) (b : Matrix (Fin 1) (Fin c) R) :
    Matrix (Fin n) (Fin c) R :=
  Matrix.of fun r j => M r j + b 0 j

/-- The hidden activation `H = sigmoid(X * Wh + bh)`. -/
def hiddenActivation (exp : R → R) (X : Matrix (Fin n) (Fin i) R) (Wh : Matrix (Fin i) (Fin h) R)
    (bh : Matrix (Fin 1) (Fin h) R) : Matrix (Fin n) (Fin h) R :=
  (addBroadcast (X * Wh) bh).map (sigmoid exp)

/-- The forward pass `O = sigmoid(sigmoid(X * Wh + bh) * Wo + bo)`. -/
def forwardOutput (exp : R → R) (X : Matrix (Fin n) (Fin i) R) (Wh : Matrix (Fin i) (Fin h) R)
    (bh : Matrix (Fin 1) (Fin h) R) (Wo : Matrix (Fin h) (Fin o) R)
    (bo : Matrix (Fin 1) (Fin o) R) : Matrix (Fin n) (Fin o) R :=
  (addBroadcast (hiddenActivation exp X Wh bh * Wo) bo).map (sigmoid exp)

/-- One epoch of the reference step on the pair `W = (Wh, Wo)`: `E = Y - O` is
the signed residual, `dO = E ⊙ sigmoidPrime(O)`,
`dH = (dO * Woᵀ) ⊙ sigmoidPrime(H)` with the `Wo` of before the update, and the
result is `(Wh + lr • (Xᵀ * dH), Wo + lr • (Hᵀ * dO))`. -/
def referenceStep (exp : R → R) (learningRate : R) (X : Matrix (Fin n) (Fin i) R)
    (Y : Matrix (Fin n) (Fin o) R) (bh : Matrix (Fin 1) (Fin h) R) (bo : Matrix (Fin 1) (Fin o) R)
    (W : Matrix (Fin i) (Fin h) R × Matrix (Fin h) (Fin o) R) :
    Matrix (Fin i) (Fin h) R × Matrix (Fin h) (Fin o) R :=
  let H := hiddenActivation exp X W.1 bh
  let O := forwardOutput exp X W.1 bh W.2 bo
  let E := Y - O
  let dO := E ⊙ O.map (sigmoidPrime exp)
  let dH := (dO * W.2ᵀ) ⊙ H.map (sigmoidPrime exp)
  (W.1 + learningRate • (Xᵀ * dH), W.2 + learningRate • (Hᵀ * dO))

/-- The hidden weights before the first epoch: draw `a * h + b` of the random
source at entry `(a, b)`. -/
def initialHiddenWeights (i h : Nat) (r1 : Nat → R) : Matrix (Fin i) (Fin h) R :=
  Matrix.of fun a b => r1 (a.val * h + b.val)

/-- The output weights before the first epoch: the draws that follow the
`i * h` draws of the hidden weights. -/
def initialOutputWeights (i h o : Nat) (r1 : Nat → R) : Matrix (Fin h) (Fin o) R :=
  Matrix.of fun a b => r1 (i * h + (a.val * o + b.val))

/-- A bias row with every entry equal to `bias`. -/
def constantRow (c : Nat) (bias : R) : Matrix (Fin 1) (Fin c) R :=
  Matrix.of fun _ _ => bias

end Reference

/-! ## Concrete data

Inputs on which the theorems below are instantiated. -/

section Samples

variable {R : Type} [LinearOrderedField R]

/-- The configuration that `main` builds (lines 99-105) for the hidden-layer
size read from the terminal. -/
def mainConf (numberOfHiddenNodes : Int) : networkConf R :=
  ⟨4, 3, numberOfHiddenNodes, 100, 0.1⟩

/-- Two rows of four features. -/
def sampleInputs : Matrix (Fin 2) (Fin 4) R :=
  !![0.5, 0.25, 0.75, 1; 0.125, 1, 0.5, 0.25]

/-- The one-hot labels of the two sample rows. -/
def sampleLabels : Matrix (Fin 2) (Fin 3) R :=
  !![1, 0, 0; 0, 0, 1]

/-- Predicted scores for the two sample rows: in row 0 the true class ties for
the maximum, in row 1 it does not reach it. -/
def sampleOutputs : Matrix (Fin 2) (Fin 3) R :=
  !![0.75, 0.75, 0.25; 0.5, 0.25, 0.125]

/-- A label matrix with one row only. -/
def shortLabels : Matrix (Fin 1) (Fin 3) R :=
  !![0, 1, 0]

/-- A world with five matrices: the two sample rows and the four parameter
matrices of a network of `main` with 5 hidden nodes, in this order. -/
def sampleWorld : World R :=
  ⟨⟨5, fun p => [Dense.ofMatrix sampleInputs,
      Dense.ofMatrix (initialHiddenWeights 4 5 fun _ => 0.5),
      Dense.ofMatrix (constantRow 5 0),
      Dense.ofMatrix (initialOutputWeights 4 5 3 fun _ => 0.5),
      Dense.ofMatrix (constantRow 3 0)].getD p Dense.empty⟩,
    ⟨mainConf 5, some 1, some 2, some 3, some 4⟩⟩

/-- A world with the same five matrices at other places among two more, under
the config of `main` for 7 hidden nodes. -/
def otherWorld : World R :=
  ⟨⟨7, fun p => [Dense.ofMatrix (constantRow 3 0),
      Dense.ofMatrix (constantRow 3 1),
      Dense.ofMatrix (initialOutputWeights 4 5 3 fun _ => 0.5),
      Dense.ofMatrix (constantRow 5 0),
      Dense.ofMatrix sampleInputs,
      Dense.ofMatrix (initialHiddenWeights 4 5 fun _ => 0.5),
      Dense.ofMatrix sampleLabels].getD p Dense.empty⟩,
    ⟨mainConf 7, some 5, some 3, some 2, some 0⟩⟩

end Samples

/-! ## Sums along an axis (`sumAlongAxis`, lines 290-317) -/

section SumAlongAxis

variable {R : Type} [Zero R] [One R] [HAdd R R R] [HSub R R R] [HMul R R R] [HDiv R R R] [Neg R]
  [HPow R Nat R] [NatCast R] [LT R] [LE R] [BEq R] [DecidableEq R]
  [∀ a b : R, Decidable (a < b)] [∀ a b : R, Decidable (a ≤ b)]

/-- `mat.Col(nil, j, m)`: a copy of column `j`. -/
def Col (j : Nat) (m : Dense R) : Except Panic (List R) :=
  if h : j < m.cols then .ok (List.ofFn fun i => m.data i ⟨j, h⟩) else .error .colAccess

/-- The elements of `s` added one after the other from left to right,
starting from 0: what `floats.Sum` computes in exact arithmetic, and one of the
orders in which float64 additions can be made. -/
def sumLeftToRight (s : List R) : R :=
  s.foldl (fun sum v => sum + v) 0

/-- `sumAlongAxis`: the returned pair `(output, error)`, or a panic. The
library function `floats.Sum` is the parameter `floatsSum`. -/
def sumAlongAxis (floatsSum : List R → R) (axis : Int) (m : Dense R) :
    Except Panic (Option (Dense R) × Option GoError) :=
  let (numRows, numCols) := m.Dims
  if axis = 0 then do
    let data : List R ← makeSlice numCols
    let data ← forLoop numCols (fun i data => do
      let col ← Col i.toNat m
      pure (data.set i.toNat (floatsSum col))) 0 data
    let output ← NewDense 1 numCols (some data)
    pure (some output, none)
  else if axis = 1 then do
    let data : List R ← makeSlice numRows
    let data ← forLoop numRows (fun i data => do
      let row ← Row i.toNat m
      pure (data.set i.toNat (floatsSum row))) 0 data
    let output ← NewDense numRows 1 (some data)
    pure (some output, none)
  else pure (none, some .invalidAxis)

end SumAlongAxis

/-! ## The forward pass in any arithmetic

The definitions of this section are not translated from `nn.go`: they name the
values of the forward pass with the operations of the code in the order of the
code, so that they mean the same in exact arithmetic and in float64. -/

section ReferenceAccumulate

variable {R : Type} [Zero R] [One R] [HAdd R R R] [HSub R R R] [HMul R R R] [HDiv R R R] [Neg R]
  [HPow R Nat R] [NatCast R] [LT R] [LE R] [BEq R] [DecidableEq R]
  [∀ a b : R, Decidable (a < b)] [∀ a b : R, Decidable (a ≤ b)] {n i h o : Nat}

/-- The product of `A` and `B` with every entry accumulated from zero by
increasing inner index. -/
def mulAccumulate (A : Matrix (Fin n) (Fin i) R) (B : Matrix (Fin i) (Fin h) R) :
    Matrix (Fin n) (Fin h) R :=
  fun a b => (List.finRange i).foldl (fun sum k => sum + A a k * B k b) 0

/-- The pre-activation of the output layer: the input of the last sigmoid. -/
def outputPreActivation (exp : R → R) (X : Matrix (Fin n) (Fin i) R)
    (Wh : Matrix (Fin i) (Fin h) R) (bh : Matrix (Fin 1) (Fin h) R)
    (Wo : Matrix (Fin h) (Fin o) R) (bo : Matrix (Fin 1) (Fin o) R) : Matrix (Fin n) (Fin o) R :=
  fun a b =>
    mulAccumulate (fun a b => sigmoid exp (mulAccumulate X Wh a b + bh 0 b)) Wo a b + bo 0 b

end ReferenceAccumulate

end NeuralNet

/-!
# Most probable path of a hidden Markov model (`hmm/hmm.go`)

`findMostProbablePath` with its package variables `numberOfStates` and
`numberOfObservations` as parameters. Slices are modelled index-wise, by their
length and their entries; every indexing is checked against the length and
panics outside it. The two-dimensional tables are rectangular, as `main`
allocates them.
-/

namespace HMM

open NeuralNet (Panic forLoop)

/-- A `[]T`: its length and its entries. -/
structure Vec (α : Type) where
  len : Nat
  cell : Nat → α

/-- A rectangular `[][]T`: `rows` slices of length `cols`. -/
structure Grid (α : Type) where
  rows : Nat
  cols : Nat
  cell : Nat → Nat → α

section Slices

variable {α : Type}

/-- `make([]T, n)`: zero values, a panic for negative `n`. -/
def makeVec [Zero α] (n : Int) : Except Panic (Vec α) :=
  if n < 0 then .error .makeLen else .ok ⟨n.toNat, fun _ => 0⟩

/-- The allocation `t := make([][]T, rows)` followed by
`for i := range t { t[i] = make([]T, cols) }`. -/
def makeGrid [Zero α] (rows cols : Int) : Except Panic (Grid α) :=
  if rows < 0 then .error .makeLen
  else if 0 < rows ∧ cols < 0 then .error .makeLen
  else .ok ⟨rows.toNat, cols.toNat, fun _ _ => 0⟩

/-- `v[i]`. -/
def Vec.get (v : Vec α) (i : Int) : Except Panic α :=
  if 0 ≤ i ∧ i < v.len then .ok (v.cell i.toNat) else .error .indexOutOfRange

/-- `v[i] = x`. -/
def Vec.set (v : Vec α) (i : Int) (x : α) : Except Panic (Vec α) :=
  if 0 ≤ i ∧ i < v.len then
    .ok { v with cell := fun a => if a = i.toNat then x else v.cell a }
  else .error .indexOutOfRange

/-- `g[i][j]`. -/
def Grid.get (g : Grid α) (i j : Int) : Except Panic α :=
  if 0 ≤ i ∧ i < g.rows ∧ 0 ≤ j ∧ j < g.cols then .ok (g.cell i.toNat j.toNat)
  else .error .indexOutOfRange

/-- `g[i][j] = x`. -/
def Grid.set (g : Grid α) (i j : Int) (x : α) : Except Panic (Grid α) :=
  if 0 ≤ i ∧ i < g.rows ∧ 0 ≤ j ∧ j < g.cols then
    .ok { g with cell := fun a b => if a = i.toNat ∧ b = j.toNat then x else g.cell a b }
  else .error .indexOutOfRange

/-- The elements of a slice, in order. -/
def Vec.toList (v : Vec α) : List α :=
  (List.range v.len).map v.cell

/-- `for i := hi; i >= lo; i-- { s = body(i, s) }`, stopping at the first panic. -/
def forDown {σ : Type} (lo : Int) (body : Int → σ → Except Panic σ) (i : Int) (s : σ) :
    Except Panic σ :=
  if lo ≤ i then
    match body i s with
    | .error p => .error p
    | .ok s' => forDown lo body (i - 1) s'
  else .ok s
termination_by (i + 1 - lo).toNat
decreasing_by omega

end Slices

section Viterbi

variable {R : Type} [Zero R] [One R] [HAdd R R R] [HSub R R R] [HMul R R R] [HDiv R R R] [Neg R]
  [HPow R Nat R] [NatCast R] [LT R] [LE R] [BEq R] [DecidableEq R]
  [∀ a b : R, Decidable (a < b)] [∀ a b : R, Decidable (a ≤ b)]

/-- The tables `probs` and `prevs`. The code keeps the state indices of `prevs`
as `float64(k)` and reads them back with `int(...)`; they are kept as integers
here. -/
structure Tables (R : Type) where
  probs : Grid R
  prevs : Grid Int

/-- The body of the first loop (lines 190-191) for state `i`. -/
def initState (probabilities : Vec R) (observations : Vec Int) (emissions : Grid R) (i : Int)
    (tb : Tables R) : Except Panic (Tables R) := do
  let p ← probabilities.get i
  let o ← observations.get 0
  let e ← emissions.get i o
  let probs ← tb.probs.set i 0 (p * e)
  let prevs ← tb.prevs.set i 0 0
  pure ⟨probs, prevs⟩

/-- The body of the innermost loop (lines 200-204) for the candidate previous
state `k`. -/
def tryPrevious (observations : Vec Int) (transitions emissions : Grid R) (j i k : Int)
    (tb : Tables R) : Except Panic (Tables R) := do
  let pk ← tb.probs.get k (j - 1)
  let tk ← transitions.get k i
  let o ← observations.get j
  let e ← emissions.get i o
  let prob := pk * tk * e
  let cur ← tb.probs.get i j
  if cur < prob then do
    let probs ← tb.probs.set i j prob
    let prevs ← tb.prevs.set i j k
    pure ⟨probs, prevs⟩
  else pure tb

/-- The body of the loop over the states (lines 196-205) for observation `j`
and state `i`. -/
def fillState (numberOfStates : Int) (observations : Vec Int) (transitions emissions : Grid R)
    (j i : Int) (tb : Tables R) : Except Panic (Tables R) := do
  let p0 ← tb.probs.get 0 (j - 1)
  let t0 ← transitions.get 0 i
  let o ← observations.get j
  let e ← emissions.get i o
  let probs ← tb.probs.set i j (p0 * t0 * e)
  let prevs ← tb.prevs.set i j 0
  forLoop numberOfStates (tryPrevious observations transitions emissions j i) 1 ⟨probs, prevs⟩

/-- The body of the loop over the observations (lines 195-207) for
observation `j`. -/
def fillObservation (numberOfStates : Int) (observations : Vec Int)
    (transitions emissions : Grid R) (j : Int) (tb : Tables R) : Except Panic (Tables R) :=
  forLoop numberOfStates (fillState numberOfStates observations transitions emissions j) 0 tb

/-- The body of the loop that looks for the best last state (lines 216-219),
on the pair `(maxProb, max)`. -/
def tryLast (probs : Grid R) (last k : Int) (st : Vec Int × R) : Except Panic (Vec Int × R) := do
  let pk ← probs.get k last
  if st.2 < pk then do
    let maxProb ← st.1.set last k
    let max ← probs.get k last
    pure (maxProb, max)
  else pure st

/-- The body of the backward loop (line 224). -/
def stepBack (prevs : Grid Int) (i : Int) (maxProb : Vec Int) : Except Panic (Vec Int) := do
  let s ← maxProb.get i
  let prev ← prevs.get s i
  maxProb.set (i - 1) prev

/-- `findMostProbablePath`. -/
def findMostProbablePath (numberOfStates numberOfObservations : Int) (probabilities : Vec R)
    (observations : Vec Int) (transitions emissions : Grid R) : Except Panic (Vec Int) := do
  let probs : Grid R ← makeGrid numberOfStates numberOfObservations
  let prevs : Grid Int ← makeGrid numberOfStates numberOfObservations
  let tb ← forLoop numberOfStates (initState probabilities observations emissions) 0 ⟨probs, prevs⟩
  let tb ← forLoop numberOfObservations
    (fillObservation numberOfStates observations transitions emissions) 1 tb
  let maxProb : Vec Int ← makeVec numberOfObservations
  let last := numberOfObservations - 1
  let maxProb ← maxProb.set last 0
  let max ← tb.probs.get 0 last
  let (maxProb, _) ← forLoop numberOfStates (tryLast tb.probs last) 1 (maxProb, max)
  forDown 1 (stepBack tb.prevs) last maxProb

end Viterbi

section ReferenceExact

variable {R : Type} [LinearOrderedField R]

/-- The joint probability of the state sequence `s` and the first `T`
observations: `p[s0] * e[s0][o0]` times the product over `1 ≤ j < T` of
`t[s(j-1)][s(j)] * e[s(j)][o(j)]`. -/
def jointProbability (probabilities : Vec R) (observations : Vec Int)
    (transitions emissions : Grid R) (T : Nat) (s : Nat → Nat) : R :=
  probabilities.cell (s 0) * emissions.cell (s 0) (observations.cell 0).toNat
    * ∏ j in Finset.Ico 1 T,
        transitions.cell (s (j - 1)) (s j) * emissions.cell (s j) (observations.cell j).toNat

end ReferenceExact

section Reference

variable {R : Type} [Zero R] [One R] [HAdd R R R] [HSub R R R] [HMul R R R] [HDiv R R R] [Neg R]
  [HPow R Nat R] [NatCast R] [LT R] [LE R] [BEq R] [DecidableEq R]
  [∀ a b : R, Decidable (a < b)] [∀ a b : R, Decidable (a ≤ b)]

/-- The sizes `S` and `T` match the tables, and every observation is a valid
emission index. -/
structure Conformant (S T : Nat) (probabilities : Vec R) (observations : Vec Int)
    (transitions emissions : Grid R) : Prop where
  states : 1 ≤ S
  steps : 1 ≤ T
  plen : probabilities.len = S
  olen : observations.len = T
  trows : transitions.rows = S
  tcols : transitions.cols = S
  erows : emissions.rows = S
  valid : ∀ j, j < T → 0 ≤ observations.cell j ∧ observations.cell j < emissions.cols

/-- All the probabilities of the three tables are non-negative. -/
structure NonNegative (S : Nat) (probabilities : Vec R) (transitions emissions : Grid R) :
    Prop where
  initial : ∀ i, i < S → 0 ≤ probabilities.cell i
  transition : ∀ k i, k < S → i < S → 0 ≤ transitions.cell k i
  emission : ∀ i c, i < S → c < emissions.cols → 0 ≤ emissions.cell i c

/-- The running maximum that the loops over the candidates keep: the value and
the index of the first largest of `f 0, ..., f m`. -/
def runMax (f : Nat → R) : Nat → R × Int
  | 0 => (f 0, 0)
  | m + 1 => if (runMax f m).1 < f (m + 1) then (f (m + 1), ((m + 1 : Nat) : Int)) else runMax f m

/-- The values that the tables `probs` and `prevs` hold at state `i` and
observation `j` once they are filled, for `S` states. -/
def best (S : Nat) (probabilities : Vec R) (observations : Vec Int)
    (transitions emissions : Grid R) : Nat → Nat → R × Int
  | 0, i => (probabilities.cell i * emissions.cell i (observations.cell 0).toNat, 0)
  | j + 1, i =>
    runMax (fun k => (best S probabilities observations transitions emissions j k).1
      * transitions.cell k i * emissions.cell i (observations.cell (j + 1)).toNat) (S - 1)

/-- The state that the backward loop writes `d` places before the last one,
for `T` observations. -/
def back (S T : Nat) (probabilities : Vec R) (observations : Vec Int)
    (transitions emissions : Grid R) : Nat → Int
  | 0 => (runMax (fun k => (best S probabilities observations transitions emissions (T - 1) k).1)
      (S - 1)).2
  | d + 1 => (best S probabilities observations transitions emissions (T - 1 - d)
      (back S T probabilities observations transitions emissions d).toNat).2

/-- The joint probability of the first `j + 1` states of `s` and observations. -/
def prefixJoint (p : Vec R) (o : Vec Int) (t e : Grid R) (s : Nat → Nat) : Nat → R
  | 0 => p.cell (s 0) * e.cell (s 0) (o.cell 0).toNat
  | j + 1 => prefixJoint p o t e s j * t.cell (s j) (s (j + 1))
      * e.cell (s (j + 1)) (o.cell (j + 1)).toNat

/-- The joint probability of the state sequence `s` and the first `T`
observations as the arithmetic of `R` computes it, the factors multiplied one
after the other from left to right as the code multiplies them:
`((p[s0] * e[s0][o0]) * t[s0][s1]) * e[s1][o1] ...`. -/
def computedJoint (p : Vec R) (o : Vec Int) (t e : Grid R) (T : Nat) (s : Nat → Nat) : R :=
  prefixJoint p o t e s (T - 1)

/-- What the search needs of the arithmetic, on the values that `Reg` holds of:
their products are such values again, `≤` orders them, and multiplying by such
a value keeps the order. In exact arithmetic the non-negative numbers are such
values; in float64, where every product is rounded, the numbers from 0 to 1. -/
structure OrderedProducts (Reg : R → Prop) : Prop where
  mul_mem : ∀ a b : R, Reg a → Reg b → Reg (a * b)
  le_refl : ∀ a : R, Reg a → a ≤ a
  le_trans : ∀ a b c : R, Reg a → Reg b → Reg c → a ≤ b → b ≤ c → a ≤ c
  le_of_lt : ∀ a b : R, Reg a → Reg b → a < b → a ≤ b
  le_of_not_lt : ∀ a b : R, Reg a → Reg b → ¬ a < b → b ≤ a
  mul_le_mul : ∀ a b c : R, Reg a → Reg b → Reg c → a ≤ b → a * c ≤ b * c

/-- All the probabilities of the three tables are values that `Reg` holds of. -/
structure Regular (Reg : R → Prop) (S : Nat) (probabilities : Vec R)
    (transitions emissions : Grid R) : Prop where
  initial : ∀ i, i < S → Reg (probabilities.cell i)
  transition : ∀ k i, k < S → i < S → Reg (transitions.cell k i)
  emission : ∀ i c, i < S → c < emissions.cols → Reg (emissions.cell i c)

/-- Loop invariant of the table-filling loops: the tables have `S` rows and
`T` columns, the columns before `j` hold their final values, and so does
column `j` for the states before `m`. -/
structure Filled (S T : Nat) (p : Vec R) (o : Vec Int) (t e : Grid R) (j m : Nat)
    (tb : Tables R) : Prop where
  prows : tb.probs.rows = S
  pcols : tb.probs.cols = T
  vrows : tb.prevs.rows = S
  vcols : tb.prevs.cols = T
  done : ∀ j' a, j' < j → a < S →
    tb.probs.cell a j' = (best S p o t e j' a).1 ∧ tb.prevs.cell a j' = (best S p o t e j' a).2
  cur : ∀ a, a < m →
    tb.probs.cell a j = (best S p o t e j a).1 ∧ tb.prevs.cell a j = (best S p o t e j a).2

/-- Loop invariant of the loop over the candidate previous states, for
observation `j + 1` and state `i`, once the candidates `0, ..., c` are done. -/
structure Partial (S T : Nat) (p : Vec R) (o : Vec Int) (t e : Grid R) (j i c : Nat)
    (tb : Tables R) : Prop where
  prows : tb.probs.rows = S
  pcols : tb.probs.cols = T
  vrows : tb.prevs.rows = S
  vcols : tb.prevs.cols = T
  done : ∀ j' a, j' < j + 1 → a < S →
    tb.probs.cell a j' = (best S p o t e j' a).1 ∧ tb.prevs.cell a j' = (best S p o t e j' a).2
  cur : ∀ a, a < i →
    tb.probs.cell a (j + 1) = (best S p o t e (j + 1) a).1
      ∧ tb.prevs.cell a (j + 1) = (best S p o t e (j + 1) a).2
  here : (tb.probs.cell i (j + 1), tb.prevs.cell i (j + 1))
    = runMax (fun k => (best S p o t e j k).1 * t.cell k i
        * e.cell i (o.cell (j + 1)).toNat) c

end Reference

section Samples

variable {R : Type} [LinearOrderedField R]

/-- The slice with the elements of `l`. -/
def Vec.ofList {α : Type} (d : α) (l : List α) : Vec α :=
  ⟨l.length, fun i => l.getD i d⟩

/-- The table with the rows `l`, each of length `cols`. -/
def Grid.ofRows {α : Type} (d : α) (cols : Nat) (l : List (List α)) : Grid α :=
  ⟨l.length, cols, fun i j => (l.getD i []).getD j d⟩

/-- Initial probabilities of a model with two states. -/
def sampleProbabilities : Vec R :=
  Vec.ofList 0 [0.6, 0.4]

/-- Transition probabilities of the two states. -/
def sampleTransitions : Grid R :=
  Grid.ofRows 0 2 [[0.7, 0.3], [0.4, 0.6]]

/-- Emission probabilities of the two states for two symbols. -/
def sampleEmissions : Grid R :=
  Grid.ofRows 0 2 [[0.9, 0.1], [0.2, 0.8]]

/-- Three observed symbols. -/
def sampleObservations : Vec Int :=
  Vec.ofList 0 [0, 1, 1]

end Samples

end HMM

/-!
# Linear regression (`linear-regression/linearRegression.go`)

The computation of `main` (lines 75-104) on the slice of coordinates, once it
is populated, and the helpers it calls.
-/

namespace LinearRegression

/-- The `Point` structure. -/
structure Point (R : Type) where
  x : R
  y : R

/-- The `errors.New` value of `getSlice`: `"axis must be 'x' or 'y'"`. -/
inductive GoError where
  | badAxis
  deriving DecidableEq

section Code

variable {R : Type} [Zero R] [One R] [HAdd R R R] [HSub R R R] [HMul R R R] [HDiv R R R] [Neg R]
  [HPow R Nat R] [NatCast R] [LT R] [LE R] [BEq R] [DecidableEq R]
  [∀ a b : R, Decidable (a < b)] [∀ a b : R, Decidable (a ≤ b)]

/-- `sum`: the values added from left to right, starting from 0. -/
def sum (values : List R) : R :=
  values.foldl (fun sum value => sum + value) 0

/-- `pointsSum`: the sums of the x values and of the y values. -/
def pointsSum (coords : List (Point R)) : R × R :=
  coords.foldl (fun s point => (s.1 + point.x, s.2 + point.y)) (0, 0)

/-- `mean`: both sums divided by `float64(len(coords))`. -/
def mean (coords : List (Point R)) : R × R :=
  let (xSum, ySum) := pointsSum coords
  (xSum / (coords.length : R), ySum / (coords.length : R))

/-- `getSlice`: the returned pair `(slice, error)`. -/
def getSlice (points : List (Point R)) (axis : Char) : List R × Option GoError :=
  if axis = 'x' then (points.map fun point => point.x, none)
  else if axis = 'y' then (points.map fun point => point.y, none)
  else (points.map fun _ => 0, some .badAxis)

/-- Lines 75-104 of `main`: the pair `(slope, yIntercept)` computed from the
coordinates; `Except.error` is the exit through `log.Fatal(err)`. -/
def fitLine (coords : List (Point R)) : Except GoError (R × R) :=
  let (xMean, yMean) := mean coords
  let meanDiff : List (Point R) := coords.map fun c => ⟨c.x - xMean, c.y - yMean⟩
  let meanDiffSquared : List (Point R) := meanDiff.map fun d => ⟨d.x ^ 2, d.y ^ 2⟩
  let xyMeanDiffProduct : List R := meanDiff.map fun d => d.x * d.y
  match getSlice meanDiffSquared 'x' with
  | (_, some err) => .error err
  | (slice, none) =>
    let xMeanDiffSquaredSum := sum slice
    let xyMeanDiffProductSum := sum xyMeanDiffProduct
    let slope := xyMeanDiffProductSum / xMeanDiffSquaredSum
    let yIntercept := yMean - slope * xMean
    .ok (slope, yIntercept)

end Code

section Reference

variable {R : Type} [LinearOrderedField R]

/-- The mean of the x values. -/
def xMean (coords : List (Point R)) : R :=
  (coords.map fun c => c.x).sum / (coords.length : R)

/-- The mean of the y values. -/
def yMean (coords : List (Point R)) : R :=
  (coords.map fun c => c.y).sum / (coords.length : R)

/-- The sum of the squared residuals of the line `y = a * x + b`. -/
def squaredResiduals (coords : List (Point R)) (a b : R) : R :=
  (coords.map fun c => (c.y - (a * c.x + b)) ^ 2).sum

end Reference

section Samples

/-- Three points that are not on one line. -/
def samplePoints : List (Point ℚ) := [⟨0, 0⟩, ⟨1, 1⟩, ⟨2, 3⟩]

end Samples

end LinearRegression


/-!
# k-means (`kmeans/kmeans.go`)
-/

namespace KMeans

/-- The `Point` struct. -/
structure Point (R : Type) where
  x : R
  y : R
  deriving DecidableEq

/-- The `Cluster` struct. -/
structure Cluster (R : Type) where
  centroid : Point R
  points : List (Point R)
  deriving DecidableEq

section Code

variable {R : Type} [Zero R] [One R] [HAdd R R R] [HSub R R R] [HMul R R R] [HDiv R R R] [Neg R]
  [HPow R Nat R] [NatCast R] [LT R] [LE R] [BEq R] [DecidableEq R]
  [∀ a b : R, Decidable (a < b)] [∀ a b : R, Decidable (a ≤ b)]

/-- The body of the loop of `findLeastDistanceIndex` for the element
`distance` at index `i`, on the pair `(leastValue, leastIndex)`. -/
def leastStep (threshold : R) (i : Nat) (distance : R) (st : R × Int) : R × Int :=
  if i = 0 ∨ distance < st.1 then
    if threshold ≥ 0 ∧ distance ≤ threshold then (distance, (i : Int))
    else if threshold == 0 then (distance, (i : Int))
    else st
  else st

/-- The loop `for i, distance := range distances` of `findLeastDistanceIndex`
from index `i` on. -/
def leastLoop (threshold : R) : List R → Nat → R × Int → R × Int
  | [], _, st => st
  | distance :: rest, i, st => leastLoop threshold rest (i + 1) (leastStep threshold i distance st)

/-- `findLeastDistanceIndex`; the package variable `threshold` is a parameter.
`leastValue` starts at the zero value, `leastIndex` at -1. -/
def findLeastDistanceIndex (threshold : R) (distances : List R) : Int :=
  (leastLoop threshold distances 0 (0, -1)).2

/-- The sums `xSum` and `ySum` of `updateCentroid` over the points of a cluster. -/
def coordinateSums (points : List (Point R)) : R × R :=
  points.foldl (fun s point => (s.1 + point.x, s.2 + point.y)) (0, 0)

/-- `updateCentroid`: the loop over the clusters, which `break`s at the first
cluster that has no points. -/
def updateCentroid : List (Cluster R) → List (Cluster R)
  | [] => []
  | cluster :: rest =>
    if cluster.points.length = 0 then cluster :: rest
    else
      let (xSum, ySum) := coordinateSums cluster.points
      let cluster' : Cluster R :=
        if cluster.points.length ≠ 0 then
          { cluster with
            centroid := ⟨xSum / (cluster.points.length : R), ySum / (cluster.points.length : R)⟩ }
        else cluster
      cluster' :: updateCentroid rest

end Code

section Reference

variable {R : Type} [LinearOrderedField R]

/-- The arithmetic mean of the x and of the y coordinates of a list of points. -/
def meanPoint (points : List (Point R)) : Point R :=
  ⟨(points.map fun p => p.x).sum / (points.length : R),
   (points.map fun p => p.y).sum / (points.length : R)⟩

/-- A cluster with its centroid replaced by the mean of its points. -/
def recenter (cluster : Cluster R) : Cluster R :=
  { cluster with centroid := meanPoint cluster.points }

end Reference

section Samples

/-- Two clusters: the first has no points, the second has the point (2, 4)
and the centroid (0, 0). -/
def sampleClusters : List (Cluster ℚ) := [⟨⟨1, 1⟩, []⟩, ⟨⟨0, 0⟩, [⟨2, 4⟩]⟩]

end Samples

open NeuralNet (Panic)

/-! ## Assigning the points to the clusters (`updateClusters`, lines 207-239) -/

section Assignment

variable {R : Type} [Zero R] [One R] [HAdd R R R] [HSub R R R] [HMul R R R] [HDiv R R R] [Neg R]
  [HPow R Nat R] [NatCast R] [LT R] [LE R] [BEq R] [DecidableEq R]
  [∀ a b : R, Decidable (a < b)] [∀ a b : R, Decidable (a ≤ b)]

/-- `findDistance`: `math.Sqrt` is the parameter `sqrt`, and `math.Pow(d, 2.0)`
is the square. -/
def findDistance (sqrt : R → R) (p1 p2 : Point R) : R :=
  sqrt ((p1.x - p2.x) ^ 2 + (p1.y - p2.y) ^ 2)

/-- `make([]T, n)` with the zero value `zero` of `T`: a panic for negative `n`. -/
def makeSlice {α : Type} (zero : α) (n : Int) : Except Panic (List α) :=
  if n < 0 then .error .makeLen else .ok (List.replicate n.toNat zero)

/-- The zero value of `Cluster`: the centroid (0, 0) and the nil slice of points. -/
def Cluster.zero : Cluster R := ⟨⟨0, 0⟩, []⟩

/-- The loop `for i, cluster := range newClusters` of `updateClusters` (lines
213-215): element `i` gets the centroid of the copy `cluster` of element `i`. -/
def copyCentroids : List (Cluster R) → List (Cluster R)
  | [] => []
  | cluster :: rest => { cluster with centroid := cluster.centroid } :: copyCentroids rest

/-- The assignment `distances[i] = distance`, with the bounds check of the
run time. -/
def setDistance (distances : List R) (i : Nat) (distance : R) : Except Panic (List R) :=
  if i < distances.length then .ok (distances.set i distance) else .error .indexOutOfRange

/-- The statement `newClusters[index].points = append(newClusters[index].points, point)`,
with the bounds check of the run time. -/
def appendPoint (newClusters : List (Cluster R)) (index : Int) (point : Point R) :
    Except Panic (List (Cluster R)) :=
  if 0 ≤ index then
    match newClusters[index.toNat]? with
    | some cluster =>
      .ok (newClusters.set index.toNat { cluster with points := cluster.points ++ [point] })
    | none => .error .indexOutOfRange
  else .error .indexOutOfRange

/-- The body of the loop over the clusters (lines 222-234) for the cluster
`cluster` at index `i`, on the pair `(distances, newClusters)`. -/
def assignStep (sqrt : R → R) (threshold : R) (numberOfClusters : Int) (point : Point R)
    (i : Nat) (cluster : Cluster R) (st : List R × List (Cluster R)) :
    Except Panic (List R × List (Cluster R)) := do
  let distances ← setDistance st.1 i (findDistance sqrt cluster.centroid point)
  if (i : Int) = numberOfClusters - 1 then
    let index := findLeastDistanceIndex threshold distances
    if index ≠ -1 then do
      let newClusters ← appendPoint st.2 index point
      pure (distances, newClusters)
    else pure (distances, st.2)
  else pure (distances, st.2)

/-- The loop `for i, cluster := range clusters` of `updateClusters` from
index `i` on. -/
def assignLoop (sqrt : R → R) (threshold : R) (numberOfClusters : Int) (point : Point R) :
    List (Cluster R) → Nat → List R × List (Cluster R) → Except Panic (List R × List (Cluster R))
  | [], _, st => pure st
  | cluster :: rest, i, st => do
    let st ← assignStep sqrt threshold numberOfClusters point i cluster st
    assignLoop sqrt threshold numberOfClusters point rest (i + 1) st

/-- The loop `for _, point := range points` of `updateClusters`. -/
def pointsLoop (sqrt : R → R) (threshold : R) (numberOfClusters : Int)
    (clusters : List (Cluster R)) :
    List (Point R) → List R × List (Cluster R) → Except Panic (List R × List (Cluster R))
  | [], st => pure st
  | point :: rest, st => do
    let st ← assignLoop sqrt threshold numberOfClusters point clusters 0 st
    pointsLoop sqrt threshold numberOfClusters clusters rest st

/-- `updateClusters`; the package variables `threshold` and `numberOfClusters`
are parameters. -/
def updateClusters (sqrt : R → R) (threshold : R) (numberOfClusters : Int)
    (clusters : List (Cluster R)) (points : List (Point R)) :
    Except Panic (List (Cluster R)) := do
  let distances : List R ← makeSlice 0 numberOfClusters
  let newClusters : List (Cluster R) ← makeSlice Cluster.zero numberOfClusters
  let newClusters := copyCentroids newClusters
  let (_, newClusters) ←
    pointsLoop sqrt threshold numberOfClusters clusters points (distances, newClusters)
  pure newClusters

end Assignment

section Reference2

variable {R : Type} [Zero R] [One R] [HAdd R R R] [HSub R R R] [HMul R R R] [HDiv R R R] [Neg R]
  [HPow R Nat R] [NatCast R] [LT R] [LE R] [BEq R] [DecidableEq R]
  [∀ a b : R, Decidable (a < b)] [∀ a b : R, Decidable (a ≤ b)]

/-- The distances from the centroids of `clusters`, in order, to the point `p`. -/
def centroidDistances (sqrt : R → R) (clusters : List (Cluster R)) (p : Point R) : List R :=
  clusters.map fun c => findDistance sqrt c.centroid p

/-- Cluster `k` is the nearest to `p`: `k` is an index of `clusters`, no
centroid is nearer to `p` than centroid `k`, and every centroid of a lower
index is farther. -/
def isNearest (sqrt : R → R) (clusters : List (Cluster R)) (p : Point R) (k : Nat) : Bool :=
  match (centroidDistances sqrt clusters p)[k]? with
  | some v =>
    ((centroidDistances sqrt clusters p).all fun d => decide (v ≤ d))
      && (((centroidDistances sqrt clusters p).take k).all fun d => decide (v < d))
  | none => false

/-- What the search for the least distance needs of the comparisons, on the
values that `Reg` holds of: `<` and `≤` order them. In exact arithmetic all
values are such values; in float64 all values other than NaN. The zero is
equal to itself under `==`. -/
structure Comparable (Reg : R → Prop) : Prop where
  zero : ((0 : R) == 0) = true
  refl : ∀ a : R, Reg a → a ≤ a
  of_lt : ∀ a b : R, Reg a → Reg b → a < b → a ≤ b
  of_not_lt : ∀ a b : R, Reg a → Reg b → ¬ a < b → b ≤ a
  trans : ∀ a b c : R, Reg a → Reg b → Reg c → a < b → b < c → a < c
  lt_le : ∀ a b c : R, Reg a → Reg b → Reg c → a < b → b ≤ c → a < c
  not_lt : ∀ a b : R, Reg a → Reg b → a ≤ b → b < a → False

/-- A point with real coordinates as a vector of the Euclidean plane. -/
def Point.vector (p : Point ℝ) : EuclideanSpace ℝ (Fin 2) :=
  fun i => if i = 0 then p.x else p.y

end Reference2

section Samples2

/-- Two clusters with the centroids (3, 4) and (6, 8). -/
def sampleCentroids : List (Cluster ℝ) := [⟨⟨3, 4⟩, []⟩, ⟨⟨6, 8⟩, []⟩]

/-- Three points: the first and the third are nearest to (3, 4), the second
is the centroid (6, 8). -/
def sampleCloud : List (Point ℝ) := [⟨0, 0⟩, ⟨6, 8⟩, ⟨0, 0⟩]

end Samples2

end KMeans

/-!
# A model of `float64`

IEEE 754 binary64 with the default rounding (to nearest, ties to even), as
Go's `float64`: the values, the arithmetic operations, which round their exact
result, the comparisons, `math.Sqrt`, and `math.Pow` for a whole exponent. The
definitions of the four programs above are generic in the arithmetic: with an
ordered field they compute in exact arithmetic, with `Float64` as the programs
do. `math.Exp`, whose results depend on the platform, stays a parameter.
-/

/-- A `float64` value: NaN, an infinity with its sign, or a finite value
`(-1)^neg * m * 2^e`. The operations return finite values in their canonical
form: `m < 2^53`, `-1074 ≤ e ≤ 971`, and `2^52 ≤ m` unless `e = -1074`.
Equality of two values of this type is identity of the representation; the
comparison `==` of Go is `Float64.eq`. -/
inductive Float64 where
  | nan
  | inf (neg : Bool)
  | fin (neg : Bool) (m : Nat) (e : Int)
  deriving DecidableEq

namespace Float64

/-- The number of binary digits of `n`, by halving at most `fuel` times. -/
def bitsLoop : Nat → Nat → Nat
  | 0, _ => 0
  | fuel + 1, n => if n = 0 then 0 else bitsLoop fuel (n / 2) + 1

/-- The number of binary digits of `n`: `2^(bits n - 1) ≤ n < 2^(bits n)` for `n > 0`. -/
def bits (n : Nat) : Nat := bitsLoop n n

/-- The whole part of the base-2 logarithm of `num / den`, for `num, den > 0`. -/
def ilog2 (num den : Nat) : Int :=
  let lg : Int := (bits num : Int) - (bits den : Int)
  if 0 ≤ lg then (if den * 2 ^ lg.toNat ≤ num then lg else lg - 1)
  else (if den ≤ num * 2 ^ (-lg).toNat then lg else lg - 1)

/-- The integer nearest to `a / b`, the even one of two that are equally near. -/
def nearestEven (a b : Nat) : Nat :=
  if b < 2 * (a % b) ∨ (2 * (a % b) = b ∧ (a / b) % 2 = 1) then a / b + 1 else a / b

/-- The exponent of the `float64` nearest to `num / den` (`num, den > 0`): that
of a 53-bit mantissa, and -1074 for the subnormal numbers. -/
def exponent (num den : Nat) : Int :=
  max (ilog2 num den - 52) (-1074)

/-- The integer nearest to `num / den / 2^ex`, ties to even. -/
def mantissa (num den : Nat) (ex : Int) : Nat :=
  if 0 ≤ ex then nearestEven num (den * 2 ^ ex.toNat)
  else nearestEven (num * 2 ^ (-ex).toNat) den

/-- The value `(-1)^neg * m * 2^ex` for a rounded mantissa `m ≤ 2^53`: a
mantissa of `2^53` is carried into the exponent, and an exponent above 971 is
an overflow to the infinity. -/
def pack (neg : Bool) (m : Nat) (ex : Int) : Float64 :=
  if m = 2 ^ 53 then (if 971 < ex + 1 then inf neg else fin neg (2 ^ 52) (ex + 1))
  else if 971 < ex then inf neg else fin neg m ex

/-- The `float64` nearest to `(-1)^neg * num / den` (`den > 0`), ties to even,
with overflow to an infinity and gradual underflow. -/
def round (neg : Bool) (num den : Nat) : Float64 :=
  if num = 0 then fin neg 0 (-1074)
  else pack neg (mantissa num den (exponent num den)) (exponent num den)

/-- The `float64` nearest to `(-1)^neg * m * 2^e`. -/
def ofDyadic (neg : Bool) (m : Nat) (e : Int) : Float64 :=
  if 0 ≤ e then round neg (m * 2 ^ e.toNat) 1 else round neg m (2 ^ (-e).toNat)

/-- The conversion `float64(n)` of a non-negative integer. -/
def ofNat (n : Nat) : Float64 := round false n 1

/-- The `float64` that the positive decimal constant `num / den` denotes. -/
def ofRat (num den : Nat) : Float64 := round false num den

/-- The integer `(-1)^neg * m`. -/
def signed (neg : Bool) (m : Nat) : Int :=
  if neg then -(m : Int) else (m : Int)

/-- The number that a finite value stands for; 0 for NaN and the infinities. -/
def toRat : Float64 → ℚ
  | nan => 0
  | inf _ => 0
  | fin s m e => (signed s m : ℚ) * (2 : ℚ) ^ e

/-- The place of a value other than NaN on the extended line of the rational
numbers: the least element for `-Inf`, the greatest for `+Inf`. -/
def rank : Float64 → WithBot (WithTop ℚ)
  | nan => ((0 : ℚ) : WithTop ℚ)
  | inf true => ⊥
  | inf false => ((⊤ : WithTop ℚ) : WithBot (WithTop ℚ))
  | fin s m e => ((toRat (fin s m e) : WithTop ℚ) : WithBot (WithTop ℚ))

/-- Unary minus. -/
def neg : Float64 → Float64
  | nan => nan
  | inf s => inf (!s)
  | fin s m e => fin (!s) m e

/-- Addition. -/
def add : Float64 → Float64 → Float64
  | nan, _ => nan
  | _, nan => nan
  | inf s, inf t => if s = t then inf s else nan
  | inf s, fin _ _ _ => inf s
  | fin _ _ _, inf t => inf t
  | fin s m e, fin t n f =>
    let x := min e f
    let sum : Int := signed s (m * 2 ^ (e - x).toNat) + signed t (n * 2 ^ (f - x).toNat)
    if sum = 0 then fin (s && t) 0 (-1074) else ofDyadic (decide (sum < 0)) sum.natAbs x

/-- Subtraction. -/
def sub (a b : Float64) : Float64 := add a (neg b)

/-- Multiplication. -/
def mul : Float64 → Float64 → Float64
  | nan, _ => nan
  | _, nan => nan
  | inf s, inf t => inf (xor s t)
  | inf s, fin t n _ => if n = 0 then nan else inf (xor s t)
  | fin s m _, inf t => if m = 0 then nan else inf (xor s t)
  | fin s m e, fin t n f => ofDyadic (xor s t) (m * n) (e + f)

/-- Division. -/
def div : Float64 → Float64 → Float64
  | nan, _ => nan
  | _, nan => nan
  | inf _, inf _ => nan
  | inf s, fin t _ _ => inf (xor s t)
  | fin s _ _, inf t => fin (xor s t) 0 (-1074)
  | fin s m e, fin t n f =>
    if n = 0 then (if m = 0 then nan else inf (xor s t))
    else if 0 ≤ e - f then round (xor s t) (m * 2 ^ (e - f).toNat) n
    else round (xor s t) m (n * 2 ^ (f - e).toNat)

/-- The comparison `a < b`. -/
def lt : Float64 → Float64 → Bool
  | nan, _ => false
  | _, nan => false
  | inf s, inf t => s && !t
  | inf s, fin _ _ _ => s
  | fin _ _ _, inf t => !t
  | fin s m e, fin t n f =>
    decide (signed s (m * 2 ^ (e - min e f).toNat) < signed t (n * 2 ^ (f - min e f).toNat))

/-- The comparison `a <= b`. -/
def le : Float64 → Float64 → Bool
  | nan, _ => false
  | _, nan => false
  | inf s, inf t => s || !t
  | inf s, fin _ _ _ => s
  | fin _ _ _, inf t => !t
  | fin s m e, fin t n f =>
    decide (signed s (m * 2 ^ (e - min e f).toNat) ≤ signed t (n * 2 ^ (f - min e f).toNat))

/-- The comparison `a == b` of Go: NaN differs from everything, the two zeros
are equal. -/
def eq (a b : Float64) : Bool := le a b && le b a

/-- The digits of a square root from bit `k - 1` down: the largest `r + d`
with `d < 2^k` and `(r + d)^2 ≤ n`, provided `r^2 ≤ n < (r + 2^k)^2`. -/
def sqrtLoop (n : Nat) : Nat → Nat → Nat
  | 0, r => r
  | k + 1, r => if (r + 2 ^ k) * (r + 2 ^ k) ≤ n then sqrtLoop n k (r + 2 ^ k) else sqrtLoop n k r

/-- The whole part of the square root of `n`. -/
def isqrt (n : Nat) : Nat := sqrtLoop n (bits n / 2 + 1) 0

/-- `math.Sqrt`: the correctly rounded square root. -/
def sqrt : Float64 → Float64
  | nan => nan
  | inf s => if s then nan else inf false
  | fin s m e =>
    if m = 0 then fin s 0 (-1074)
    else if s then nan
    else
      let e2 : Int := if e % 2 = 0 then e - 128 else e - 129
      let r := isqrt (m * 2 ^ (e - e2).toNat)
      let sticky := if r * r = m * 2 ^ (e - e2).toNat then 0 else 1
      ofDyadic false (2 * r + sticky) (e2 / 2 - 1)

/-- A product rounded to 53 bits with no bound on the exponent, as on the
pairs of `math.Frexp` that `math.Pow` multiplies. -/
def mulFrexp (a b : Bool × Nat × Int) : Bool × Nat × Int :=
  if a.2.1 * b.2.1 = 0 then (xor a.1 b.1, 0, 0)
  else
    let ex := ilog2 (a.2.1 * b.2.1) 1 - 52
    let m := if 0 ≤ ex then nearestEven (a.2.1 * b.2.1) (2 ^ ex.toNat)
      else a.2.1 * b.2.1 * 2 ^ (-ex).toNat
    (xor a.1 b.1, m, ex + a.2.2 + b.2.2)

/-- The loop of `math.Pow` over the bits of the exponent `i`: `a` is the
answer so far and `x` the current power of the base. -/
def powLoop : Nat → Nat → Bool × Nat × Int → Bool × Nat × Int → Bool × Nat × Int
  | 0, _, a, _ => a
  | fuel + 1, i, a, x =>
    if i = 0 then a
    else powLoop fuel (i / 2) (if i % 2 = 1 then mulFrexp a x else a) (mulFrexp x x)

/-- `math.Pow(x, float64(n))` for a whole exponent `n ≥ 0`: the special cases,
then the powers of the base multiplied with 53 bits each, and the result
brought into the range of `float64` at the end. -/
def pow (x : Float64) (n : Nat) : Float64 :=
  if n = 0 then fin false (2 ^ 52) (-52)
  else if eq x (fin false (2 ^ 52) (-52)) then fin false (2 ^ 52) (-52)
  else if n = 1 then x
  else
    match x with
    | nan => nan
    | inf s => inf (s && decide (n % 2 = 1))
    | fin s m e =>
      if m = 0 then fin (s && decide (n % 2 = 1)) 0 (-1074)
      else
        let r := powLoop n n (false, 1, 0) (s, m, e)
        ofDyadic r.1 r.2.1 r.2.2

instance : Zero Float64 := ⟨fin false 0 (-1074)⟩
instance : One Float64 := ⟨fin false (2 ^ 52) (-52)⟩
instance : Add Float64 := ⟨add⟩
instance : Sub Float64 := ⟨sub⟩
instance : Mul Float64 := ⟨mul⟩
instance : Div Float64 := ⟨div⟩
instance : Neg Float64 := ⟨neg⟩
instance : Pow Float64 Nat := ⟨pow⟩
instance : NatCast Float64 := ⟨ofNat⟩
instance : BEq Float64 := ⟨eq⟩
instance : LT Float64 := ⟨fun a b => lt a b = true⟩
instance : LE Float64 := ⟨fun a b => le a b = true⟩
instance (a b : Float64) : Decidable (a < b) := inferInstanceAs (Decidable (lt a b = true))
instance (a b : Float64) : Decidable (a ≤ b) := inferInstanceAs (Decidable (le a b = true))

end Float64

/-! ## Inputs in `float64` -/

namespace NeuralNet

/-- A row of two values whose exact sum, `2^53 + 1`, is not a `float64`. -/
def roundedRow : Matrix (Fin 1) (Fin 2) Float64 :=
  !![Float64.ofNat (2 ^ 53), 1]

/-- A configuration with one input, one hidden and one output node. -/
def unitConf : networkConf Float64 :=
  ⟨1, 1, 1, 100, Float64.ofRat 1 10⟩

/-- The 1 × 1 matrix with the entry `v`. -/
def single (v : Float64) : Matrix (Fin 1) (Fin 1) Float64 :=
  !![v]

end NeuralNet

namespace HMM

/-- Initial probabilities 1/2 and 1/2. -/
def tinyProbabilities : Vec Float64 :=
  Vec.ofList 0 [Float64.ofRat 1 2, Float64.ofRat 1 2]

/-- Transition probabilities, all 1/2. -/
def tinyTransitions : Grid Float64 :=
  Grid.ofRows 0 2 [[Float64.ofRat 1 2, Float64.ofRat 1 2], [Float64.ofRat 1 2, Float64.ofRat 1 2]]

/-- Emission probabilities `2^-600`, but `2^-500` for the second symbol in the
second state. -/
def tinyEmissions : Grid Float64 :=
  Grid.ofRows 0 2 [[Float64.ofDyadic false 1 (-600), Float64.ofDyadic false 1 (-600)],
    [Float64.ofDyadic false 1 (-600), Float64.ofDyadic false 1 (-500)]]

/-- The two observed symbols 0 and 1. -/
def tinyObservations : Vec Int :=
  Vec.ofList 0 [0, 1]

/-- The entries of a slice of `float64` as rational numbers. -/
def Vec.exact (v : Vec Float64) : Vec ℚ :=
  ⟨v.len, fun i => (v.cell i).toRat⟩

/-- The entries of a table of `float64` as rational numbers. -/
def Grid.exact (g : Grid Float64) : Grid ℚ :=
  ⟨g.rows, g.cols, fun i j => (g.cell i j).toRat⟩

end HMM

namespace LinearRegression

/-- The two points (0, 0) and (2^-600, 1) in `float64`. -/
def steepPoints : List (Point Float64) :=
  [⟨0, 0⟩, ⟨Float64.ofDyadic false 1 (-600), 1⟩]

/-- The same two points (0, 0) and (2^-600, 1) as rational numbers. -/
def steepPointsExact : List (Point ℚ) :=
  steepPoints.map fun c => ⟨c.x.toRat, c.y.toRat⟩

end LinearRegression

namespace KMeans

/-- Two clusters with the centroids (0, 2^-30) and (0, 0) in `float64`. -/
def nearCentroids : List (Cluster Float64) :=
  [⟨⟨0, Float64.ofDyadic false 1 (-30)⟩, []⟩, ⟨⟨0, 0⟩, []⟩]

/-- The point (1, 0) in `float64`. -/
def unitPoint : Point Float64 := ⟨1, 0⟩

/-- The coordinates of a point of `float64` as real numbers. -/
def Point.exact (p : Point Float64) : Point ℝ :=
  ⟨(p.x.toRat : ℝ), (p.y.toRat : ℝ)⟩

end KMeans

/-! # Lemmas -/

set_option linter.unusedSectionVars false

namespace NeuralNet

section Generic
open Matrix
variable {R : Type} [Zero R] [One R] [HAdd R R R] [HSub R R R] [HMul R R R] [HDiv R R R] [Neg R]
  [HPow R Nat R] [NatCast R] [LT R] [LE R] [BEq R] [DecidableEq R]
  [∀ a b : R, Decidable (a < b)] [∀ a b : R, Decidable (a ≤ b)]

theorem reuse_ok (m : Dense R) {r c : Nat} (hr : 0 < r) (hc : 0 < c)
    (hm : m.cols = 0 ∨ (m.rows = r ∧ m.cols = c)) : m.reuseAsNonZeroed r c = .ok () := by
  unfold Dense.reuseAsNonZeroed Dense.IsEmpty
  rcases hm with hm | ⟨h1, h2⟩
  · simp [hm, Nat.pos_iff_ne_zero.mp hr, Nat.pos_iff_ne_zero.mp hc]
  · simp [h1, h2, Nat.pos_iff_ne_zero.mp hr, Nat.pos_iff_ne_zero.mp hc]

theorem bind_ok_eq {α β : Type} (a : α) (f : α → Except Panic β) :
    (Except.ok a >>= f) = f a := rfl

theorem bind_error_eq {α β : Type} (p : Panic) (f : α → Except Panic β) :
    ((Except.error p : Except Panic α) >>= f) = Except.error p := rfl

theorem pure_eq_ok {α : Type} (a : α) : (pure a : Except Panic α) = Except.ok a := rfl

/-- The product of two matrices as `Dense.Mul` accumulates it. -/
theorem Mul_accumulate (m : Dense R) {n k c : Nat} (hn : 0 < n) (hc : 0 < c)
    (hm : m.cols = 0 ∨ (m.rows = n ∧ m.cols = c))
    (A : Matrix (Fin n) (Fin k) R) (B : Matrix (Fin k) (Fin c) R) :
    m.Mul (Dense.ofMatrix A) (Dense.ofMatrix B)
      = .ok (Dense.ofMatrix (mulAccumulate A B)) := by
  have h := reuse_ok m hn hc hm
  simp only [Dense.Mul, Dense.ofMatrix, dif_pos, h, bind_ok_eq]
  rfl

theorem firstPanic_none {r c : Nat} (g : Fin r → Fin c → Except Panic R)
    (f : Fin r → Fin c → R) (hg : ∀ i j, g i j = .ok (f i j)) : firstPanic g = none := by
  simp [firstPanic, hg]

theorem Apply_ofMatrix (m : Dense R) {n c : Nat} (hn : 0 < n) (hc : 0 < c)
    (hm : m.cols = 0 ∨ (m.rows = n ∧ m.cols = c))
    (fn : Nat → Nat → R → Except Panic R) (A : Matrix (Fin n) (Fin c) R)
    (f : Matrix (Fin n) (Fin c) R) (hfn : ∀ i j, fn i.val j.val (A i j) = .ok (f i j)) :
    m.Apply fn (Dense.ofMatrix A) = .ok (Dense.ofMatrix f) := by
  have h := reuse_ok m hn hc hm
  have hp : firstPanic (fun (i : Fin n) (j : Fin c) => fn i.val j.val (A i j)) = none :=
    firstPanic_none _ f hfn
  simp only [Dense.Apply, Dense.ofMatrix, h, bind_ok_eq, hp, pure_eq_ok]
  simp only [hfn, valueOf]

theorem addBiases_ok {c : Nat} (b : Matrix (Fin 1) (Fin c) R) (i : Nat) (j : Fin c) (v : R) :
    addBiases (Dense.ofMatrix b) i j.val v = .ok (v + b 0 j) := by
  simp [addBiases, Dense.At, Dense.ofMatrix, bind_ok_eq, pure_eq_ok]

/-- The forward pass of `predict` in any arithmetic: every entry of the output
is the sigmoid of its pre-activation. -/
theorem forward_accumulate {n i h o : Nat} (exp : R → R) (hn : 0 < n) (hh : 0 < h) (ho : 0 < o)
    (X : Matrix (Fin n) (Fin i) R) (Wh : Matrix (Fin i) (Fin h) R)
    (bh : Matrix (Fin 1) (Fin h) R) (Wo : Matrix (Fin h) (Fin o) R)
    (bo : Matrix (Fin 1) (Fin o) R) :
    forward exp (Dense.ofMatrix X) (Dense.ofMatrix Wh) (Dense.ofMatrix bh) (Dense.ofMatrix Wo)
      (Dense.ofMatrix bo)
      = .ok (Dense.ofMatrix fun a b => sigmoid exp (outputPreActivation exp X Wh bh Wo bo a b)) := by
  unfold forward
  simp only []
  rw [Mul_accumulate _ hn hh (Or.inl rfl), bind_ok_eq,
    Apply_ofMatrix _ hn hh (Or.inr ⟨rfl, rfl⟩) _ _
      (fun a b => mulAccumulate X Wh a b + bh 0 b)
      (fun a b => addBiases_ok bh a b _), bind_ok_eq,
    Apply_ofMatrix _ hn hh (Or.inl rfl) _ _
      (fun a b => sigmoid exp (mulAccumulate X Wh a b + bh 0 b)) (fun _ _ => rfl),
    bind_ok_eq, Mul_accumulate _ hn ho (Or.inl rfl), bind_ok_eq,
    Apply_ofMatrix _ hn ho (Or.inr ⟨rfl, rfl⟩) _ _
      (outputPreActivation exp X Wh bh Wo bo)
      (fun a b => addBiases_ok bo a b _), bind_ok_eq,
    Apply_ofMatrix _ hn ho (Or.inl rfl) _ _
      (fun a b => sigmoid exp (outputPreActivation exp X Wh bh Wo bo a b)) (fun _ _ => rfl)]

theorem forLoop_set (hi : Nat) (body : Int → List R → Except Panic (List R)) (f : Nat → R)
    (hbody : ∀ k, k < hi → ∀ s, body (k : Int) s = .ok (s.set k (f k))) :
    ∀ (d j : Nat) (s : List R), j + d = hi →
      ∃ s', forLoop (hi : Int) body (j : Int) s = .ok s' ∧ s'.length = s.length
        ∧ ∀ k (hk : k < s'.length) (hk' : k < s.length),
            s'[k] = if j ≤ k ∧ k < hi then f k else s[k] := by
  intro d
  induction d with
  | zero =>
    intro j s hj
    refine ⟨s, ?_, rfl, fun k hk hk' => ?_⟩
    · rw [forLoop, if_neg (by omega)]
    · rw [if_neg (by omega)]
  | succ d ih =>
    intro j s hj
    obtain ⟨s', h1, h2, h3⟩ := ih (j + 1) (s.set j (f j)) (by omega)
    refine ⟨s', ?_, by simpa using h2, fun k hk hk' => ?_⟩
    · rw [forLoop, if_pos (by omega), hbody j (by omega) s]
      simp only []
      have hcast : ((j : Int) + 1) = ((j + 1 : Nat) : Int) := by push_cast; rfl
      rw [hcast]
      exact h1
    · rw [h3 k hk (by simpa using hk')]
      by_cases hjk : j = k
      · subst hjk
        simp [show j < hi by omega]
      · simp only [List.getElem_set, if_neg hjk]
        by_cases hc : j + 1 ≤ k ∧ k < hi
        · rw [if_pos hc, if_pos ⟨by omega, hc.2⟩]
        · rw [if_neg hc, if_neg (by omega)]

theorem NewDense_some_ok (r c : Nat) (hr : 0 < r) (hc : 0 < c) (d : List R)
    (hd : d.length = r * c) :
    NewDense (r : Int) (c : Int) (some d) = .ok (Dense.ofRaw r c d) := by
  unfold NewDense
  have h1 : ¬ ((r : Int) ≤ 0 ∨ (c : Int) ≤ 0) := by omega
  have h2 : ¬ ((r : Int) * (c : Int) ≠ (d.length : Int)) := by
    rw [hd]; push_cast; simp
  simp only [if_neg h1, if_neg h2, Int.toNat_ofNat]

/-- Axis 0 in any arithmetic: entry `j` is `floatsSum` of column `j`. -/
theorem sumAlongAxis_zero (floatsSum : List R → R) {r c : Nat} (hc : 0 < c)
    (M : Matrix (Fin r) (Fin c) R) :
    sumAlongAxis floatsSum 0 (Dense.ofMatrix M)
      = .ok (some (Dense.ofMatrix
          (fun (_ : Fin 1) j => floatsSum (List.ofFn fun a => M a j))), none) := by
  obtain ⟨s', h1, h2, h3⟩ := forLoop_set c
    (fun i (data : List R) => do
      let col ← Col i.toNat (Dense.ofMatrix M)
      pure (data.set i.toNat (floatsSum col)))
    (fun k => if hk : k < c then floatsSum (List.ofFn fun a => M a ⟨k, hk⟩) else 0)
    (fun k hk s => by
      simp only [Col, Dense.ofMatrix, Int.toNat_ofNat, hk, dif_pos, bind_ok_eq, pure_eq_ok])
    c 0 (List.replicate c 0) (by omega)
  have hlen : s'.length = 1 * c := by simp [h2]
  have hms : (makeSlice ((c : Nat) : Int) : Except Panic (List R)) = .ok (List.replicate c 0) := by
    unfold makeSlice
    rw [if_neg (by omega)]
    simp
  show (do
      let data : List R ← makeSlice ((c : Nat) : Int)
      let data ← forLoop ((c : Nat) : Int) (fun i (data : List R) => do
        let col ← Col i.toNat (Dense.ofMatrix M)
        pure (data.set i.toNat (floatsSum col))) ((0 : Nat) : Int) data
      let output ← NewDense 1 ((c : Nat) : Int) (some data)
      pure (some output, none)) = _
  rw [hms, bind_ok_eq, h1, bind_ok_eq]
  have hnd := NewDense_some_ok 1 c (by decide) hc s' hlen
  simp only [Nat.cast_one] at hnd
  rw [hnd, bind_ok_eq, pure_eq_ok]
  congr 3
  unfold Dense.ofRaw Dense.ofMatrix
  congr 1
  funext a b
  have hb : b.val < s'.length := by rw [h2]; simp [b.isLt]
  have ha : a.val = 0 := by omega
  rw [ha, Nat.zero_mul, Nat.zero_add, List.getD_eq_getElem _ _ hb,
    h3 b.val hb (by simp [b.isLt])]
  simp [b.isLt]

/-- Axis 1 in any arithmetic: entry `i` is `floatsSum` of row `i`. -/
theorem sumAlongAxis_one (floatsSum : List R → R) {r c : Nat} (hr : 0 < r)
    (M : Matrix (Fin r) (Fin c) R) :
    sumAlongAxis floatsSum 1 (Dense.ofMatrix M)
      = .ok (some (Dense.ofMatrix
          (fun a (_ : Fin 1) => floatsSum (List.ofFn fun b => M a b))), none) := by
  obtain ⟨s', h1, h2, h3⟩ := forLoop_set r
    (fun i (data : List R) => do
      let row ← Row i.toNat (Dense.ofMatrix M)
      pure (data.set i.toNat (floatsSum row)))
    (fun k => if hk : k < r then floatsSum (List.ofFn fun b => M ⟨k, hk⟩ b) else 0)
    (fun k hk s => by
      simp only [Row, Dense.ofMatrix, Int.toNat_ofNat, hk, dif_pos, bind_ok_eq, pure_eq_ok])
    r 0 (List.replicate r 0) (by omega)
  have hlen : s'.length = r * 1 := by simp [h2]
  have hms : (makeSlice ((r : Nat) : Int) : Except Panic (List R)) = .ok (List.replicate r 0) := by
    unfold makeSlice
    rw [if_neg (by omega)]
    simp
  show (do
      let data : List R ← makeSlice ((r : Nat) : Int)
      let data ← forLoop ((r : Nat) : Int) (fun i (data : List R) => do
        let row ← Row i.toNat (Dense.ofMatrix M)
        pure (data.set i.toNat (floatsSum row))) ((0 : Nat) : Int) data
      let output ← NewDense ((r : Nat) : Int) 1 (some data)
      pure (some output, none)) = _
  rw [hms, bind_ok_eq, h1, bind_ok_eq]
  have hnd := NewDense_some_ok r 1 hr (by decide) s' hlen
  simp only [Nat.cast_one] at hnd
  rw [hnd, bind_ok_eq, pure_eq_ok]
  congr 3
  unfold Dense.ofRaw Dense.ofMatrix
  congr 1
  funext a b
  have ha : a.val < s'.length := by rw [h2]; simp [a.isLt]
  have hb : b.val = 0 := by omega
  rw [hb, Nat.mul_one, Nat.add_zero, List.getD_eq_getElem _ _ ha,
    h3 a.val ha (by simp [a.isLt])]
  simp [a.isLt]

theorem sumAlongAxis_other (floatsSum : List R → R) (axis : Int) (h0 : axis ≠ 0) (h1 : axis ≠ 1)
    (m : Dense R) :
    sumAlongAxis floatsSum axis m = .ok (none, some GoError.invalidAxis) := by
  unfold sumAlongAxis
  simp only [if_neg h0, if_neg h1, pure_eq_ok]

end Generic

section PointerLemmas

variable {R : Type} [Zero R] [One R] [HAdd R R R] [HSub R R R] [HMul R R R] [HDiv R R R] [Neg R]
  [HPow R Nat R] [NatCast R] [LT R] [LE R] [BEq R] [DecidableEq R]
  [∀ a b : R, Decidable (a < b)] [∀ a b : R, Decidable (a ≤ b)]

theorem Store.load_write (s : Store R) (p q : Nat) (m : Dense R) :
    (s.write p m).load q = if q = p then m else s.load q := rfl

theorem Store.load_new (s : Store R) (q : Nat) :
    s.new.2.load q = if q = s.next then Dense.empty else s.load q := rfl

theorem mulAt_ok (dst a b : Nat) (w : World R) (m : Dense R)
    (h : (w.store.load dst).Mul (w.store.load a) (w.store.load b) = .ok m) :
    mulAt dst a b w = .ok { w with store := w.store.write dst m } := by
  simp only [mulAt, h, bind_ok_eq, pure_eq_ok]

theorem mulAt_error (dst a b : Nat) (w : World R) (p : Panic)
    (h : (w.store.load dst).Mul (w.store.load a) (w.store.load b) = .error p) :
    mulAt dst a b w = .error p := by
  simp only [mulAt, h, bind_error_eq]

theorem applyAt_ok (fn : World R → Nat → Nat → R → Except Panic R) (dst a : Nat) (w : World R)
    (m : Dense R) (h : (w.store.load dst).Apply (fn w) (w.store.load a) = .ok m) :
    applyAt fn dst a w = .ok { w with store := w.store.write dst m } := by
  simp only [applyAt, h, bind_ok_eq, pure_eq_ok]

theorem applyAt_error (fn : World R → Nat → Nat → R → Except Panic R) (dst a : Nat)
    (w : World R) (p : Panic) (h : (w.store.load dst).Apply (fn w) (w.store.load a) = .error p) :
    applyAt fn dst a w = .error p := by
  simp only [applyAt, h, bind_error_eq]

/-- `predict` on pointers runs the forward pass on the matrices behind its
pointers: it panics where the forward pass panics, and otherwise returns the
pointer to a new object that holds the output, in a world in which the struct
of the receiver and every object that existed before the call are as they
were. -/
theorem predictRef_forward (exp : R → R) (x hiddenWeights hiddenBiases outputWeights
    outputBiases : Nat) (w : World R)
    (hhw : w.net.hiddenWeights = some hiddenWeights)
    (hhb : w.net.hiddenBiases = some hiddenBiases)
    (how : w.net.outputWeights = some outputWeights)
    (hob : w.net.outputBiases = some outputBiases)
    (hx : x < w.store.next) (h1 : hiddenWeights < w.store.next)
    (h2 : hiddenBiases < w.store.next) (h3 : outputWeights < w.store.next)
    (h4 : outputBiases < w.store.next) :
    match forward exp (w.store.load x) (w.store.load hiddenWeights) (w.store.load hiddenBiases)
        (w.store.load outputWeights) (w.store.load outputBiases) with
    | .error p => predictRef exp x w = .error p
    | .ok output =>
      ∃ w' : World R, predictRef exp x w = .ok ((some w.store.next, none), w')
        ∧ w'.net = w.net ∧ w'.store.load w.store.next = output
        ∧ w.store.next ≤ w'.store.next
        ∧ ∀ p, p < w.store.next → w'.store.load p = w.store.load p := by
  have n0 : ∀ p, p < w.store.next → p ≠ w.store.next := fun p hp => by omega
  have n1 : ∀ p, p < w.store.next → p ≠ w.store.next + 1 := fun p hp => by omega
  have n2 : ∀ p, p < w.store.next → p ≠ w.store.next + 1 + 1 := fun p hp => by omega
  have n3 : ∀ p, p < w.store.next → p ≠ w.store.next + 1 + 1 + 1 := fun p hp => by omega
  have d0 : w.store.next + 1 ≠ w.store.next := by omega
  have d1 : w.store.next + 1 + 1 ≠ w.store.next := by omega
  have d2 : w.store.next + 1 + 1 ≠ w.store.next + 1 := by omega
  have d3 : w.store.next + 1 + 1 + 1 ≠ w.store.next := by omega
  have d4 : w.store.next + 1 + 1 + 1 ≠ w.store.next + 1 := by omega
  have d5 : w.store.next + 1 + 1 + 1 ≠ w.store.next + 1 + 1 := by omega
  unfold forward predictRef
  simp only [hhw, hhb, how, hob, World.new, Store.new, mulAt, applyAt, Store.load, Store.write,
    n0 _ hx, n1 _ hx, n0 _ h1, n1 _ h1, n0 _ h2, n1 _ h2, n2 _ h2, n3 _ h2, n0 _ h3, n1 _ h3,
    n2 _ h3, n3 _ h3, n0 _ h4, n1 _ h4, n2 _ h4, n3 _ h4, if_true, if_false]
  cases e1 : Dense.empty.Mul (w.store.cells x) (w.store.cells hiddenWeights) with
  | error p => simp only [bind_error_eq]
  | ok m1 =>
    simp only [bind_ok_eq, pure_eq_ok, if_true, if_false, d0, d1, d2, d3, d4, d5, Ne.symm d0, Ne.symm d1,
      Ne.symm d2, Ne.symm d3, Ne.symm d4, Ne.symm d5, n0 _ h2, n1 _ h2, n2 _ h2, n3 _ h2, n0 _ h3,
      n1 _ h3, n2 _ h3, n3 _ h3, n0 _ h4, n1 _ h4, n2 _ h4, n3 _ h4]
    cases e2 : m1.Apply (addBiases (w.store.cells hiddenBiases)) m1 with
    | error p => simp only [bind_error_eq]
    | ok m2 =>
      simp only [bind_ok_eq, pure_eq_ok, if_true, if_false, d0, d1, d2, d3, d4, d5, Ne.symm d0, Ne.symm d1,
        Ne.symm d2, Ne.symm d3, Ne.symm d4, Ne.symm d5, n0 _ h2, n1 _ h2, n2 _ h2, n3 _ h2, n0 _ h3,
        n1 _ h3, n2 _ h3, n3 _ h3, n0 _ h4, n1 _ h4, n2 _ h4, n3 _ h4]
      cases e3 : Dense.empty.Apply (applySigmoid exp) m2 with
      | error p => simp only [bind_error_eq]
      | ok m3 =>
        simp only [bind_ok_eq, pure_eq_ok, if_true, if_false, d0, d1, d2, d3, d4, d5, Ne.symm d0, Ne.symm d1,
          Ne.symm d2, Ne.symm d3, Ne.symm d4, Ne.symm d5, n0 _ h2, n1 _ h2, n2 _ h2, n3 _ h2, n0 _ h3,
          n1 _ h3, n2 _ h3, n3 _ h3, n0 _ h4, n1 _ h4, n2 _ h4, n3 _ h4]
        cases e4 : Dense.empty.Mul m3 (w.store.cells outputWeights) with
        | error p => simp only [bind_error_eq]
        | ok m4 =>
          simp only [bind_ok_eq, pure_eq_ok, if_true, if_false, d0, d1, d2, d3, d4, d5, Ne.symm d0, Ne.symm d1,
            Ne.symm d2, Ne.symm d3, Ne.symm d4, Ne.symm d5, n0 _ h2, n1 _ h2, n2 _ h2, n3 _ h2, n0 _ h3,
            n1 _ h3, n2 _ h3, n3 _ h3, n0 _ h4, n1 _ h4, n2 _ h4, n3 _ h4]
          cases e5 : m4.Apply (addBiases (w.store.cells outputBiases)) m4 with
          | error p => simp only [bind_error_eq]
          | ok m5 =>
            simp only [bind_ok_eq, pure_eq_ok, if_true, if_false, d0, d1, d2, d3, d4, d5, Ne.symm d0, Ne.symm d1,
              Ne.symm d2, Ne.symm d3, Ne.symm d4, Ne.symm d5, n0 _ h2, n1 _ h2, n2 _ h2, n3 _ h2, n0 _ h3,
              n1 _ h3, n2 _ h3, n3 _ h3, n0 _ h4, n1 _ h4, n2 _ h4, n3 _ h4]
            cases e6 : Dense.empty.Apply (applySigmoid exp) m5 with
            | error p => simp only [bind_error_eq]
            | ok m6 =>
              simp only [bind_ok_eq, pure_eq_ok, if_true, if_false, d0, d1, d2, d3, d4, d5, Ne.symm d0, Ne.symm d1,
                Ne.symm d2, Ne.symm d3, Ne.symm d4, Ne.symm d5, n0 _ h2, n1 _ h2, n2 _ h2, n3 _ h2, n0 _ h3,
                n1 _ h3, n2 _ h3, n3 _ h3, n0 _ h4, n1 _ h4, n2 _ h4, n3 _ h4]
              refine ⟨_, rfl, rfl, ?_, ?_, ?_⟩
              · simp only [if_true]
              · show w.store.next ≤ w.store.next + 1 + 1 + 1 + 1
                omega
              · intro p hp
                simp only [n0 _ hp, n1 _ hp, n2 _ hp, n3 _ hp, if_false]

/-- What the caller of `predict` gets is what `predict` computes from the
matrices behind the pointers. -/
theorem predictResult_eq (exp : R → R) (x : Nat) (w : World R) (hv : w.Valid x) :
    predictResult exp x w = predict exp w.fitted (w.store.load x) := by
  obtain ⟨hx, h1, h2, h3, h4⟩ := hv
  unfold predictResult predict World.fitted
  cases hhw : w.net.hiddenWeights with
  | none => simp [predictRef, hhw]
  | some hiddenWeights =>
    cases how : w.net.outputWeights with
    | none => simp [predictRef, hhw, how]
    | some outputWeights =>
      cases hhb : w.net.hiddenBiases with
      | none => simp [predictRef, hhw, how, hhb]
      | some hiddenBiases =>
        cases hob : w.net.outputBiases with
        | none => simp [predictRef, hhw, how, hhb, hob]
        | some outputBiases =>
          have hf := predictRef_forward exp x hiddenWeights hiddenBiases outputWeights
            outputBiases w hhw hhb how hob hx (h1 _ hhw) (h2 _ hhb) (h3 _ how) (h4 _ hob)
          simp only [Option.map_some']
          cases hfw : forward exp (w.store.load x) (w.store.load hiddenWeights)
              (w.store.load hiddenBiases) (w.store.load outputWeights)
              (w.store.load outputBiases) with
          | error p =>
            rw [hfw] at hf
            simp only [hf, bind_error_eq]
          | ok output =>
            rw [hfw] at hf
            obtain ⟨w', hrun, _, hout, _, _⟩ := hf
            simp only [hrun, bind_ok_eq, pure_eq_ok, Option.map_some', hout]

/-- A call of `predict` that returns leaves the struct of the receiver and
every object that existed before the call as they were. -/
theorem predictRef_frame (exp : R → R) (x : Nat) (w : World R) (hv : w.Valid x)
    (r : Option Nat × Option GoError) (w' : World R) (hrun : predictRef exp x w = .ok (r, w')) :
    w'.net = w.net ∧ w.store.next ≤ w'.store.next
      ∧ ∀ p, p < w.store.next → w'.store.load p = w.store.load p := by
  obtain ⟨hx, h1, h2, h3, h4⟩ := hv
  have hsame : ∀ r₀ : Option Nat × Option GoError,
      predictRef exp x w = .ok (r₀, w) → w'.net = w.net ∧ w.store.next ≤ w'.store.next
        ∧ ∀ p, p < w.store.next → w'.store.load p = w.store.load p := by
    intro r₀ h
    rw [h] at hrun
    injection hrun with hrun
    injection hrun with _ hw
    subst hw
    exact ⟨rfl, le_refl _, fun _ _ => rfl⟩
  cases hhw : w.net.hiddenWeights with
  | none => exact hsame (none, some .weightsEmpty) (by simp [predictRef, hhw])
  | some hiddenWeights =>
    cases how : w.net.outputWeights with
    | none => exact hsame (none, some .weightsEmpty) (by simp [predictRef, hhw, how])
    | some outputWeights =>
      cases hhb : w.net.hiddenBiases with
      | none => exact hsame (none, some .biasesEmpty) (by simp [predictRef, hhw, how, hhb])
      | some hiddenBiases =>
        cases hob : w.net.outputBiases with
        | none =>
          exact hsame (none, some .biasesEmpty) (by simp [predictRef, hhw, how, hhb, hob])
        | some outputBiases =>
          have hf := predictRef_forward exp x hiddenWeights hiddenBiases outputWeights
            outputBiases w hhw hhb how hob hx (h1 _ hhw) (h2 _ hhb) (h3 _ how) (h4 _ hob)
          cases hfw : forward exp (w.store.load x) (w.store.load hiddenWeights)
              (w.store.load hiddenBiases) (w.store.load outputWeights)
              (w.store.load outputBiases) with
          | error p =>
            rw [hfw] at hf
            rw [hf] at hrun
            cases hrun
          | ok output =>
            rw [hfw] at hf
            obtain ⟨w'', hrun', hnet, _, hle, hold⟩ := hf
            rw [hrun'] at hrun
            injection hrun with hrun
            injection hrun with _ hw
            subst hw
            exact ⟨hnet, hle, hold⟩

/-- On the sample world over the reals the call of `predict` returns: the
pointer to the object allocated first, and a nil error. -/
theorem predictRef_sampleWorld_returns :
    ∃ w' : World ℝ, predictRef Real.exp 0 sampleWorld = .ok ((some 5, none), w') := by
  have hf := forward_accumulate Real.exp (by decide : 0 < 2) (by decide : 0 < 5)
    (by decide : 0 < 3) (sampleInputs : Matrix (Fin 2) (Fin 4) ℝ)
    (initialHiddenWeights 4 5 fun _ => 0.5) (constantRow 5 0)
    (initialOutputWeights 4 5 3 fun _ => 0.5) (constantRow 3 0)
  have h := predictRef_forward Real.exp 0 1 2 3 4 (sampleWorld : World ℝ) rfl rfl rfl rfl
    (by decide) (by decide) (by decide) (by decide) (by decide)
  have e0 : (sampleWorld : World ℝ).store.load 0 = Dense.ofMatrix sampleInputs := rfl
  have e1 : (sampleWorld : World ℝ).store.load 1
      = Dense.ofMatrix (initialHiddenWeights 4 5 fun _ => 0.5) := rfl
  have e2 : (sampleWorld : World ℝ).store.load 2 = Dense.ofMatrix (constantRow 5 0) := rfl
  have e3 : (sampleWorld : World ℝ).store.load 3
      = Dense.ofMatrix (initialOutputWeights 4 5 3 fun _ => 0.5) := rfl
  have e4 : (sampleWorld : World ℝ).store.load 4 = Dense.ofMatrix (constantRow 3 0) := rfl
  rw [e0, e1, e2, e3, e4, hf] at h
  obtain ⟨w', hw', _⟩ := h
  exact ⟨w', hw'⟩

end PointerLemmas

section Lemmas
open Matrix
variable {R : Type} [LinearOrderedField R]

theorem foldl_add_eq_sum {ι : Type} (l : List ι) (f : ι → R) (z : R) :
    l.foldl (fun sum k => sum + f k) z = z + (l.map f).sum := by
  induction l generalizing z with
  | nil => simp
  | cons a l ih => rw [List.foldl_cons, ih, List.map_cons, List.sum_cons, add_assoc]

theorem mulAccumulate_eq_mul {n k c : Nat} (A : Matrix (Fin n) (Fin k) R)
    (B : Matrix (Fin k) (Fin c) R) : mulAccumulate A B = A * B := by
  funext a b
  unfold mulAccumulate
  rw [foldl_add_eq_sum, zero_add, Matrix.mul_apply, Fin.sum_univ_def]

theorem Mul_ofMatrix (m : Dense R) {n k c : Nat} (hn : 0 < n) (hc : 0 < c)
    (hm : m.cols = 0 ∨ (m.rows = n ∧ m.cols = c))
    (A : Matrix (Fin n) (Fin k) R) (B : Matrix (Fin k) (Fin c) R) :
    m.Mul (Dense.ofMatrix A) (Dense.ofMatrix B) = .ok (Dense.ofMatrix (A * B)) := by
  rw [Mul_accumulate m hn hc hm, mulAccumulate_eq_mul]

theorem sumLeftToRight_eq_sum (s : List R) : sumLeftToRight s = s.sum := by
  unfold sumLeftToRight
  rw [List.sum_eq_foldl]

theorem elementwise_ofMatrix (op : R → R → R) (m : Dense R) {n c : Nat} (hn : 0 < n) (hc : 0 < c)
    (hm : m.cols = 0 ∨ (m.rows = n ∧ m.cols = c)) (A B : Matrix (Fin n) (Fin c) R) :
    Dense.elementwise op m (Dense.ofMatrix A) (Dense.ofMatrix B)
      = .ok (Dense.ofMatrix (fun i j => op (A i j) (B i j))) := by
  have h := reuse_ok m hn hc hm
  simp only [Dense.elementwise, Dense.ofMatrix, and_self, dif_pos, h, bind_ok_eq, pure_eq_ok]
  rfl

theorem Scale_ofMatrix (m : Dense R) {n c : Nat} (hn : 0 < n) (hc : 0 < c)
    (hm : m.cols = 0 ∨ (m.rows = n ∧ m.cols = c)) (k : R) (A : Matrix (Fin n) (Fin c) R) :
    m.Scale k (Dense.ofMatrix A) = .ok (Dense.ofMatrix (k • A)) := by
  have h := reuse_ok m hn hc hm
  simp only [Dense.Scale, Dense.ofMatrix, h, bind_ok_eq, pure_eq_ok]
  rfl

theorem T_ofMatrix {n c : Nat} (A : Matrix (Fin n) (Fin c) R) :
    (Dense.ofMatrix A).T = Dense.ofMatrix Aᵀ := rfl

variable {n i h o : Nat}

theorem forward_ofMatrix (exp : R → R) (hn : 0 < n) (hh : 0 < h) (ho : 0 < o)
    (X : Matrix (Fin n) (Fin i) R) (Wh : Matrix (Fin i) (Fin h) R)
    (bh : Matrix (Fin 1) (Fin h) R) (Wo : Matrix (Fin h) (Fin o) R)
    (bo : Matrix (Fin 1) (Fin o) R) :
    forward exp (Dense.ofMatrix X) (Dense.ofMatrix Wh) (Dense.ofMatrix bh) (Dense.ofMatrix Wo)
      (Dense.ofMatrix bo) = .ok (Dense.ofMatrix (forwardOutput exp X Wh bh Wo bo)) := by
  unfold forward
  simp only []
  rw [Mul_ofMatrix _ hn hh (Or.inl rfl), bind_ok_eq,
    Apply_ofMatrix _ hn hh (Or.inr ⟨rfl, rfl⟩) _ _ (addBroadcast (X * Wh) bh)
      (fun a b => addBiases_ok bh a b _), bind_ok_eq,
    Apply_ofMatrix _ hn hh (Or.inl rfl) _ _ (hiddenActivation exp X Wh bh) (fun _ _ => rfl),
    bind_ok_eq, Mul_ofMatrix _ hn ho (Or.inl rfl), bind_ok_eq,
    Apply_ofMatrix _ hn ho (Or.inr ⟨rfl, rfl⟩) _ _
      (addBroadcast (hiddenActivation exp X Wh bh * Wo) bo)
      (fun a b => addBiases_ok bo a b _), bind_ok_eq,
    Apply_ofMatrix _ hn ho (Or.inl rfl) _ _ (forwardOutput exp X Wh bh Wo bo) (fun _ _ => rfl)]


theorem epoch_ofMatrix (exp : R → R) (lr : R) (hn : 0 < n) (hi : 0 < i) (hh : 0 < h) (ho : 0 < o)
    (X : Matrix (Fin n) (Fin i) R) (Y : Matrix (Fin n) (Fin o) R)
    (bh : Matrix (Fin 1) (Fin h) R) (bo : Matrix (Fin 1) (Fin o) R)
    (Wh : Matrix (Fin i) (Fin h) R) (Wo : Matrix (Fin h) (Fin o) R)
    (out : Dense R) (hout : out.cols = 0 ∨ (out.rows = n ∧ out.cols = o)) :
    epoch exp lr (Dense.ofMatrix X) (Dense.ofMatrix Y) (Dense.ofMatrix bh) (Dense.ofMatrix bo)
        ⟨Dense.ofMatrix Wh, Dense.ofMatrix Wo, out⟩
      = .ok ⟨Dense.ofMatrix (referenceStep exp lr X Y bh bo (Wh, Wo)).1,
          Dense.ofMatrix (referenceStep exp lr X Y bh bo (Wh, Wo)).2,
          Dense.ofMatrix (forwardOutput exp X Wh bh Wo bo)⟩ := by
  unfold epoch
  simp only []
  rw [Mul_ofMatrix _ hn hh (Or.inl rfl), bind_ok_eq,
    Apply_ofMatrix _ hn hh (Or.inr ⟨rfl, rfl⟩) _ _ (addBroadcast (X * Wh) bh)
      (fun a b => addBiases_ok bh a b _), bind_ok_eq,
    Apply_ofMatrix _ hn hh (Or.inl rfl) _ _ (hiddenActivation exp X Wh bh) (fun _ _ => rfl),
    bind_ok_eq, Mul_ofMatrix _ hn ho (Or.inl rfl), bind_ok_eq,
    Apply_ofMatrix _ hn ho (Or.inr ⟨rfl, rfl⟩) _ _
      (addBroadcast (hiddenActivation exp X Wh bh * Wo) bo)
      (fun a b => addBiases_ok bo a b _), bind_ok_eq,
    Apply_ofMatrix _ hn ho hout _ _ (forwardOutput exp X Wh bh Wo bo) (fun _ _ => rfl),
    bind_ok_eq]
  unfold Dense.Sub Dense.MulElem Dense.Add
  rw [elementwise_ofMatrix _ _ hn ho (Or.inl rfl), bind_ok_eq,
    Apply_ofMatrix _ hn ho (Or.inl rfl) _ _
      ((forwardOutput exp X Wh bh Wo bo).map (sigmoidPrime exp)) (fun _ _ => rfl), bind_ok_eq,
    Apply_ofMatrix _ hn hh (Or.inl rfl) _ _
      ((hiddenActivation exp X Wh bh).map (sigmoidPrime exp)) (fun _ _ => rfl), bind_ok_eq,
    elementwise_ofMatrix _ _ hn ho (Or.inl rfl), bind_ok_eq, T_ofMatrix,
    Mul_ofMatrix _ hn hh (Or.inl rfl), bind_ok_eq,
    elementwise_ofMatrix _ _ hn hh (Or.inl rfl), bind_ok_eq, T_ofMatrix,
    Mul_ofMatrix _ hh ho (Or.inl rfl), bind_ok_eq,
    Scale_ofMatrix _ hh ho (Or.inr ⟨rfl, rfl⟩), bind_ok_eq,
    elementwise_ofMatrix _ _ hh ho (Or.inr ⟨rfl, rfl⟩), bind_ok_eq, T_ofMatrix,
    Mul_ofMatrix _ hi hh (Or.inl rfl), bind_ok_eq,
    Scale_ofMatrix _ hi hh (Or.inr ⟨rfl, rfl⟩), bind_ok_eq,
    elementwise_ofMatrix _ _ hi hh (Or.inr ⟨rfl, rfl⟩), bind_ok_eq]
  rfl


theorem forLoop_epoch (exp : R → R) (lr : R) (hn : 0 < n) (hi : 0 < i) (hh : 0 < h) (ho : 0 < o)
    (X : Matrix (Fin n) (Fin i) R) (Y : Matrix (Fin n) (Fin o) R)
    (bh : Matrix (Fin 1) (Fin h) R) (bo : Matrix (Fin 1) (Fin o) R) (epochs : Int) (k : Nat) :
    ∀ (j : Int), (epochs - j).toNat = k →
    ∀ (W : Matrix (Fin i) (Fin h) R × Matrix (Fin h) (Fin o) R) (out : Dense R),
      (out.cols = 0 ∨ (out.rows = n ∧ out.cols = o)) →
      ∃ out' : Dense R, forLoop epochs
        (fun _ p => epoch exp lr (Dense.ofMatrix X) (Dense.ofMatrix Y) (Dense.ofMatrix bh)
          (Dense.ofMatrix bo) p) j ⟨Dense.ofMatrix W.1, Dense.ofMatrix W.2, out⟩
        = .ok ⟨Dense.ofMatrix ((referenceStep exp lr X Y bh bo)^[k] W).1,
            Dense.ofMatrix ((referenceStep exp lr X Y bh bo)^[k] W).2, out'⟩ := by
  induction k with
  | zero =>
    intro j hj W out _
    refine ⟨out, ?_⟩
    rw [forLoop, if_neg (by omega)]
    rfl
  | succ k ih =>
    intro j hj W out hout
    obtain ⟨out', h'⟩ := ih (j + 1) (by omega) (referenceStep exp lr X Y bh bo W)
      (Dense.ofMatrix (forwardOutput exp X W.1 bh W.2 bo)) (Or.inr ⟨rfl, rfl⟩)
    refine ⟨out', ?_⟩
    rw [forLoop, if_pos (by omega), epoch_ofMatrix exp lr hn hi hh ho X Y bh bo W.1 W.2 out hout]
    simp only [Function.iterate_succ_apply]
    exact h'

theorem index_lt {r c : Nat} (a : Fin r) (b : Fin c) : a.val * c + b.val < r * c := by
  have h1 : a.val * c + b.val < (a.val + 1) * c := by
    rw [Nat.add_mul, Nat.one_mul]
    exact Nat.add_lt_add_left b.isLt _
  exact lt_of_lt_of_le h1 (Nat.mul_le_mul_right c a.isLt)

theorem ofRaw_fillRandom (r c k : Nat) (r1 : Nat → R) (raw : List R) (hraw : raw.length = r * c) :
    Dense.ofRaw r c (fillRandom r1 k raw)
      = Dense.ofMatrix (fun (a : Fin r) (b : Fin c) => r1 (k + (a.val * c + b.val))) := by
  unfold Dense.ofRaw Dense.ofMatrix fillRandom
  congr 1
  funext a b
  have hlt : a.val * c + b.val < ((List.range raw.length).map fun i => r1 (k + i)).length := by
    simp only [List.length_map, List.length_range, hraw]
    exact index_lt a b
  rw [List.getD_eq_getElem _ _ hlt]
  simp

theorem ofRaw_replicate (c : Nat) (bias : R) :
    Dense.ofRaw 1 c (List.replicate c bias) = Dense.ofMatrix (constantRow c bias) := by
  unfold Dense.ofRaw Dense.ofMatrix constantRow
  congr 1
  funext a b
  have hlt : a.val * c + b.val < (List.replicate c bias).length := by
    have := index_lt a b
    simp [this]
  rw [List.getD_eq_getElem _ _ hlt]
  simp

theorem RawData_length (m : Dense R) : m.RawData.length = m.rows * m.cols := by
  simp [Dense.RawData]

theorem allocate_eq (config : networkConf R) (bias : R) (r1 : Nat → R) (hi : 0 < i) (hh : 0 < h)
    (ho : 0 < o) (ci : config.numberOfInputNodes = (i : Int))
    (ch : config.numberOfHiddenNodes = (h : Int)) (co : config.numberOfOutputNodes = (o : Int)) :
    allocate config bias r1 = .ok (Dense.ofMatrix (initialHiddenWeights i h r1),
      Dense.ofMatrix (constantRow h bias), Dense.ofMatrix (initialOutputWeights i h o r1),
      Dense.ofMatrix (constantRow o bias)) := by
  have h0 : ¬ ((h : Int) < 0) := by omega
  have o0 : ¬ ((o : Int) < 0) := by omega
  have i1 : i ≠ 0 := by omega
  have h1 : h ≠ 0 := by omega
  have o1 : o ≠ 0 := by omega
  unfold allocate makeSlice NewDense
  simp [ci, ch, co, bind_ok_eq, pure_eq_ok, h0, o0, i1, h1, o1]
  refine ⟨?_, ofRaw_replicate h bias, ?_, ofRaw_replicate o bias⟩
  · rw [ofRaw_fillRandom _ _ _ _ _ (RawData_length _)]
    simp only [Dense.ofRaw, initialHiddenWeights, Nat.zero_add]
    rfl
  · rw [ofRaw_fillRandom _ _ _ _ _ (RawData_length _)]
    simp only [Dense.ofRaw, initialOutputWeights, fillRandom, List.length_map, List.length_range,
      RawData_length]
    rfl


theorem train_eq (exp : R → R) (net : network R) (bias : R) (r1 : Nat → R)
    (hn : 0 < n) (hi : 0 < i) (hh : 0 < h) (ho : 0 < o)
    (ci : net.config.numberOfInputNodes = (i : Int))
    (ch : net.config.numberOfHiddenNodes = (h : Int))
    (co : net.config.numberOfOutputNodes = (o : Int))
    (X : Matrix (Fin n) (Fin i) R) (Y : Matrix (Fin n) (Fin o) R) :
    train exp net (Dense.ofMatrix X) (Dense.ofMatrix Y) bias r1
      = ({ net with
            hiddenWeights := some (Dense.ofMatrix
              ((referenceStep exp net.config.learningRate X Y (constantRow h bias)
                (constantRow o bias))^[net.config.numberOfEpochs.toNat]
                (initialHiddenWeights i h r1, initialOutputWeights i h o r1)).1)
            hiddenBiases := some (Dense.ofMatrix (constantRow h bias))
            outputWeights := some (Dense.ofMatrix
              ((referenceStep exp net.config.learningRate X Y (constantRow h bias)
                (constantRow o bias))^[net.config.numberOfEpochs.toNat]
                (initialHiddenWeights i h r1, initialOutputWeights i h o r1)).2)
            outputBiases := some (Dense.ofMatrix (constantRow o bias)) },
          .ok none) := by
  obtain ⟨out', hloop⟩ := forLoop_epoch exp net.config.learningRate hn hi hh ho X Y
    (constantRow h bias) (constantRow o bias) net.config.numberOfEpochs
    net.config.numberOfEpochs.toNat 0 (by simp)
    (initialHiddenWeights i h r1, initialOutputWeights i h o r1) Dense.empty (Or.inl rfl)
  unfold train propagate
  simp only [allocate_eq net.config bias r1 hi hh ho ci ch co, bind_ok_eq, hloop, pure_eq_ok]


theorem sigmoid_real_pos (z : ℝ) : 0 < sigmoid Real.exp z := by
  unfold sigmoid
  have := Real.exp_pos (-z)
  positivity

theorem sigmoid_real_lt_one (z : ℝ) : sigmoid Real.exp z < 1 := by
  unfold sigmoid
  have h := Real.exp_pos (-z)
  rw [div_lt_one (by linarith)]
  linarith

theorem predict_fitted (exp : R → R) (config : networkConf R) (hn : 0 < n) (hh : 0 < h)
    (ho : 0 < o) (X : Matrix (Fin n) (Fin i) R) (Wh : Matrix (Fin i) (Fin h) R)
    (bh : Matrix (Fin 1) (Fin h) R) (Wo : Matrix (Fin h) (Fin o) R)
    (bo : Matrix (Fin 1) (Fin o) R) :
    predict exp ⟨config, some (Dense.ofMatrix Wh), some (Dense.ofMatrix bh),
        some (Dense.ofMatrix Wo), some (Dense.ofMatrix bo)⟩ (Dense.ofMatrix X)
      = .ok (some (Dense.ofMatrix (forwardOutput exp X Wh bh Wo bo)), none) := by
  simp only [predict, forward_ofMatrix exp hn hh ho, bind_ok_eq, pure_eq_ok]

theorem predict_shape_panic (exp : R → R) (config : networkConf R) {k : Nat} (hk : k ≠ i)
    (X : Matrix (Fin n) (Fin k) R) (Wh : Matrix (Fin i) (Fin h) R)
    (bh : Matrix (Fin 1) (Fin h) R) (Wo : Matrix (Fin h) (Fin o) R)
    (bo : Matrix (Fin 1) (Fin o) R) :
    predict exp ⟨config, some (Dense.ofMatrix Wh), some (Dense.ofMatrix bh),
        some (Dense.ofMatrix Wo), some (Dense.ofMatrix bo)⟩ (Dense.ofMatrix X)
      = .error .shape := by
  simp only [predict, forward, Dense.Mul, Dense.ofMatrix, dif_neg hk, bind_error_eq]

theorem epoch_row_mismatch (exp : R → R) (lr : R) {k : Nat} (hk : k ≠ n) (hn : 0 < n)
    (hh : 0 < h) (ho : 0 < o)
    (X : Matrix (Fin n) (Fin i) R) (Y : Matrix (Fin k) (Fin o) R)
    (bh : Matrix (Fin 1) (Fin h) R) (bo : Matrix (Fin 1) (Fin o) R)
    (Wh : Matrix (Fin i) (Fin h) R) (Wo : Matrix (Fin h) (Fin o) R)
    (out : Dense R) (hout : out.cols = 0 ∨ (out.rows = n ∧ out.cols = o)) :
    epoch exp lr (Dense.ofMatrix X) (Dense.ofMatrix Y) (Dense.ofMatrix bh) (Dense.ofMatrix bo)
        ⟨Dense.ofMatrix Wh, Dense.ofMatrix Wo, out⟩ = .error .shape := by
  unfold epoch
  simp only []
  rw [Mul_ofMatrix _ hn hh (Or.inl rfl), bind_ok_eq,
    Apply_ofMatrix _ hn hh (Or.inr ⟨rfl, rfl⟩) _ _ (addBroadcast (X * Wh) bh)
      (fun a b => addBiases_ok bh a b _), bind_ok_eq,
    Apply_ofMatrix _ hn hh (Or.inl rfl) _ _ (hiddenActivation exp X Wh bh) (fun _ _ => rfl),
    bind_ok_eq, Mul_ofMatrix _ hn ho (Or.inl rfl), bind_ok_eq,
    Apply_ofMatrix _ hn ho (Or.inr ⟨rfl, rfl⟩) _ _
      (addBroadcast (hiddenActivation exp X Wh bh * Wo) bo)
      (fun a b => addBiases_ok bo a b _), bind_ok_eq,
    Apply_ofMatrix _ hn ho hout _ _ (forwardOutput exp X Wh bh Wo bo) (fun _ _ => rfl),
    bind_ok_eq]
  have hs : Dense.empty.Sub (Dense.ofMatrix Y)
      (Dense.ofMatrix (forwardOutput exp X Wh bh Wo bo)) = .error .shape := by
    unfold Dense.Sub Dense.elementwise
    exact dif_neg (fun hc => hk hc.1)
  rw [hs, bind_error_eq]

theorem train_row_mismatch (exp : R → R) (net : network R) (bias : R) (r1 : Nat → R) {k : Nat}
    (hk : k ≠ n) (hn : 0 < n) (hi : 0 < i) (hh : 0 < h) (ho : 0 < o)
    (ci : net.config.numberOfInputNodes = (i : Int))
    (ch : net.config.numberOfHiddenNodes = (h : Int))
    (co : net.config.numberOfOutputNodes = (o : Int))
    (he : 0 < net.config.numberOfEpochs)
    (X : Matrix (Fin n) (Fin i) R) (Y : Matrix (Fin k) (Fin o) R) :
    train exp net (Dense.ofMatrix X) (Dense.ofMatrix Y) bias r1 = (net, .error .shape) := by
  unfold train propagate
  simp only [allocate_eq net.config bias r1 hi hh ho ci ch co, bind_ok_eq]
  rw [forLoop, if_pos he,
    epoch_row_mismatch exp _ hk hn hh ho X Y _ _ _ _ Dense.empty (Or.inl rfl)]
  simp only [bind_error_eq]

theorem bind_eq_ok {α β : Type} {x : Except Panic α} {f : α → Except Panic β} {b : β}
    (hb : (x >>= f) = .ok b) : ∃ a, x = .ok a ∧ f a = .ok b := by
  cases x with
  | error p => exact absurd hb (by simp [bind_error_eq])
  | ok a => exact ⟨a, rfl, hb⟩

theorem NewDense_pos (r c : Int) (d : Option (List R)) (m : Dense R)
    (hm : NewDense r c d = .ok m) : 0 < r ∧ 0 < c := by
  unfold NewDense at hm
  by_cases hrc : r ≤ 0 ∨ c ≤ 0
  · rw [if_pos hrc] at hm
    split_ifs at hm
  · omega

theorem allocate_ok_pos (config : networkConf R) (bias : R) (r1 : Nat → R)
    (r : Dense R × Dense R × Dense R × Dense R) (hr : allocate config bias r1 = .ok r) :
    0 < config.numberOfInputNodes ∧ 0 < config.numberOfHiddenNodes
      ∧ 0 < config.numberOfOutputNodes := by
  unfold allocate at hr
  obtain ⟨_, _, hr⟩ := bind_eq_ok hr
  obtain ⟨_, _, hr⟩ := bind_eq_ok hr
  obtain ⟨_, e3, hr⟩ := bind_eq_ok hr
  obtain ⟨_, _, hr⟩ := bind_eq_ok hr
  obtain ⟨_, e5, hr⟩ := bind_eq_ok hr
  have p3 := NewDense_pos _ _ _ _ e3
  have p5 := NewDense_pos _ _ _ _ e5
  exact ⟨p3.1, p3.2, p5.2⟩

theorem train_ok_biases (exp : R → R) (net : network R) (inputs labels : Dense R) (bias : R)
    (r1 : Nat → R) (hok : (train exp net inputs labels bias r1).2 = .ok none) :
    (train exp net inputs labels bias r1).1.hiddenBiases
        = some (Dense.ofMatrix (constantRow net.config.numberOfHiddenNodes.toNat bias))
      ∧ (train exp net inputs labels bias r1).1.outputBiases
        = some (Dense.ofMatrix (constantRow net.config.numberOfOutputNodes.toNat bias)) := by
  cases hA : allocate net.config bias r1 with
  | error p =>
    simp [train, hA, bind_error_eq] at hok
  | ok r =>
    obtain ⟨pi, ph, po⟩ := allocate_ok_pos _ _ _ _ hA
    have hA' := allocate_eq net.config bias r1
      (show 0 < net.config.numberOfInputNodes.toNat by omega)
      (show 0 < net.config.numberOfHiddenNodes.toNat by omega)
      (show 0 < net.config.numberOfOutputNodes.toNat by omega)
      (by omega) (by omega) (by omega)
    unfold train propagate at hok ⊢
    simp only [hA', bind_ok_eq] at hok ⊢
    cases hL : forLoop net.config.numberOfEpochs
        (fun _ p => epoch exp net.config.learningRate inputs labels
          (Dense.ofMatrix (constantRow net.config.numberOfHiddenNodes.toNat bias))
          (Dense.ofMatrix (constantRow net.config.numberOfOutputNodes.toNat bias)) p) 0
        ⟨Dense.ofMatrix (initialHiddenWeights net.config.numberOfInputNodes.toNat
            net.config.numberOfHiddenNodes.toNat r1),
          Dense.ofMatrix (initialOutputWeights net.config.numberOfInputNodes.toNat
            net.config.numberOfHiddenNodes.toNat net.config.numberOfOutputNodes.toNat r1),
          Dense.empty⟩ with
    | error p => simp [hL, bind_error_eq] at hok
    | ok p => simp [hL, bind_ok_eq, pure_eq_ok]

theorem findPrediction_spec (l : List R) :
    ∀ (k c : Nat) (hc : c < l.length), l[c] = 1 → (∀ j (hj : j < c), l[j] ≠ 1) →
      findPrediction l k = k + c := by
  induction l with
  | nil => intro k c hc; simp at hc
  | cons x xs ih =>
    intro k c hc h1 h2
    cases c with
    | zero =>
      simp only [List.getElem_cons_zero] at h1
      simp [findPrediction, h1]
    | succ c =>
      have hx : ¬ ((x == 1) = true) := by simpa using h2 0 (Nat.succ_pos c)
      have hc' : c < xs.length := by simpa using hc
      have := ih (k + 1) c hc' (by simpa using h1)
        (fun j hj => by simpa using h2 (j + 1) (Nat.succ_lt_succ hj))
      simp only [findPrediction, if_neg hx, this]
      omega

theorem foldl_max_spec (xs : List R) :
    ∀ x : R, (xs.foldl (fun mx v => if v > mx then v else mx) x) ∈ x :: xs
      ∧ ∀ y ∈ x :: xs, y ≤ xs.foldl (fun mx v => if v > mx then v else mx) x := by
  induction xs with
  | nil => intro x; simp
  | cons v vs ih =>
    intro x
    simp only [List.foldl_cons]
    obtain ⟨hmem, hub⟩ := ih (if v > x then v else x)
    refine ⟨?_, ?_⟩
    · rcases List.mem_cons.mp hmem with h | h
      · rw [h]
        split_ifs <;> simp
      · exact List.mem_cons_of_mem _ (List.mem_cons_of_mem _ h)
    · intro y hy
      have hstart : x ≤ (if v > x then v else x) ∧ v ≤ (if v > x then v else x) := by
        split_ifs with hvx
        · exact ⟨le_of_lt hvx, le_refl _⟩
        · exact ⟨le_refl _, not_lt.mp hvx⟩
      have htop := hub _ (List.mem_cons_self _ _)
      rcases List.mem_cons.mp hy with h | h
      · rw [h]; exact le_trans hstart.1 htop
      · rcases List.mem_cons.mp h with h | h
        · rw [h]; exact le_trans hstart.2 htop
        · exact hub y (List.mem_cons_of_mem _ h)

theorem floatsMax_ofFn {c : Nat} (f : Fin c → R) (j : Fin c) :
    ∃ m, floatsMax (List.ofFn f) = .ok m ∧ (∃ j', f j' = m) ∧ ∀ j', f j' ≤ m := by
  cases hl : List.ofFn f with
  | nil =>
    have : (List.ofFn f).length = c := List.length_ofFn f
    rw [hl] at this
    exact absurd this.symm (Nat.pos_iff_ne_zero.mp (Nat.lt_of_le_of_lt (Nat.zero_le _) j.isLt))
  | cons x xs =>
    obtain ⟨hmem, hub⟩ := foldl_max_spec xs x
    refine ⟨_, rfl, ?_, ?_⟩
    · rw [← hl, List.mem_ofFn] at hmem
      exact hmem
    · intro j'
      apply hub
      rw [← hl, List.mem_ofFn]
      exact ⟨j', rfl⟩

theorem scoreRow_ofMatrix {c : Nat} (O L : Matrix (Fin n) (Fin c) R)
    (hot : ∀ r, ∃ j, L r j = 1 ∧ ∀ j', j' ≠ j → L r j' = 0) (r : Fin n) (hit : Nat) :
    scoreRow (Dense.ofMatrix O) (Dense.ofMatrix L) (r.val : Int) hit
      = .ok (if ∃ j, L r j = 1 ∧ ∀ j', O r j' ≤ O r j then hit + 1 else hit) := by
  obtain ⟨j, hj1, hj0⟩ := hot r
  obtain ⟨m, hm, ⟨j0, hj0m⟩, hub⟩ := floatsMax_ofFn (O r) j
  have hfind : findPrediction (List.ofFn (L r)) 0 = j.val := by
    have := findPrediction_spec (List.ofFn (L r)) 0 j.val (by simp) (by simpa using hj1)
      (fun k hk => by
        have hkc : k < c := lt_trans hk j.isLt
        have := hj0 ⟨k, hkc⟩ (fun hcon => by
          have := congrArg Fin.val hcon
          simp at this
          omega)
        simp [this])
    simpa using this
  have hiff : (O r j = m) ↔ ∃ j, L r j = 1 ∧ ∀ j', O r j' ≤ O r j := by
    constructor
    · intro hjm
      exact ⟨j, hj1, fun j' => hjm ▸ hub j'⟩
    · rintro ⟨j2, h21, hge⟩
      have hjj : j2 = j := by
        by_contra hne
        have := hj0 j2 hne
        rw [h21] at this
        exact one_ne_zero this
      subst hjj
      exact le_antisymm (hub _) (hj0m ▸ hge j0)
  unfold scoreRow
  simp only [Row, Dense.ofMatrix, Int.toNat_ofNat, r.isLt, dif_pos, bind_ok_eq, hfind, Dense.At,
    j.isLt, hm, pure_eq_ok, beq_iff_eq, hiff]

theorem forLoop_count (hi : Nat) (body : Int → Nat → Except Panic Nat) (P : Nat → Prop)
    [DecidablePred P]
    (hbody : ∀ k, k < hi → ∀ s, body (k : Int) s = .ok (if P k then s + 1 else s)) :
    ∀ (d j s : Nat), j + d = hi →
      forLoop (hi : Int) body (j : Int) s
        = .ok (s + (List.range' j d).countP (fun k => decide (P k))) := by
  intro d
  induction d with
  | zero =>
    intro j s hj
    rw [forLoop, if_neg (by omega)]
    simp
  | succ d ih =>
    intro j s hj
    rw [forLoop, if_pos (by omega), hbody j (by omega) s]
    simp only []
    have hcast : ((j : Int) + 1) = ((j + 1 : Nat) : Int) := by push_cast; rfl
    rw [hcast, ih (j + 1) _ (by omega), List.range'_succ, List.countP_cons]
    by_cases hp : P j
    · simp [hp]; omega
    · simp [hp]

theorem countP_range_eq_card (P : Fin n → Prop) [DecidablePred P] :
    (List.range' 0 n).countP (fun k => decide (∃ hk : k < n, P ⟨k, hk⟩))
      = (Finset.univ.filter P).card := by
  rw [← List.range_eq_range', ← List.map_coe_finRange, List.countP_map]
  rw [Fin.univ_def, Finset.card, Finset.filter_val]
  simp only [Multiset.filter_coe, Multiset.coe_card, List.countP_eq_length_filter]
  congr 1
  apply List.filter_congr
  intro x _
  simp

theorem accuracy_ofMatrix {c : Nat} (O L : Matrix (Fin n) (Fin c) R)
    (hot : ∀ r, ∃ j, L r j = 1 ∧ ∀ j', j' ≠ j → L r j' = 0) :
    accuracy (Dense.ofMatrix O) (Dense.ofMatrix L)
      = .ok (((Finset.univ.filter fun r => ∃ j, L r j = 1 ∧ ∀ j', O r j' ≤ O r j).card : R)
          / (n : R)) := by
  have hloop := forLoop_count n (scoreRow (Dense.ofMatrix O) (Dense.ofMatrix L))
    (fun k => ∃ hk : k < n, ∃ j, L ⟨k, hk⟩ j = 1 ∧ ∀ j', O ⟨k, hk⟩ j' ≤ O ⟨k, hk⟩ j)
    (fun k hk s => by
      rw [scoreRow_ofMatrix O L hot ⟨k, hk⟩ s]
      simp [hk]) n 0 0 (by omega)
  rw [countP_range_eq_card
    (fun r : Fin n => ∃ j, L r j = 1 ∧ ∀ j', O r j' ≤ O r j)] at hloop
  show (forLoop (n : Int) (scoreRow (Dense.ofMatrix O) (Dense.ofMatrix L)) ((0 : Nat) : Int) 0
    >>= fun hit => pure ((hit : R) / (n : R))) = _
  rw [hloop, bind_ok_eq, Nat.zero_add]
  rfl

theorem sampleLabels_oneHot :
    ∀ r, ∃ j, (sampleLabels : Matrix _ _ ℝ) r j = 1
      ∧ ∀ j', j' ≠ j → sampleLabels r j' = (0 : ℝ) := by
  intro r
  fin_cases r
  · exact ⟨0, by simp [sampleLabels], fun j' hj => by
      fin_cases j' <;> simp [sampleLabels] at hj ⊢⟩
  · exact ⟨2, by simp [sampleLabels], fun j' hj => by
      fin_cases j' <;> simp [sampleLabels] at hj ⊢⟩

/-! ### Evaluation on concrete inputs -/

theorem Dense.ofMatrix_data (m : Dense R) : Dense.ofMatrix m.data = m := rfl

theorem NewDense_zero_rows : (NewDense 0 3 none : Except Panic (Dense ℚ)) = .error .zeroLength :=
  rfl

theorem NewDense_negative_rows :
    (NewDense (-1) 3 none : Except Panic (Dense ℚ)) = .error .negativeDimension := rfl

theorem NewDense_wrong_length :
    (NewDense 2 2 (some [1, 2, 3]) : Except Panic (Dense ℚ)) = .error .shape := rfl

theorem makeSlice_negative : (makeSlice (-1) : Except Panic (List ℚ)) = .error .makeLen := rfl

theorem At_sample : (Dense.ofMatrix (!![1, 2; 3, 4] : Matrix _ _ ℚ)).At 1 0 = .ok 3 := rfl

theorem At_row_out_of_range :
    (Dense.ofMatrix (!![1, 2; 3, 4] : Matrix _ _ ℚ)).At 2 0 = .error .rowAccess := rfl

theorem At_col_out_of_range :
    (Dense.ofMatrix (!![1, 2; 3, 4] : Matrix _ _ ℚ)).At 1 2 = .error .colAccess := rfl

theorem Row_sample : Row 1 (Dense.ofMatrix (!![1, 2; 3, 4] : Matrix _ _ ℚ)) = .ok [3, 4] := rfl

theorem ofRaw_sample : (Dense.ofRaw 2 2 ([1, 2, 3, 4] : List ℚ)).At 1 0 = .ok 3 := rfl

theorem Mul_sample :
    Dense.empty.Mul (Dense.ofMatrix (!![1, 2; 3, 4] : Matrix _ _ ℚ))
      (Dense.ofMatrix (!![1; 1] : Matrix _ _ ℚ)) = .ok (Dense.ofMatrix !![3; 7]) := by
  rw [Mul_ofMatrix _ (by decide) (by decide) (Or.inl rfl)]
  congr 2
  ext a b
  fin_cases a <;> fin_cases b <;> simp [Matrix.mul_apply, Fin.sum_univ_succ] <;> norm_num

theorem Mul_inner_mismatch :
    Dense.empty.Mul (Dense.ofMatrix (!![1, 2; 3, 4] : Matrix _ _ ℚ))
      (Dense.ofMatrix (!![1, 1] : Matrix _ _ ℚ)) = .error .shape := rfl

theorem Mul_receiver_mismatch :
    (Dense.ofMatrix (!![1, 2; 3, 4] : Matrix _ _ ℚ)).Mul
      (Dense.ofMatrix (!![1, 2; 3, 4] : Matrix _ _ ℚ))
      (Dense.ofMatrix (!![1; 1] : Matrix _ _ ℚ)) = .error .shape := rfl

theorem floatsMax_sample : floatsMax ([1, 3, 2] : List ℚ) = .ok 3 := rfl

theorem floatsMax_empty : floatsMax ([] : List ℚ) = .error .zeroSlice := rfl

theorem findPrediction_sample : findPrediction ([0, 0, 1] : List ℚ) 0 = 2 := by decide

theorem findPrediction_first : findPrediction ([0, 1, 1] : List ℚ) 0 = 1 := by decide

theorem findPrediction_none : findPrediction ([0, 0, 0] : List ℚ) 0 = 0 := by decide

theorem forLoop_sample : forLoop 3 (fun i (s : Int) => .ok (s + i)) 0 0 = .ok 3 := by
  rw [forLoop, if_pos (by decide)]; simp only []
  rw [forLoop, if_pos (by decide)]; simp only []
  rw [forLoop, if_pos (by decide)]; simp only []
  rw [forLoop, if_neg (by decide)]
  rfl

theorem forLoop_negative_bound :
    forLoop (-3) (fun i (s : Int) => .ok (s + i)) 0 7 = .ok 7 := by
  rw [forLoop, if_neg (by decide)]

theorem sigmoid_zero : sigmoid Real.exp 0 = 1 / 2 := by
  simp [sigmoid]
  norm_num

theorem train_zero_input_nodes :
    (train (fun _ => (1 : ℚ)) (network.new ⟨0, 3, 5, 100, 0.1⟩) (Dense.ofMatrix sampleInputs)
      (Dense.ofMatrix sampleLabels) 0 (fun _ => 0)).2 = .error .zeroLength := rfl

theorem train_negative_hidden_nodes :
    (train (fun _ => (1 : ℚ)) (network.new ⟨4, 3, -5, 100, 0.1⟩) (Dense.ofMatrix sampleInputs)
      (Dense.ofMatrix sampleLabels) 0 (fun _ => 0)).2 = .error .makeLen := rfl

end Lemmas

section Lemmas2
open Matrix
variable {R : Type} [LinearOrderedField R] {n i h o : Nat}

theorem sigmoidPrime_real_deriv (x : ℝ) :
    HasDerivAt (sigmoid Real.exp) (sigmoidPrime Real.exp x) x := by
  have hpos : (1 + Real.exp (-x)) ≠ 0 := by
    have := Real.exp_pos (-x)
    linarith
  have hden : HasDerivAt (fun y : ℝ => 1 + Real.exp (-y)) (-Real.exp (-x)) x := by
    have h1 : HasDerivAt (fun y : ℝ => -y) (-1) x := (hasDerivAt_id x).neg
    have h2 := (Real.hasDerivAt_exp (-x)).comp x h1
    have h3 := h2.const_add 1
    simpa using h3
  have hinv := hden.inv hpos
  have heq : sigmoid Real.exp = fun y : ℝ => (1 + Real.exp (-y))⁻¹ := by
    funext y
    simp [sigmoid]
  rw [heq]
  convert hinv using 1
  simp only [sigmoidPrime, sigmoid]
  field_simp
  ring

theorem sigmoid_real_deriv (z : ℝ) :
    HasDerivAt (sigmoid Real.exp) (sigmoid Real.exp z * (1 - sigmoid Real.exp z)) z :=
  sigmoidPrime_real_deriv z

theorem sigmoid_real_half_ne : sigmoid Real.exp (1 / 2) ≠ 1 / 2 := by
  intro hs
  unfold sigmoid at hs
  have hpos := Real.exp_pos (-(1 / 2 : ℝ))
  have h1 : Real.exp (-(1 / 2 : ℝ)) = 1 := by
    field_simp at hs
    linarith
  have h2 : (-(1 / 2 : ℝ)) = 0 := by
    rw [← Real.exp_eq_one_iff]
    exact h1
  norm_num at h2

theorem product_eq_iff (s a : ℝ) : s * (1 - s) = a * (1 - a) ↔ s = a ∨ s = 1 - a := by
  constructor
  · intro hp
    have hz : (s - a) * (s + a - 1) = 0 := by ring_nf; ring_nf at hp; linarith
    rcases mul_eq_zero.mp hz with h1 | h1
    · left; linarith
    · right; linarith
  · rintro (h1 | h1)
    · rw [h1]
    · rw [h1]; ring

end Lemmas2

end NeuralNet

namespace HMM

open NeuralNet (Panic forLoop bind_ok_eq bind_error_eq pure_eq_ok)

section Loops

variable {σ : Type}

theorem forLoop_nat_inv (lo hi : Nat) (body : Int → σ → Except Panic σ) (Inv : Nat → σ → Prop)
    (hstep : ∀ m s, lo ≤ m → m < hi → Inv m s →
      ∃ s', body (m : Int) s = .ok s' ∧ Inv (m + 1) s') :
    ∀ (d m : Nat) (s : σ), lo ≤ m → m + d = hi → Inv m s →
      ∃ s', forLoop (hi : Int) body (m : Int) s = .ok s' ∧ Inv hi s' := by
  intro d
  induction d with
  | zero =>
    intro m s _ hm hinv
    have : m = hi := by omega
    subst this
    exact ⟨s, by rw [forLoop, if_neg (by omega)], hinv⟩
  | succ d ih =>
    intro m s hlo hm hinv
    obtain ⟨s1, hb, hinv1⟩ := hstep m s hlo (by omega) hinv
    obtain ⟨s2, hl, hinv2⟩ := ih (m + 1) s1 (by omega) (by omega) hinv1
    refine ⟨s2, ?_, hinv2⟩
    rw [forLoop, if_pos (by omega), hb]
    simp only []
    have hcast : ((m : Int) + 1) = ((m + 1 : Nat) : Int) := by push_cast; rfl
    rw [hcast]
    exact hl

theorem forDown_nat_inv (body : Int → σ → Except Panic σ) (Inv : Nat → σ → Prop)
    (hstep : ∀ m s, Inv (m + 1) s → ∃ s', body ((m + 1 : Nat) : Int) s = .ok s' ∧ Inv m s') :
    ∀ (i : Nat) (s : σ), Inv i s →
      ∃ s', forDown 1 body (i : Int) s = .ok s' ∧ Inv 0 s' := by
  intro i
  induction i with
  | zero =>
    intro s hinv
    exact ⟨s, by rw [forDown, if_neg (by omega)], hinv⟩
  | succ m ih =>
    intro s hinv
    obtain ⟨s1, hb, hinv1⟩ := hstep m s hinv
    obtain ⟨s2, hl, hinv2⟩ := ih s1 hinv1
    refine ⟨s2, ?_, hinv2⟩
    rw [forDown, if_pos (by omega), hb]
    simp only []
    have hcast : (((m + 1 : Nat) : Int) - 1) = (m : Int) := by push_cast; omega
    rw [hcast]
    exact hl

end Loops

section Access

variable {α : Type}

theorem Vec.get_nat (v : Vec α) (i : Nat) (hi : i < v.len) : v.get (i : Int) = .ok (v.cell i) := by
  unfold Vec.get
  rw [if_pos ⟨by omega, by omega⟩]
  simp

theorem Vec.set_nat (v : Vec α) (i : Nat) (hi : i < v.len) (x : α) :
    v.set (i : Int) x = .ok ⟨v.len, fun a => if a = i then x else v.cell a⟩ := by
  unfold Vec.set
  rw [if_pos ⟨by omega, by omega⟩]
  simp

theorem Grid.get_cell_nat (g : Grid α) (i j : Nat) (hi : i < g.rows) (hj : j < g.cols) :
    g.get (i : Int) (j : Int) = .ok (g.cell i j) := by
  unfold Grid.get
  rw [if_pos ⟨by omega, by omega, by omega, by omega⟩]
  simp

theorem Grid.set_cell_nat (g : Grid α) (i j : Nat) (hi : i < g.rows) (hj : j < g.cols) (x : α) :
    g.set (i : Int) (j : Int) x
      = .ok ⟨g.rows, g.cols, fun a b => if a = i ∧ b = j then x else g.cell a b⟩ := by
  unfold Grid.set
  rw [if_pos ⟨by omega, by omega, by omega, by omega⟩]
  simp

theorem Vec.get_ok (v : Vec α) (i : Int) (hi : 0 ≤ i ∧ i < v.len) :
    v.get i = .ok (v.cell i.toNat) := by
  unfold Vec.get
  rw [if_pos hi]

theorem Vec.set_ok (v : Vec α) (i : Int) (hi : 0 ≤ i ∧ i < v.len) (x : α) :
    v.set i x = .ok ⟨v.len, fun a => if a = i.toNat then x else v.cell a⟩ := by
  unfold Vec.set
  rw [if_pos hi]

theorem Grid.get_cell_ok (g : Grid α) (i j : Int) (h : 0 ≤ i ∧ i < g.rows ∧ 0 ≤ j ∧ j < g.cols) :
    g.get i j = .ok (g.cell i.toNat j.toNat) := by
  unfold Grid.get
  rw [if_pos h]

theorem Grid.set_cell_ok (g : Grid α) (i j : Int) (h : 0 ≤ i ∧ i < g.rows ∧ 0 ≤ j ∧ j < g.cols)
    (x : α) :
    g.set i j x
      = .ok ⟨g.rows, g.cols, fun a b => if a = i.toNat ∧ b = j.toNat then x else g.cell a b⟩ := by
  unfold Grid.set
  rw [if_pos h]

end Access

section Pure

variable {R : Type} [Zero R] [One R] [HAdd R R R] [HSub R R R] [HMul R R R] [HDiv R R R] [Neg R]
  [HPow R Nat R] [NatCast R] [LT R] [LE R] [BEq R] [DecidableEq R]
  [∀ a b : R, Decidable (a < b)] [∀ a b : R, Decidable (a ≤ b)]

theorem runMax_arg_range (f : Nat → R) (m : Nat) :
    0 ≤ (runMax f m).2 ∧ (runMax f m).2 ≤ (m : Int) := by
  induction m with
  | zero => simp [runMax]
  | succ m ih =>
    unfold runMax
    split_ifs
    · exact ⟨by positivity, le_refl _⟩
    · exact ⟨ih.1, by push_cast; omega⟩

theorem runMax_val (f : Nat → R) (m : Nat) : (runMax f m).1 = f (runMax f m).2.toNat := by
  induction m with
  | zero => simp [runMax]
  | succ m ih =>
    unfold runMax
    split_ifs
    · simp
    · exact ih

theorem runMax_mem (Reg : R → Prop) (f : Nat → R) (m : Nat) (hf : ∀ k, k ≤ m → Reg (f k)) :
    Reg (runMax f m).1 := by
  rw [runMax_val]
  have h := runMax_arg_range f m
  exact hf _ (by omega)

theorem runMax_ge (Reg : R → Prop) (hR : OrderedProducts Reg) (f : Nat → R) (m : Nat)
    (hf : ∀ k, k ≤ m → Reg (f k)) : ∀ k, k ≤ m → f k ≤ (runMax f m).1 := by
  induction m with
  | zero =>
    intro k hk
    have : k = 0 := by omega
    subst this
    exact hR.le_refl _ (hf 0 (le_refl _))
  | succ m ih =>
    intro k hk
    have hf' : ∀ k, k ≤ m → Reg (f k) := fun k hk => hf k (by omega)
    have hmem := runMax_mem Reg f m hf'
    unfold runMax
    split_ifs with hlt
    · rcases Nat.lt_or_ge k (m + 1) with h1 | h1
      · exact hR.le_trans _ _ _ (hf k hk) hmem (hf (m + 1) (le_refl _)) (ih hf' k (by omega))
          (hR.le_of_lt _ _ hmem (hf (m + 1) (le_refl _)) hlt)
      · have : k = m + 1 := by omega
        subst this
        exact hR.le_refl _ (hf _ (le_refl _))
    · rcases Nat.lt_or_ge k (m + 1) with h1 | h1
      · exact ih hf' k (by omega)
      · have : k = m + 1 := by omega
        subst this
        exact hR.le_of_not_lt _ _ hmem (hf _ (le_refl _)) hlt

variable (S T : Nat) (p : Vec R) (o : Vec Int) (t e : Grid R)

theorem best_succ_arg_range (hS : 1 ≤ S) (j i : Nat) :
    0 ≤ (best S p o t e (j + 1) i).2 ∧ (best S p o t e (j + 1) i).2 < (S : Int) := by
  have h := runMax_arg_range (fun k => (best S p o t e j k).1
      * t.cell k i * e.cell i (o.cell (j + 1)).toNat) (S - 1)
  rw [best]
  exact ⟨h.1, by omega⟩

theorem best_succ_val (j i : Nat) :
    (best S p o t e (j + 1) i).1
      = (best S p o t e j (best S p o t e (j + 1) i).2.toNat).1
        * t.cell (best S p o t e (j + 1) i).2.toNat i * e.cell i (o.cell (j + 1)).toNat := by
  have h := runMax_val (fun k => (best S p o t e j k).1
      * t.cell k i * e.cell i (o.cell (j + 1)).toNat) (S - 1)
  rw [best]
  exact h

/-- Every value of the filled table `probs` is a regular value. -/
theorem best_mem (Reg : R → Prop) (hR : OrderedProducts Reg)
    (hc : Conformant S T p o t e) (hn : Regular Reg S p t e) :
    ∀ j, j < T → ∀ i, i < S → Reg (best S p o t e j i).1 := by
  intro j
  induction j with
  | zero =>
    intro hj i hi
    have hv := hc.valid 0 hj
    rw [best]
    exact hR.mul_mem _ _ (hn.initial i hi) (hn.emission i _ hi (by omega))
  | succ j ih =>
    intro hj i hi
    have hv := hc.valid (j + 1) hj
    rw [best]
    refine runMax_mem Reg _ _ (fun k hk => ?_)
    have hk' : k < S := by have := hc.states; omega
    exact hR.mul_mem _ _ (hR.mul_mem _ _ (ih (by omega) k hk') (hn.transition k i hk' hi))
      (hn.emission i _ hi (by omega))

theorem best_succ_ge (Reg : R → Prop) (hR : OrderedProducts Reg)
    (hc : Conformant S T p o t e) (hn : Regular Reg S p t e) (j i k : Nat) (hj : j + 1 < T)
    (hi : i < S) (hk : k < S) :
    (best S p o t e j k).1 * t.cell k i * e.cell i (o.cell (j + 1)).toNat
      ≤ (best S p o t e (j + 1) i).1 := by
  have hv := hc.valid (j + 1) hj
  have h := runMax_ge Reg hR (fun k => (best S p o t e j k).1
      * t.cell k i * e.cell i (o.cell (j + 1)).toNat) (S - 1)
    (fun k hk => by
      have hk' : k < S := by have := hc.states; omega
      exact hR.mul_mem _ _ (hR.mul_mem _ _
        (best_mem S T p o t e Reg hR hc hn j (by omega) k hk') (hn.transition k i hk' hi))
        (hn.emission i _ hi (by omega)))
    k (by omega)
  rw [best]
  exact h

theorem prefixJoint_mem (Reg : R → Prop) (hR : OrderedProducts Reg)
    (hc : Conformant S T p o t e) (hn : Regular Reg S p t e)
    (s : Nat → Nat) (hs : ∀ j, j < T → s j < S) :
    ∀ j, j < T → Reg (prefixJoint p o t e s j) := by
  intro j
  induction j with
  | zero =>
    intro hj
    have hv := hc.valid 0 hj
    rw [prefixJoint]
    exact hR.mul_mem _ _ (hn.initial _ (hs 0 hj)) (hn.emission _ _ (hs 0 hj) (by omega))
  | succ j ih =>
    intro hj
    have hv := hc.valid (j + 1) hj
    rw [prefixJoint]
    exact hR.mul_mem _ _ (hR.mul_mem _ _ (ih (by omega))
      (hn.transition _ _ (hs j (by omega)) (hs (j + 1) hj)))
      (hn.emission _ _ (hs (j + 1) hj) (by omega))

theorem prefixJoint_le_best (Reg : R → Prop) (hR : OrderedProducts Reg)
    (hc : Conformant S T p o t e) (hn : Regular Reg S p t e)
    (s : Nat → Nat) (hs : ∀ j, j < T → s j < S) :
    ∀ j, j < T → prefixJoint p o t e s j ≤ (best S p o t e j (s j)).1 := by
  intro j
  induction j with
  | zero =>
    intro hj
    rw [prefixJoint, best]
    exact hR.le_refl _ (prefixJoint_mem S T p o t e Reg hR hc hn s hs 0 hj)
  | succ j ih =>
    intro hj
    have h1 := ih (by omega)
    have hsj := hs j (by omega)
    have hsj1 := hs (j + 1) hj
    have ht := hn.transition (s j) (s (j + 1)) hsj hsj1
    have hv := hc.valid (j + 1) hj
    have he := hn.emission (s (j + 1)) (o.cell (j + 1)).toNat hsj1 (by omega)
    have hpj := prefixJoint_mem S T p o t e Reg hR hc hn s hs j (by omega)
    have hbj := best_mem S T p o t e Reg hR hc hn j (by omega) (s j) hsj
    have hstep : prefixJoint p o t e s j * t.cell (s j) (s (j + 1))
          * e.cell (s (j + 1)) (o.cell (j + 1)).toNat
        ≤ (best S p o t e j (s j)).1 * t.cell (s j) (s (j + 1))
          * e.cell (s (j + 1)) (o.cell (j + 1)).toNat :=
      hR.mul_le_mul _ _ _ (hR.mul_mem _ _ hpj ht) (hR.mul_mem _ _ hbj ht) he
        (hR.mul_le_mul _ _ _ hpj hbj ht h1)
    rw [prefixJoint]
    exact hR.le_trans _ _ _
      (hR.mul_mem _ _ (hR.mul_mem _ _ hpj ht) he)
      (hR.mul_mem _ _ (hR.mul_mem _ _ hbj ht) he)
      (best_mem S T p o t e Reg hR hc hn (j + 1) hj (s (j + 1)) hsj1)
      hstep (best_succ_ge S T p o t e Reg hR hc hn j (s (j + 1)) (s j) hj hsj1 hsj)

theorem back_range (hS : 1 ≤ S) (d : Nat) :
    0 ≤ back S T p o t e d ∧ back S T p o t e d < (S : Int) := by
  cases d with
  | zero =>
    have h := runMax_arg_range (fun k => (best S p o t e (T - 1) k).1) (S - 1)
    rw [back]
    exact ⟨h.1, by omega⟩
  | succ d =>
    rw [back]
    cases hj : T - 1 - d with
    | zero => simp [best]; omega
    | succ j => exact best_succ_arg_range S p o t e hS j _

theorem prefixJoint_back :
    ∀ j, j < T →
      prefixJoint p o t e (fun a => (back S T p o t e (T - 1 - a)).toNat) j
        = (best S p o t e j (back S T p o t e (T - 1 - j)).toNat).1 := by
  intro j
  induction j with
  | zero => intro _; simp [prefixJoint, best]
  | succ j ih =>
    intro hj
    have h1 := ih (by omega)
    have hd : T - 1 - j = (T - 1 - (j + 1)) + 1 := by omega
    have hb : back S T p o t e (T - 1 - j)
        = (best S p o t e (j + 1) (back S T p o t e (T - 1 - (j + 1))).toNat).2 := by
      rw [hd, back]
      have : T - 1 - (T - 1 - (j + 1)) = j + 1 := by omega
      rw [this]
    rw [prefixJoint, h1, best_succ_val S p o t e j, hb]

/-- The states that the backward loop writes have the largest computed joint
probability. -/
theorem back_optimal (Reg : R → Prop) (hR : OrderedProducts Reg)
    (hc : Conformant S T p o t e) (hn : Regular Reg S p t e)
    (s : Nat → Nat) (hs : ∀ j, j < T → s j < S) :
    computedJoint p o t e T s
      ≤ computedJoint p o t e T (fun a => (back S T p o t e (T - 1 - a)).toNat) := by
  obtain ⟨n, rfl⟩ : ∃ n, T = n + 1 := ⟨T - 1, by have := hc.steps; omega⟩
  show prefixJoint p o t e s n
    ≤ prefixJoint p o t e (fun a => (back S (n + 1) p o t e (n + 1 - 1 - a)).toNat) n
  rw [prefixJoint_back S (n + 1) p o t e n (by omega)]
  have hsn : s n < S := hs n (by omega)
  have hb := best_mem S (n + 1) p o t e Reg hR hc hn n (by omega)
  refine hR.le_trans _ _ _ (prefixJoint_mem S (n + 1) p o t e Reg hR hc hn s hs n (by omega))
    (hb (s n) hsn) ?_ (prefixJoint_le_best S (n + 1) p o t e Reg hR hc hn s hs n (by omega)) ?_
  · have hr := back_range S (n + 1) p o t e hc.states 0
    simp only [Nat.add_sub_cancel, Nat.sub_self]
    exact hb _ (by omega)
  · have h1 := runMax_ge Reg hR (fun k => (best S p o t e n k).1) (S - 1)
      (fun k hk => hb k (by have := hc.states; omega)) (s n) (by omega)
    have h2 := runMax_val (fun k => (best S p o t e n k).1) (S - 1)
    simp only [Nat.add_sub_cancel, Nat.sub_self] at h1 h2 ⊢
    rw [back]
    simp only [Nat.add_sub_cancel]
    rw [← h2]
    exact h1

theorem prefixJoint_congr (s s' : Nat → Nat) :
    ∀ n, (∀ j, j ≤ n → s j = s' j) → prefixJoint p o t e s n = prefixJoint p o t e s' n := by
  intro n
  induction n with
  | zero => intro hs; rw [prefixJoint, prefixJoint, hs 0 (le_refl 0)]
  | succ n ih =>
    intro hs
    rw [prefixJoint, prefixJoint, ih (fun j hj => hs j (by omega)), hs n (by omega),
      hs (n + 1) (le_refl _)]

theorem computedJoint_congr (hT : 1 ≤ T) (s s' : Nat → Nat) (hs : ∀ j, j < T → s j = s' j) :
    computedJoint p o t e T s = computedJoint p o t e T s' :=
  prefixJoint_congr p o t e s s' (T - 1) (fun j hj => hs j (by omega))

end Pure

section PureExact

variable {R : Type} [LinearOrderedField R]

/-- In an ordered field the non-negative values are regular. -/
theorem orderedProducts_nonneg : OrderedProducts (fun x : R => 0 ≤ x) where
  mul_mem := fun _ _ ha hb => mul_nonneg ha hb
  le_refl := fun a _ => le_refl a
  le_trans := fun _ _ _ _ _ _ h1 h2 => le_trans h1 h2
  le_of_lt := fun _ _ _ _ h => le_of_lt h
  le_of_not_lt := fun _ _ _ _ h => not_lt.mp h
  mul_le_mul := fun _ _ _ _ _ hc h => mul_le_mul_of_nonneg_right h hc

variable (S T : Nat) (p : Vec R) (o : Vec Int) (t e : Grid R)

theorem jointProbability_eq (s : Nat → Nat) (n : Nat) :
    jointProbability p o t e (n + 1) s = prefixJoint p o t e s n := by
  induction n with
  | zero => simp [jointProbability, prefixJoint]
  | succ n ih =>
    unfold jointProbability at ih ⊢
    rw [Finset.prod_Ico_succ_top (by omega), prefixJoint, ← ih]
    simp only [Nat.add_sub_cancel]
    ring

/-- In exact arithmetic the computed joint probability is the joint
probability. -/
theorem computedJoint_eq (s : Nat → Nat) (hT : 1 ≤ T) :
    computedJoint p o t e T s = jointProbability p o t e T s := by
  obtain ⟨n, rfl⟩ : ∃ n, T = n + 1 := ⟨T - 1, by omega⟩
  rw [jointProbability_eq]
  rfl

end PureExact

section Invariants

variable {R : Type} [Zero R] [One R] [HAdd R R R] [HSub R R R] [HMul R R R] [HDiv R R R] [Neg R]
  [HPow R Nat R] [NatCast R] [LT R] [LE R] [BEq R] [DecidableEq R]
  [∀ a b : R, Decidable (a < b)] [∀ a b : R, Decidable (a ≤ b)]
variable (S T : Nat) (p : Vec R) (o : Vec Int) (t e : Grid R)

theorem Filled.next {j : Nat} {tb : Tables R} (h : Filled S T p o t e j S tb) :
    Filled S T p o t e (j + 1) 0 tb where
  prows := h.prows
  pcols := h.pcols
  vrows := h.vrows
  vcols := h.vcols
  done := fun j' a hj ha => by
    rcases Nat.lt_or_ge j' j with h1 | h1
    · exact h.done j' a h1 ha
    · have : j' = j := by omega
      subst this
      exact h.cur a ha
  cur := fun a ha => absurd ha (Nat.not_lt_zero a)

theorem emission_get (hc : Conformant S T p o t e) (i j : Nat) (hi : i < S) (hj : j < T) :
    e.get (i : Int) (o.cell j) = .ok (e.cell i (o.cell j).toNat) := by
  have hv := hc.valid j hj
  have := Grid.get_cell_ok e (i : Int) (o.cell j) ⟨by omega, by rw [hc.erows]; omega, hv.1, hv.2⟩
  simpa using this

theorem initState_step (hc : Conformant S T p o t e) (m : Nat) (hm : m < S) (tb : Tables R)
    (h : Filled S T p o t e 0 m tb) :
    ∃ tb', initState p o e (m : Int) tb = .ok tb' ∧ Filled S T p o t e 0 (m + 1) tb' := by
  have h1 : p.get (m : Int) = .ok (p.cell m) := Vec.get_nat p m (by rw [hc.plen]; exact hm)
  have h2 : o.get 0 = .ok (o.cell 0) := by
    have := Vec.get_nat o 0 (by rw [hc.olen]; exact hc.steps)
    simpa using this
  have h3 := emission_get S T p o t e hc m 0 hm hc.steps
  have h4 := fun x => Grid.set_cell_nat tb.probs m 0 (by rw [h.prows]; exact hm)
    (by rw [h.pcols]; exact hc.steps) x
  have h5 := fun x => Grid.set_cell_nat tb.prevs m 0 (by rw [h.vrows]; exact hm)
    (by rw [h.vcols]; exact hc.steps) x
  simp only [Nat.cast_zero] at h4 h5
  unfold initState
  rw [h1, bind_ok_eq, h2, bind_ok_eq, h3, bind_ok_eq, h4, bind_ok_eq, h5, bind_ok_eq, pure_eq_ok]
  refine ⟨_, rfl, ?_⟩
  constructor
  · exact h.prows
  · exact h.pcols
  · exact h.vrows
  · exact h.vcols
  · intro j' a hj _
    exact absurd hj (Nat.not_lt_zero j')
  · intro a ha
    by_cases ham : a = m
    · subst ham
      simp [best]
    · have := h.cur a (by omega)
      simp only [ham, false_and, if_false]
      exact this

theorem init_loop (hc : Conformant S T p o t e) (tb : Tables R)
    (h : Filled S T p o t e 0 0 tb) :
    ∃ tb', forLoop (S : Int) (initState p o e) 0 tb = .ok tb'
      ∧ Filled S T p o t e 1 0 tb' := by
  obtain ⟨tb', h1, h2⟩ := forLoop_nat_inv 0 S (initState p o e)
    (fun m tb => Filled S T p o t e 0 m tb)
    (fun m s _ hm hinv => initState_step S T p o t e hc m hm s hinv) S 0 tb (le_refl _)
    (by omega) h
  exact ⟨tb', by simpa using h1, h2.next⟩

end Invariants

section Invariants2

variable {R : Type} [Zero R] [One R] [HAdd R R R] [HSub R R R] [HMul R R R] [HDiv R R R] [Neg R]
  [HPow R Nat R] [NatCast R] [LT R] [LE R] [BEq R] [DecidableEq R]
  [∀ a b : R, Decidable (a < b)] [∀ a b : R, Decidable (a ≤ b)]
variable (S T : Nat) (p : Vec R) (o : Vec Int) (t e : Grid R)

theorem tryPrevious_step (hc : Conformant S T p o t e) (j i c : Nat) (hj : j + 1 < T)
    (hi : i < S) (hk : c + 1 < S) (tb : Tables R) (h : Partial S T p o t e j i c tb) :
    ∃ tb', tryPrevious o t e ((j + 1 : Nat) : Int) (i : Int) ((c + 1 : Nat) : Int) tb = .ok tb'
      ∧ Partial S T p o t e j i (c + 1) tb' := by
  have hJ : (((j + 1 : Nat) : Int) - 1) = (j : Int) := by push_cast; omega
  have h1 : tb.probs.get ((c + 1 : Nat) : Int) (j : Int) = .ok (best S p o t e j (c + 1)).1 := by
    rw [Grid.get_cell_nat tb.probs (c + 1) j (by rw [h.prows]; exact hk) (by rw [h.pcols]; omega),
      (h.done j (c + 1) (by omega) hk).1]
  have h2 : t.get ((c + 1 : Nat) : Int) (i : Int) = .ok (t.cell (c + 1) i) :=
    Grid.get_cell_nat t (c + 1) i (by rw [hc.trows]; exact hk) (by rw [hc.tcols]; exact hi)
  have h3 : o.get ((j + 1 : Nat) : Int) = .ok (o.cell (j + 1)) :=
    Vec.get_nat o (j + 1) (by rw [hc.olen]; exact hj)
  have h4 := emission_get S T p o t e hc i (j + 1) hi hj
  have h5 : tb.probs.get (i : Int) ((j + 1 : Nat) : Int) = .ok (tb.probs.cell i (j + 1)) :=
    Grid.get_cell_nat tb.probs i (j + 1) (by rw [h.prows]; exact hi) (by rw [h.pcols]; exact hj)
  have h6 := fun x => Grid.set_cell_nat tb.probs i (j + 1) (by rw [h.prows]; exact hi)
    (by rw [h.pcols]; exact hj) x
  have h7 := fun x => Grid.set_cell_nat tb.prevs i (j + 1) (by rw [h.vrows]; exact hi)
    (by rw [h.vcols]; exact hj) x
  have hh1 : tb.probs.cell i (j + 1)
      = (runMax (fun k => (best S p o t e j k).1 * t.cell k i
          * e.cell i (o.cell (j + 1)).toNat) c).1 := congrArg Prod.fst h.here
  unfold tryPrevious
  rw [hJ, h1, bind_ok_eq, h2, bind_ok_eq, h3, bind_ok_eq, h4, bind_ok_eq, h5, bind_ok_eq]
  by_cases hlt : tb.probs.cell i (j + 1)
      < (best S p o t e j (c + 1)).1 * t.cell (c + 1) i * e.cell i (o.cell (j + 1)).toNat
  · rw [if_pos hlt, h6, bind_ok_eq, h7, bind_ok_eq, pure_eq_ok]
    refine ⟨_, rfl, ?_⟩
    constructor
    · exact h.prows
    · exact h.pcols
    · exact h.vrows
    · exact h.vcols
    · intro j' a hj' ha
      have hne : ¬ (a = i ∧ j' = j + 1) := by omega
      simp only [hne, if_false]
      exact h.done j' a hj' ha
    · intro a ha
      have hne : a ≠ i := by omega
      simp only [hne, false_and, if_false]
      exact h.cur a ha
    · rw [hh1] at hlt
      simp only [and_self, if_true]
      rw [runMax, if_pos hlt]
  · rw [if_neg hlt, pure_eq_ok]
    refine ⟨_, rfl, ?_⟩
    constructor
    · exact h.prows
    · exact h.pcols
    · exact h.vrows
    · exact h.vcols
    · exact h.done
    · exact h.cur
    · rw [hh1] at hlt
      rw [runMax, if_neg hlt]
      exact h.here

theorem tryPrevious_loop (hc : Conformant S T p o t e) (j i : Nat) (hj : j + 1 < T)
    (hi : i < S) (tb : Tables R) (h : Partial S T p o t e j i 0 tb) :
    ∃ tb', forLoop (S : Int) (tryPrevious o t e ((j + 1 : Nat) : Int) (i : Int)) 1 tb = .ok tb'
      ∧ Partial S T p o t e j i (S - 1) tb' := by
  obtain ⟨tb', h1, c, hc1, h2⟩ := forLoop_nat_inv 1 S
    (tryPrevious o t e ((j + 1 : Nat) : Int) (i : Int))
    (fun m tb => ∃ c, m = c + 1 ∧ Partial S T p o t e j i c tb)
    (fun m s hlo hm hinv => by
      obtain ⟨c, rfl, hp⟩ := hinv
      obtain ⟨s', hs1, hs2⟩ := tryPrevious_step S T p o t e hc j i c hj hi hm s hp
      exact ⟨s', hs1, c + 1, rfl, hs2⟩)
    (S - 1) 1 tb (le_refl _) (by have := hc.states; omega) ⟨0, rfl, h⟩
  have : S - 1 = c := by omega
  rw [this]
  exact ⟨tb', by simpa using h1, h2⟩

theorem fillState_step (hc : Conformant S T p o t e) (j i : Nat) (hj : j + 1 < T)
    (hi : i < S) (tb : Tables R) (h : Filled S T p o t e (j + 1) i tb) :
    ∃ tb', fillState (S : Int) o t e ((j + 1 : Nat) : Int) (i : Int) tb = .ok tb'
      ∧ Filled S T p o t e (j + 1) (i + 1) tb' := by
  have hS := hc.states
  have hJ : (((j + 1 : Nat) : Int) - 1) = (j : Int) := by push_cast; omega
  have h1 : tb.probs.get 0 (j : Int) = .ok (best S p o t e j 0).1 := by
    have := Grid.get_cell_nat tb.probs 0 j (by rw [h.prows]; omega) (by rw [h.pcols]; omega)
    rw [(h.done j 0 (by omega) (by omega)).1] at this
    simpa using this
  have h2 : t.get 0 (i : Int) = .ok (t.cell 0 i) := by
    have := Grid.get_cell_nat t 0 i (by rw [hc.trows]; omega) (by rw [hc.tcols]; exact hi)
    simpa using this
  have h3 : o.get ((j + 1 : Nat) : Int) = .ok (o.cell (j + 1)) :=
    Vec.get_nat o (j + 1) (by rw [hc.olen]; exact hj)
  have h4 := emission_get S T p o t e hc i (j + 1) hi hj
  have h6 := fun x => Grid.set_cell_nat tb.probs i (j + 1) (by rw [h.prows]; exact hi)
    (by rw [h.pcols]; exact hj) x
  have h7 := fun x => Grid.set_cell_nat tb.prevs i (j + 1) (by rw [h.vrows]; exact hi)
    (by rw [h.vcols]; exact hj) x
  have hpart : Partial S T p o t e j i 0
      ⟨⟨tb.probs.rows, tb.probs.cols, fun a b => if a = i ∧ b = j + 1 then
          (best S p o t e j 0).1 * t.cell 0 i * e.cell i (o.cell (j + 1)).toNat
          else tb.probs.cell a b⟩,
        ⟨tb.prevs.rows, tb.prevs.cols, fun a b => if a = i ∧ b = j + 1 then 0
          else tb.prevs.cell a b⟩⟩ := by
    constructor
    · exact h.prows
    · exact h.pcols
    · exact h.vrows
    · exact h.vcols
    · intro j' a hj' ha
      have hne : ¬ (a = i ∧ j' = j + 1) := by omega
      simp only [hne, if_false]
      exact h.done j' a hj' ha
    · intro a ha
      have hne : a ≠ i := by omega
      simp only [hne, false_and, if_false]
      exact h.cur a ha
    · simp only [and_self, if_true]
      rfl
  obtain ⟨tb', hl, hp⟩ := tryPrevious_loop S T p o t e hc j i hj hi _ hpart
  unfold fillState
  rw [hJ, h1, bind_ok_eq, h2, bind_ok_eq, h3, bind_ok_eq, h4, bind_ok_eq, h6, bind_ok_eq, h7,
    bind_ok_eq]
  refine ⟨tb', hl, ?_⟩
  constructor
  · exact hp.prows
  · exact hp.pcols
  · exact hp.vrows
  · exact hp.vcols
  · exact hp.done
  · intro a ha
    by_cases hai : a = i
    · subst hai
      have hh := hp.here
      rw [Prod.ext_iff] at hh
      exact ⟨hh.1, hh.2⟩
    · exact hp.cur a (by omega)

theorem fillObservation_step (hc : Conformant S T p o t e) (j : Nat) (hj : j + 1 < T)
    (tb : Tables R) (h : Filled S T p o t e (j + 1) 0 tb) :
    ∃ tb', fillObservation (S : Int) o t e ((j + 1 : Nat) : Int) tb = .ok tb'
      ∧ Filled S T p o t e (j + 2) 0 tb' := by
  obtain ⟨tb', h1, h2⟩ := forLoop_nat_inv 0 S (fillState (S : Int) o t e ((j + 1 : Nat) : Int))
    (fun m tb => Filled S T p o t e (j + 1) m tb)
    (fun m s _ hm hinv => fillState_step S T p o t e hc j m hj hm s hinv) S 0 tb (le_refl _)
    (by omega) h
  exact ⟨tb', by unfold fillObservation; simpa using h1, h2.next⟩

theorem fill_loop (hc : Conformant S T p o t e) (tb : Tables R)
    (h : Filled S T p o t e 1 0 tb) :
    ∃ tb', forLoop (T : Int) (fillObservation (S : Int) o t e) 1 tb = .ok tb'
      ∧ Filled S T p o t e T 0 tb' := by
  obtain ⟨tb', h1, h2⟩ := forLoop_nat_inv 1 T (fillObservation (S : Int) o t e)
    (fun m tb => Filled S T p o t e m 0 tb)
    (fun m s hlo hm hinv => by
      obtain ⟨j, rfl⟩ : ∃ j, m = j + 1 := ⟨m - 1, by omega⟩
      exact fillObservation_step S T p o t e hc j hm s hinv)
    (T - 1) 1 tb (le_refl _) (by have := hc.steps; omega) h
  exact ⟨tb', by simpa using h1, h2⟩

end Invariants2

section Invariants3

variable {R : Type} [Zero R] [One R] [HAdd R R R] [HSub R R R] [HMul R R R] [HDiv R R R] [Neg R]
  [HPow R Nat R] [NatCast R] [LT R] [LE R] [BEq R] [DecidableEq R]
  [∀ a b : R, Decidable (a < b)] [∀ a b : R, Decidable (a ≤ b)]
variable (S T : Nat) (p : Vec R) (o : Vec Int) (t e : Grid R)

theorem tryLast_step (hc : Conformant S T p o t e) (tb : Tables R)
    (h : Filled S T p o t e T 0 tb) (c : Nat) (hk : c + 1 < S) (st : Vec Int × R)
    (hlen : st.1.len = T)
    (hst : (st.2, st.1.cell (T - 1)) = runMax (fun k => (best S p o t e (T - 1) k).1) c) :
    ∃ st', tryLast tb.probs (((T - 1 : Nat) : Int)) ((c + 1 : Nat) : Int) st = .ok st'
      ∧ st'.1.len = T
      ∧ (st'.2, st'.1.cell (T - 1))
          = runMax (fun k => (best S p o t e (T - 1) k).1) (c + 1) := by
  have hT := hc.steps
  have h1 : tb.probs.get ((c + 1 : Nat) : Int) ((T - 1 : Nat) : Int)
      = .ok (best S p o t e (T - 1) (c + 1)).1 := by
    rw [Grid.get_cell_nat tb.probs (c + 1) (T - 1) (by rw [h.prows]; exact hk)
      (by rw [h.pcols]; omega), (h.done (T - 1) (c + 1) (by omega) hk).1]
  have h2 := fun x => Vec.set_nat st.1 (T - 1) (by rw [hlen]; omega) x
  have hh1 : st.2 = (runMax (fun k => (best S p o t e (T - 1) k).1) c).1 :=
    congrArg Prod.fst hst
  unfold tryLast
  rw [h1, bind_ok_eq]
  by_cases hlt : st.2 < (best S p o t e (T - 1) (c + 1)).1
  · rw [if_pos hlt, h2, bind_ok_eq, bind_ok_eq, pure_eq_ok]
    refine ⟨_, rfl, hlen, ?_⟩
    rw [hh1] at hlt
    simp only [if_true]
    rw [runMax, if_pos hlt]
  · rw [if_neg hlt, pure_eq_ok]
    refine ⟨_, rfl, hlen, ?_⟩
    rw [hh1] at hlt
    rw [runMax, if_neg hlt]
    exact hst

theorem tryLast_loop (hc : Conformant S T p o t e) (tb : Tables R)
    (h : Filled S T p o t e T 0 tb) (st : Vec Int × R) (hlen : st.1.len = T)
    (hst : (st.2, st.1.cell (T - 1)) = runMax (fun k => (best S p o t e (T - 1) k).1) 0) :
    ∃ st', forLoop (S : Int) (tryLast tb.probs (((T - 1 : Nat) : Int))) 1 st = .ok st'
      ∧ st'.1.len = T ∧ st'.1.cell (T - 1) = back S T p o t e 0 := by
  obtain ⟨st', h1, c, hc1, h2, h3⟩ := forLoop_nat_inv 1 S
    (tryLast tb.probs (((T - 1 : Nat) : Int)))
    (fun m st => ∃ c, m = c + 1 ∧ st.1.len = T
      ∧ (st.2, st.1.cell (T - 1)) = runMax (fun k => (best S p o t e (T - 1) k).1) c)
    (fun m s hlo hm hinv => by
      obtain ⟨c, rfl, hl, hp⟩ := hinv
      obtain ⟨s', hs1, hs2, hs3⟩ := tryLast_step S T p o t e hc tb h c hm s hl hp
      exact ⟨s', hs1, c + 1, rfl, hs2, hs3⟩)
    (S - 1) 1 st (le_refl _) (by have := hc.states; omega) ⟨0, rfl, hlen, hst⟩
  have hcS : c = S - 1 := by omega
  refine ⟨st', by simpa using h1, h2, ?_⟩
  rw [back, ← hcS]
  exact congrArg Prod.snd h3

theorem stepBack_step (hc : Conformant S T p o t e) (tb : Tables R)
    (h : Filled S T p o t e T 0 tb) (m : Nat) (mp : Vec Int)
    (hinv : m + 1 ≤ T - 1 ∧ mp.len = T
      ∧ ∀ j, m + 1 ≤ j → j ≤ T - 1 → mp.cell j = back S T p o t e (T - 1 - j)) :
    ∃ mp', stepBack tb.prevs ((m + 1 : Nat) : Int) mp = .ok mp'
      ∧ (m ≤ T - 1 ∧ mp'.len = T
        ∧ ∀ j, m ≤ j → j ≤ T - 1 → mp'.cell j = back S T p o t e (T - 1 - j)) := by
  obtain ⟨hm, hlen, hcells⟩ := hinv
  have hr := back_range S T p o t e hc.states (T - 1 - (m + 1))
  have h1 : mp.get ((m + 1 : Nat) : Int) = .ok (back S T p o t e (T - 1 - (m + 1))) := by
    rw [Vec.get_nat mp (m + 1) (by rw [hlen]; omega), hcells (m + 1) (le_refl _) hm]
  have h2 : tb.prevs.get (back S T p o t e (T - 1 - (m + 1))) ((m + 1 : Nat) : Int)
      = .ok (best S p o t e (m + 1) (back S T p o t e (T - 1 - (m + 1))).toNat).2 := by
    rw [Grid.get_cell_ok tb.prevs _ _ ⟨hr.1, by rw [h.vrows]; exact hr.2, by omega,
      by rw [h.vcols]; omega⟩]
    simp only [Int.toNat_ofNat]
    rw [(h.done (m + 1) _ (by omega) (by omega)).2]
  have hcast : (((m + 1 : Nat) : Int) - 1) = (m : Int) := by push_cast; omega
  have h3 := fun x => Vec.set_nat mp m (by rw [hlen]; omega) x
  unfold stepBack
  rw [h1, bind_ok_eq, h2, bind_ok_eq, hcast, h3]
  refine ⟨_, rfl, by omega, hlen, fun j hj1 hj2 => ?_⟩
  by_cases hjm : j = m
  · subst hjm
    simp only [if_true]
    have hd : T - 1 - j = (T - 1 - (j + 1)) + 1 := by omega
    rw [hd, back]
    have : T - 1 - (T - 1 - (j + 1)) = j + 1 := by omega
    rw [this]
  · simp only [hjm, if_false]
    exact hcells j (by omega) hj2

theorem stepBack_loop (hc : Conformant S T p o t e) (tb : Tables R)
    (h : Filled S T p o t e T 0 tb) (mp : Vec Int) (hlen : mp.len = T)
    (hlast : mp.cell (T - 1) = back S T p o t e 0) :
    ∃ mp', forDown 1 (stepBack tb.prevs) (((T - 1 : Nat) : Int)) mp = .ok mp'
      ∧ mp'.len = T ∧ ∀ j, j < T → mp'.cell j = back S T p o t e (T - 1 - j) := by
  obtain ⟨mp', h1, _, h2, h3⟩ := forDown_nat_inv (stepBack tb.prevs)
    (fun i mp => i ≤ T - 1 ∧ mp.len = T
      ∧ ∀ j, i ≤ j → j ≤ T - 1 → mp.cell j = back S T p o t e (T - 1 - j))
    (fun m s hinv => stepBack_step S T p o t e hc tb h m s hinv) (T - 1) mp
    ⟨le_refl _, hlen, fun j hj1 hj2 => by
      have : j = T - 1 := by omega
      subst this
      simpa using hlast⟩
  exact ⟨mp', h1, h2, fun j hj => h3 j (Nat.zero_le j) (by omega)⟩

theorem findMostProbablePath_back (hc : Conformant S T p o t e) :
    ∃ path : Vec Int, findMostProbablePath (S : Int) (T : Int) p o t e = .ok path
      ∧ path.len = T ∧ ∀ j, j < T → path.cell j = back S T p o t e (T - 1 - j) := by
  have hS := hc.states
  have hT := hc.steps
  have hg1 : (makeGrid (S : Int) (T : Int) : Except Panic (Grid R))
      = .ok ⟨S, T, fun _ _ => 0⟩ := by
    unfold makeGrid
    rw [if_neg (by omega), if_neg (by omega)]
    simp
  have hg2 : (makeGrid (S : Int) (T : Int) : Except Panic (Grid Int))
      = .ok ⟨S, T, fun _ _ => 0⟩ := by
    unfold makeGrid
    rw [if_neg (by omega), if_neg (by omega)]
    simp
  have hv : (makeVec (T : Int) : Except Panic (Vec Int)) = .ok ⟨T, fun _ => 0⟩ := by
    unfold makeVec
    rw [if_neg (by omega)]
    simp
  have hlast : ((T : Int) - 1) = ((T - 1 : Nat) : Int) := by omega
  have h0 : Filled S T p o t e 0 0 (⟨⟨S, T, fun _ _ => 0⟩, ⟨S, T, fun _ _ => 0⟩⟩ : Tables R) :=
    ⟨rfl, rfl, rfl, rfl, fun j' _ hj _ => absurd hj (Nat.not_lt_zero j'),
      fun a ha => absurd ha (Nat.not_lt_zero a)⟩
  obtain ⟨tb1, hl1, hf1⟩ := init_loop S T p o t e hc _ h0
  obtain ⟨tb2, hl2, hf2⟩ := fill_loop S T p o t e hc tb1 hf1
  have hset := Vec.set_nat (⟨T, fun _ => 0⟩ : Vec Int) (T - 1) (by show T - 1 < T; omega) 0
  have hget : tb2.probs.get 0 (((T - 1 : Nat) : Int)) = .ok (best S p o t e (T - 1) 0).1 := by
    have := Grid.get_cell_nat tb2.probs 0 (T - 1) (by rw [hf2.prows]; omega)
      (by rw [hf2.pcols]; omega)
    rw [(hf2.done (T - 1) 0 (by omega) (by omega)).1] at this
    simpa using this
  obtain ⟨st3, hl3, hlen3, hcell3⟩ := tryLast_loop S T p o t e hc tb2 hf2
    (⟨T, fun a => if a = T - 1 then 0 else 0⟩, (best S p o t e (T - 1) 0).1) rfl
    (by simp [runMax])
  obtain ⟨mp4, hl4, hlen4, hcells4⟩ := stepBack_loop S T p o t e hc tb2 hf2 st3.1 hlen3 hcell3
  refine ⟨mp4, ?_, hlen4, hcells4⟩
  unfold findMostProbablePath
  rw [hg1, bind_ok_eq, hg2, bind_ok_eq, hl1, bind_ok_eq, hl2, bind_ok_eq, hv, bind_ok_eq]
  simp only []
  rw [hlast, hset, bind_ok_eq, hget, bind_ok_eq, hl3, bind_ok_eq]
  exact hl4

end Invariants3

section SampleModel

variable {R : Type} [LinearOrderedField R]

theorem jointProbability_congr (p : Vec R) (o : Vec Int) (t e : Grid R) (T : Nat) (hT : 1 ≤ T)
    (s s' : Nat → Nat) (hs : ∀ j, j < T → s j = s' j) :
    jointProbability p o t e T s = jointProbability p o t e T s' := by
  unfold jointProbability
  rw [hs 0 (by omega)]
  congr 1
  refine Finset.prod_congr rfl (fun j hj => ?_)
  rw [Finset.mem_Ico] at hj
  rw [hs j hj.2, hs (j - 1) (by omega)]

theorem sample_conformant :
    Conformant 2 3 (sampleProbabilities : Vec ℝ) sampleObservations sampleTransitions
      sampleEmissions where
  states := by decide
  steps := by decide
  plen := rfl
  olen := rfl
  trows := rfl
  tcols := rfl
  erows := rfl
  valid := fun j hj => by
    interval_cases j <;> simp [sampleObservations, sampleEmissions, Vec.ofList, Grid.ofRows]

theorem sample_nonNegative :
    NonNegative 2 (sampleProbabilities : Vec ℝ) sampleTransitions sampleEmissions where
  initial := fun i hi => by
    interval_cases i <;> simp [sampleProbabilities, Vec.ofList] <;> norm_num
  transition := fun k i hk hi => by
    interval_cases k <;> interval_cases i <;> simp [sampleTransitions, Grid.ofRows] <;> norm_num
  emission := fun i c hi hc => by
    have hc' : c < 2 := hc
    interval_cases i <;> interval_cases c <;> simp [sampleEmissions, Grid.ofRows] <;> norm_num

theorem findMostProbablePath_sample :
    ∃ path : Vec Int,
      findMostProbablePath 2 3 (sampleProbabilities : Vec ℝ) sampleObservations
        sampleTransitions sampleEmissions = .ok path
      ∧ path.toList = [0, 1, 1] := by
  obtain ⟨path, h1, h2, h3⟩ := findMostProbablePath_back 2 3 (sampleProbabilities : Vec ℝ)
    sampleObservations sampleTransitions sampleEmissions sample_conformant
  refine ⟨path, h1, ?_⟩
  unfold Vec.toList
  rw [h2]
  simp only [List.range_succ, List.range_zero, List.nil_append, List.map_append, List.map_cons,
    List.map_nil, List.cons_append]
  rw [h3 0 (by decide), h3 1 (by decide), h3 2 (by decide)]
  have v00 : (best 2 (sampleProbabilities : Vec ℝ) sampleObservations sampleTransitions
      sampleEmissions 0 0) = (0.54, 0) := by
    simp [best, sampleProbabilities, sampleObservations, sampleEmissions, Vec.ofList,
      Grid.ofRows]
    norm_num
  have v01 : (best 2 (sampleProbabilities : Vec ℝ) sampleObservations sampleTransitions
      sampleEmissions 0 1) = (0.08, 0) := by
    simp [best, sampleProbabilities, sampleObservations, sampleEmissions, Vec.ofList,
      Grid.ofRows]
    norm_num
  have v10 : (best 2 (sampleProbabilities : Vec ℝ) sampleObservations sampleTransitions
      sampleEmissions 1 0) = (0.0378, 0) := by
    rw [best]
    simp only [Nat.reduceSub, runMax, v00, v01]
    simp [sampleObservations, sampleTransitions, sampleEmissions, Vec.ofList, Grid.ofRows]
    norm_num
  have v11 : (best 2 (sampleProbabilities : Vec ℝ) sampleObservations sampleTransitions
      sampleEmissions 1 1) = (0.1296, 0) := by
    rw [best]
    simp only [Nat.reduceSub, runMax, v00, v01]
    simp [sampleObservations, sampleTransitions, sampleEmissions, Vec.ofList, Grid.ofRows]
    norm_num
  have v20 : (best 2 (sampleProbabilities : Vec ℝ) sampleObservations sampleTransitions
      sampleEmissions 2 0) = (0.005184, 1) := by
    rw [best]
    simp only [Nat.reduceSub, runMax, v10, v11]
    simp [sampleObservations, sampleTransitions, sampleEmissions, Vec.ofList, Grid.ofRows]
    norm_num
  have v21 : (best 2 (sampleProbabilities : Vec ℝ) sampleObservations sampleTransitions
      sampleEmissions 2 1) = (0.062208, 1) := by
    rw [best]
    simp only [Nat.reduceSub, runMax, v10, v11]
    simp [sampleObservations, sampleTransitions, sampleEmissions, Vec.ofList, Grid.ofRows]
    norm_num
  have b0 : back 2 3 (sampleProbabilities : Vec ℝ) sampleObservations sampleTransitions
      sampleEmissions 0 = 1 := by
    rw [back]
    simp only [Nat.reduceSub, runMax, v20, v21]
    norm_num
  have b1 : back 2 3 (sampleProbabilities : Vec ℝ) sampleObservations sampleTransitions
      sampleEmissions 1 = 1 := by
    rw [back, b0]
    simp [v21]
  have b2 : back 2 3 (sampleProbabilities : Vec ℝ) sampleObservations sampleTransitions
      sampleEmissions 2 = 0 := by
    rw [back, b1]
    simp [v11]
  simp [b0, b1, b2]

end SampleModel

end HMM

namespace LinearRegression

section Lemmas

variable {R : Type} [LinearOrderedField R]

theorem sum_eq (values : List R) : sum values = values.sum := by
  unfold sum
  rw [List.sum_eq_foldl]

theorem pointsSum_foldl (coords : List (Point R)) (s : R × R) :
    coords.foldl (fun s point => (s.1 + point.x, s.2 + point.y)) s
      = (s.1 + (coords.map fun c => c.x).sum, s.2 + (coords.map fun c => c.y).sum) := by
  induction coords generalizing s with
  | nil => simp
  | cons c cs ih =>
    rw [List.foldl_cons, ih]
    simp only [List.map_cons, List.sum_cons]
    ext <;> simp [add_assoc]

theorem mean_eq (coords : List (Point R)) : mean coords = (xMean coords, yMean coords) := by
  unfold mean pointsSum xMean yMean
  rw [pointsSum_foldl]
  simp

theorem sum_map_affine (l : List (Point R)) (f g h k : Point R → R) (c1 c2 : R)
    (hf : ∀ q, f q = g q + c1 * h q + c2 * k q) :
    (l.map f).sum = (l.map g).sum + c1 * (l.map h).sum + c2 * (l.map k).sum := by
  induction l with
  | nil => simp
  | cons q qs ih =>
    simp only [List.map_cons, List.sum_cons, ih, hf q]
    ring

theorem sum_map_sub_const (l : List (Point R)) (f : Point R → R) (c : R) :
    (l.map fun q => f q - c).sum = (l.map f).sum - (l.length : R) * c := by
  induction l with
  | nil => simp
  | cons q qs ih =>
    simp only [List.map_cons, List.sum_cons, ih, List.length_cons]
    push_cast
    ring

theorem sum_centered_x (l : List (Point R)) (hl : l ≠ []) :
    (l.map fun q => q.x - xMean l).sum = 0 := by
  have hn : (l.length : R) ≠ 0 := by
    have : l.length ≠ 0 := fun h => hl (List.length_eq_zero.mp h)
    exact_mod_cast this
  rw [sum_map_sub_const l (fun q => q.x) (xMean l)]
  unfold xMean
  field_simp

theorem sum_centered_y (l : List (Point R)) (hl : l ≠ []) :
    (l.map fun q => q.y - yMean l).sum = 0 := by
  have hn : (l.length : R) ≠ 0 := by
    have : l.length ≠ 0 := fun h => hl (List.length_eq_zero.mp h)
    exact_mod_cast this
  rw [sum_map_sub_const l (fun q => q.y) (yMean l)]
  unfold yMean
  field_simp

theorem sum_sq_eq_zero (l : List (Point R)) (f : Point R → R)
    (h : (l.map fun q => f q ^ 2).sum = 0) : ∀ q ∈ l, f q = 0 := by
  induction l with
  | nil => intro q hq; simp at hq
  | cons c cs ih =>
    simp only [List.map_cons, List.sum_cons] at h
    have h1 : 0 ≤ f c ^ 2 := sq_nonneg _
    have h2 : 0 ≤ (cs.map fun q => f q ^ 2).sum :=
      List.sum_nonneg (fun x hx => by
        obtain ⟨q, _, rfl⟩ := List.mem_map.mp hx
        exact sq_nonneg _)
    have h3 : f c ^ 2 = 0 := by linarith
    have h4 : (cs.map fun q => f q ^ 2).sum = 0 := by linarith
    intro q hq
    rcases List.mem_cons.mp hq with rfl | hq
    · exact pow_eq_zero_iff (two_ne_zero) |>.mp h3
    · exact ih h4 q hq

theorem sum_sq_centered_ne_zero (l : List (Point R))
    (hx : ¬ ∀ q ∈ l, ∀ q' ∈ l, q.x = q'.x) :
    (l.map fun q => (q.x - xMean l) ^ 2).sum ≠ 0 := by
  intro h0
  apply hx
  intro q hq q' hq'
  have h1 := sum_sq_eq_zero l (fun q => q.x - xMean l) h0 q hq
  have h2 := sum_sq_eq_zero l (fun q => q.x - xMean l) h0 q' hq'
  simp only at h1 h2
  linarith

end Lemmas

section Lemmas2

variable {R : Type} [LinearOrderedField R]

theorem fitLine_eq (coords : List (Point R)) :
    fitLine coords
      = .ok ((coords.map fun c => (c.x - xMean coords) * (c.y - yMean coords)).sum
              / (coords.map fun c => (c.x - xMean coords) ^ 2).sum,
             yMean coords
              - (coords.map fun c => (c.x - xMean coords) * (c.y - yMean coords)).sum
                  / (coords.map fun c => (c.x - xMean coords) ^ 2).sum * xMean coords) := by
  unfold fitLine
  rw [mean_eq]
  simp only [getSlice, if_true, sum_eq, List.map_map]
  rfl

theorem squaredResiduals_ge (coords : List (Point R)) (hne : coords ≠ [])
    (hx : ¬ ∀ q ∈ coords, ∀ q' ∈ coords, q.x = q'.x) (a b : R) :
    squaredResiduals coords
        ((coords.map fun c => (c.x - xMean coords) * (c.y - yMean coords)).sum
          / (coords.map fun c => (c.x - xMean coords) ^ 2).sum)
        (yMean coords
          - (coords.map fun c => (c.x - xMean coords) * (c.y - yMean coords)).sum
              / (coords.map fun c => (c.x - xMean coords) ^ 2).sum * xMean coords)
      ≤ squaredResiduals coords a b := by
  set xm := xMean coords with hxm
  set ym := yMean coords with hym
  set sxy := (coords.map fun c => (c.x - xm) * (c.y - ym)).sum with hsxy
  set sxx := (coords.map fun c => (c.x - xm) ^ 2).sum with hsxx
  have hsxx0 : sxx ≠ 0 := sum_sq_centered_ne_zero coords hx
  have hu : (coords.map fun q => q.x - xm).sum = 0 := sum_centered_x coords hne
  have hv : (coords.map fun q => q.y - ym).sum = 0 := sum_centered_y coords hne
  set m := sxy / sxx with hm
  -- residual of the fitted line
  have hru : (coords.map fun q => ((q.y - ym) - m * (q.x - xm)) * (q.x - xm)).sum = 0 := by
    rw [sum_map_affine coords _ (fun q => (q.x - xm) * (q.y - ym)) (fun q => (q.x - xm) ^ 2)
      (fun _ => 0) (-m) 0 (fun q => by ring)]
    rw [← hsxy, ← hsxx, hm]
    field_simp
  have hr : (coords.map fun q => (q.y - ym) - m * (q.x - xm)).sum = 0 := by
    rw [sum_map_affine coords _ (fun q => q.y - ym) (fun q => q.x - xm)
      (fun _ => 0) (-m) 0 (fun q => by ring)]
    rw [hu, hv]
    simp
  have hnn : 0 ≤ (coords.map fun q =>
      ((m - a) * (q.x - xm) + (ym - a * xm - b)) ^ 2).sum :=
    List.sum_nonneg (fun x hx => by
      obtain ⟨q, _, rfl⟩ := List.mem_map.mp hx
      exact sq_nonneg _)
  have hfit : squaredResiduals coords m (ym - m * xm)
      = (coords.map fun q => ((q.y - ym) - m * (q.x - xm)) ^ 2).sum := by
    unfold squaredResiduals
    congr 1
    apply List.map_congr_left
    intro q _
    ring
  have hab : squaredResiduals coords a b
      = (coords.map fun q => ((q.y - ym) - m * (q.x - xm)) ^ 2).sum
        + (coords.map fun q => ((m - a) * (q.x - xm) + (ym - a * xm - b)) ^ 2).sum := by
    unfold squaredResiduals
    have h1 := sum_map_affine coords
      (fun q => (q.y - (a * q.x + b)) ^ 2
        - ((q.y - ym) - m * (q.x - xm)) ^ 2
        - ((m - a) * (q.x - xm) + (ym - a * xm - b)) ^ 2)
      (fun _ => 0)
      (fun q => ((q.y - ym) - m * (q.x - xm)) * (q.x - xm))
      (fun q => (q.y - ym) - m * (q.x - xm))
      (2 * (m - a)) (2 * (ym - a * xm - b)) (fun q => by ring)
    rw [hru, hr] at h1
    have h2 := sum_map_affine coords
      (fun q => (q.y - (a * q.x + b)) ^ 2)
      (fun q => (q.y - (a * q.x + b)) ^ 2
        - ((q.y - ym) - m * (q.x - xm)) ^ 2
        - ((m - a) * (q.x - xm) + (ym - a * xm - b)) ^ 2)
      (fun q => ((q.y - ym) - m * (q.x - xm)) ^ 2)
      (fun q => ((m - a) * (q.x - xm) + (ym - a * xm - b)) ^ 2)
      1 1 (fun q => by ring)
    rw [h2, h1]
    simp
  rw [hfit, hab]
  linarith

end Lemmas2

end LinearRegression

namespace KMeans

section Lemmas

variable {R : Type} [LinearOrderedField R]

theorem coordinateSums_foldl (points : List (Point R)) (s : R × R) :
    points.foldl (fun s point => (s.1 + point.x, s.2 + point.y)) s
      = (s.1 + (points.map fun p => p.x).sum, s.2 + (points.map fun p => p.y).sum) := by
  induction points generalizing s with
  | nil => simp
  | cons c cs ih =>
    rw [List.foldl_cons, ih]
    simp only [List.map_cons, List.sum_cons]
    ext <;> simp [add_assoc]

theorem coordinateSums_eq (points : List (Point R)) :
    coordinateSums points = ((points.map fun p => p.x).sum, (points.map fun p => p.y).sum) := by
  unfold coordinateSums
  rw [coordinateSums_foldl]
  simp

theorem updateCentroid_cons_empty (cluster : Cluster R) (rest : List (Cluster R))
    (h : cluster.points = []) : updateCentroid (cluster :: rest) = cluster :: rest := by
  rw [updateCentroid, if_pos (by simp [h])]

theorem updateCentroid_cons_points (cluster : Cluster R) (rest : List (Cluster R))
    (h : cluster.points ≠ []) :
    updateCentroid (cluster :: rest) = recenter cluster :: updateCentroid rest := by
  have hl : ¬ cluster.points.length = 0 := fun h0 => h (List.length_eq_zero.mp h0)
  rw [updateCentroid, if_neg hl, coordinateSums_eq]
  simp only [ne_eq, hl, not_false_eq_true, if_true]
  rfl

theorem updateCentroid_all_points (clusters : List (Cluster R))
    (h : ∀ c ∈ clusters, c.points ≠ []) :
    updateCentroid clusters = clusters.map recenter := by
  induction clusters with
  | nil => rfl
  | cons c cs ih =>
    rw [updateCentroid_cons_points c cs (h c (List.mem_cons_self _ _)),
      ih (fun c' hc' => h c' (List.mem_cons_of_mem _ hc'))]
    rfl

theorem updateCentroid_append_empty (pre rest : List (Cluster R)) (e : Cluster R)
    (hpre : ∀ c ∈ pre, c.points ≠ []) (he : e.points = []) :
    updateCentroid (pre ++ e :: rest) = pre.map recenter ++ e :: rest := by
  induction pre with
  | nil => exact updateCentroid_cons_empty e rest he
  | cons c cs ih =>
    rw [List.cons_append, updateCentroid_cons_points c _ (hpre c (List.mem_cons_self _ _)),
      ih (fun c' hc' => hpre c' (List.mem_cons_of_mem _ hc'))]
    rfl

/-- Once the guard `distance < leastValue` implies acceptance, the loop of
`findLeastDistanceIndex` is a running strict minimum. -/
theorem leastStep_accepting (threshold : R) (i : Nat) (distance leastValue : R) (leastIndex : Int)
    (hi : i ≠ 0)
    (hacc : threshold = 0 ∨ (0 ≤ threshold ∧ leastValue ≤ threshold)) :
    leastStep threshold i distance (leastValue, leastIndex)
      = if distance < leastValue then (distance, (i : Int)) else (leastValue, leastIndex) := by
  unfold leastStep
  by_cases hd : distance < leastValue
  · rw [if_pos (Or.inr hd), if_pos hd]
    rcases hacc with h0 | ⟨h0, hle⟩
    · by_cases h1 : threshold ≥ 0 ∧ distance ≤ threshold
      · rw [if_pos h1]
      · rw [if_neg h1, if_pos (beq_iff_eq.mpr h0)]
    · rw [if_pos ⟨h0, le_trans (le_of_lt hd) hle⟩]
  · rw [if_neg (by simp [hi, hd]), if_neg hd]

theorem leastStep_first (threshold distance : R) (st : R × Int)
    (hacc : threshold = 0 ∨ (0 ≤ threshold ∧ distance ≤ threshold)) :
    leastStep threshold 0 distance st = (distance, 0) := by
  unfold leastStep
  rw [if_pos (Or.inl rfl)]
  rcases hacc with h0 | ⟨h0, hle⟩
  · by_cases h1 : threshold ≥ 0 ∧ distance ≤ threshold
    · rw [if_pos h1]; rfl
    · rw [if_neg h1, if_pos (beq_iff_eq.mpr h0)]; rfl
  · rw [if_pos ⟨h0, hle⟩]; rfl

/-- The running strict minimum from index `i` on: either nothing in `rest` is
below `leastValue` and the state is kept, or the state ends at the first
position of the least element of `rest`. -/
theorem leastLoop_accepting (threshold : R) (rest : List R) :
    ∀ (i : Nat) (leastValue : R) (leastIndex : Int), i ≠ 0 →
      (threshold = 0 ∨ (0 ≤ threshold ∧ leastValue ≤ threshold)) →
      (leastLoop threshold rest i (leastValue, leastIndex) = (leastValue, leastIndex)
        ∧ ∀ d ∈ rest, leastValue ≤ d)
      ∨ ∃ k v, rest[k]? = some v
          ∧ leastLoop threshold rest i (leastValue, leastIndex) = (v, ((i + k : Nat) : Int))
          ∧ v < leastValue
          ∧ (∀ d ∈ rest, v ≤ d)
          ∧ ∀ j d, j < k → rest[j]? = some d → v < d := by
  induction rest with
  | nil =>
    intro i lv li _ _
    exact Or.inl ⟨rfl, fun d hd => by simp at hd⟩
  | cons d ds ih =>
    intro i lv li hi hacc
    rw [leastLoop, leastStep_accepting threshold i d lv li hi hacc]
    by_cases hd : d < lv
    · rw [if_pos hd]
      have hacc' : threshold = 0 ∨ (0 ≤ threshold ∧ d ≤ threshold) := by
        rcases hacc with h0 | ⟨h0, hle⟩
        · exact Or.inl h0
        · exact Or.inr ⟨h0, le_trans (le_of_lt hd) hle⟩
      rcases ih (i + 1) d (i : Int) (Nat.succ_ne_zero i) hacc' with ⟨hk, hall⟩ | ⟨k, v, hkv, hloop, hlt, hall, hfirst⟩
      · refine Or.inr ⟨0, d, by simp, ?_, hd, ?_, ?_⟩
        · rw [hk]; rfl
        · intro d' hd'
          rcases List.mem_cons.mp hd' with rfl | hd'
          · exact le_refl _
          · exact hall d' hd'
        · intro j d' hj _
          exact absurd hj (Nat.not_lt_zero _)
      · refine Or.inr ⟨k + 1, v, by simpa using hkv, ?_, lt_trans hlt hd, ?_, ?_⟩
        · rw [hloop]
          congr 2
          omega
        · intro d' hd'
          rcases List.mem_cons.mp hd' with rfl | hd'
          · exact le_of_lt hlt
          · exact hall d' hd'
        · intro j d' hj hjd
          cases j with
          | zero =>
            simp at hjd
            rw [← hjd]
            exact hlt
          | succ j =>
            exact hfirst j d' (by omega) (by simpa using hjd)
    · rw [if_neg hd]
      rcases ih (i + 1) lv li (Nat.succ_ne_zero i) hacc with ⟨hk, hall⟩ | ⟨k, v, hkv, hloop, hlt, hall, hfirst⟩
      · refine Or.inl ⟨hk, ?_⟩
        intro d' hd'
        rcases List.mem_cons.mp hd' with rfl | hd'
        · exact not_lt.mp hd
        · exact hall d' hd'
      · refine Or.inr ⟨k + 1, v, by simpa using hkv, ?_, hlt, ?_, ?_⟩
        · rw [hloop]
          congr 2
          omega
        · intro d' hd'
          rcases List.mem_cons.mp hd' with rfl | hd'
          · exact le_of_lt (lt_of_lt_of_le hlt (not_lt.mp hd))
          · exact hall d' hd'
        · intro j d' hj hjd
          cases j with
          | zero =>
            simp at hjd
            rw [← hjd]
            exact lt_of_lt_of_le hlt (not_lt.mp hd)
          | succ j =>
            exact hfirst j d' (by omega) (by simpa using hjd)

/-- When the first distance is accepted (`threshold = 0`, or the first
distance is within a non-negative threshold), `findLeastDistanceIndex`
returns the first position of the least distance. -/
theorem findLeastDistanceIndex_first_accepted (threshold d0 : R) (rest : List R)
    (hacc : threshold = 0 ∨ (0 ≤ threshold ∧ d0 ≤ threshold)) :
    ∃ (k : Nat) (v : R), (d0 :: rest)[k]? = some v
      ∧ findLeastDistanceIndex threshold (d0 :: rest) = (k : Int)
      ∧ (∀ d ∈ d0 :: rest, v ≤ d)
      ∧ ∀ j d, j < k → (d0 :: rest)[j]? = some d → v < d := by
  unfold findLeastDistanceIndex
  rw [leastLoop, leastStep_first threshold d0 _ hacc]
  rcases leastLoop_accepting threshold rest 1 d0 0 (by decide) hacc with
    ⟨hk, hall⟩ | ⟨k, v, hkv, hloop, hlt, hall, hfirst⟩
  · refine ⟨0, d0, by simp, ?_, ?_, ?_⟩
    · show (leastLoop threshold rest (0 + 1) (d0, 0)).2 = _
      rw [hk]; rfl
    · intro d hd
      rcases List.mem_cons.mp hd with rfl | hd
      · exact le_refl _
      · exact hall d hd
    · intro j d hj _
      exact absurd hj (Nat.not_lt_zero _)
  · refine ⟨k + 1, v, by simpa using hkv, ?_, ?_, ?_⟩
    · show (leastLoop threshold rest (0 + 1) (d0, 0)).2 = _
      rw [hloop]
      show ((1 + k : Nat) : Int) = ((k + 1 : Nat) : Int)
      congr 1
      omega
    · intro d hd
      rcases List.mem_cons.mp hd with rfl | hd
      · exact le_of_lt hlt
      · exact hall d hd
    · intro j d hj hjd
      cases j with
      | zero =>
        simp at hjd
        rw [← hjd]
        exact hlt
      | succ j =>
        exact hfirst j d (by omega) (by simpa using hjd)

/-- With a positive threshold, a state `(0, -1)` is never left by
non-negative distances from index 1 on. -/
theorem leastLoop_stuck (threshold : R) (rest : List R) (hrest : ∀ d ∈ rest, 0 ≤ d) :
    ∀ i : Nat, i ≠ 0 → leastLoop threshold rest i (0, -1) = (0, -1) := by
  induction rest with
  | nil => intro i _; rfl
  | cons d ds ih =>
    intro i hi
    have hd : ¬ d < 0 := not_lt.mpr (hrest d (List.mem_cons_self _ _))
    have hstep : leastStep threshold i d (0, -1) = (0, -1) := by
      unfold leastStep
      rw [if_neg (by simp [hi, hd])]
    rw [leastLoop, hstep]
    exact ih (fun d' hd' => hrest d' (List.mem_cons_of_mem _ hd')) (i + 1) (Nat.succ_ne_zero i)

end Lemmas

open NeuralNet (Panic bind_ok_eq bind_error_eq pure_eq_ok bind_eq_ok)

section Assign

variable {R : Type} [Zero R] [One R] [HAdd R R R] [HSub R R R] [HMul R R R] [HDiv R R R] [Neg R]
  [HPow R Nat R] [NatCast R] [LT R] [LE R] [BEq R] [DecidableEq R]
  [∀ a b : R, Decidable (a < b)] [∀ a b : R, Decidable (a ≤ b)]

theorem makeSlice_ok {α : Type} (zero : α) (n : Int) (hn : 0 ≤ n) :
    makeSlice zero n = .ok (List.replicate n.toNat zero) := by
  unfold makeSlice
  rw [if_neg (not_lt.mpr hn)]

theorem makeSlice_eq_ok {α : Type} (zero : α) (n : Int) (l : List α)
    (h : makeSlice zero n = .ok l) : 0 ≤ n ∧ l = List.replicate n.toNat zero := by
  unfold makeSlice at h
  by_cases hn : n < 0
  · rw [if_pos hn] at h; cases h
  · rw [if_neg hn] at h
    injection h with h
    exact ⟨not_lt.mp hn, h.symm⟩

theorem copyCentroids_eq (l : List (Cluster R)) : copyCentroids l = l := by
  induction l with
  | nil => rfl
  | cons c cs ih => rw [copyCentroids, ih]

theorem set_append_cons {α : Type} (pre suf : List α) (s d : α) :
    (pre ++ s :: suf).set pre.length d = pre ++ d :: suf := by
  induction pre with
  | nil => rfl
  | cons a as ih => simp [ih]

theorem setDistance_append (pre suf : List R) (s d : R) :
    setDistance (pre ++ s :: suf) pre.length d = .ok (pre ++ d :: suf) := by
  unfold setDistance
  rw [if_pos (by simp), set_append_cons]

/-- The index that the loop of `findLeastDistanceIndex` ends with is the one it
started with or a position of the slice. -/
theorem leastLoop_index (threshold : R) (rest : List R) :
    ∀ (i : Nat) (st : R × Int),
      (leastLoop threshold rest i st).2 = st.2
      ∨ ((i : Int) ≤ (leastLoop threshold rest i st).2
          ∧ (leastLoop threshold rest i st).2 < ((i + rest.length : Nat) : Int)) := by
  induction rest with
  | nil => intro i st; exact Or.inl rfl
  | cons d ds ih =>
    intro i st
    rw [leastLoop]
    have hstep : leastStep threshold i d st = st ∨ leastStep threshold i d st = (d, (i : Int)) := by
      unfold leastStep
      split_ifs <;> simp
    rcases ih (i + 1) (leastStep threshold i d st) with h | ⟨h1, h2⟩
    · rcases hstep with hs | hs
      · rw [h, hs]; exact Or.inl rfl
      · rw [h, hs]
        refine Or.inr ⟨le_refl _, ?_⟩
        simp only [List.length_cons]
        push_cast
        omega
    · refine Or.inr ⟨?_, ?_⟩
      · push_cast at h1; omega
      · simp only [List.length_cons]
        push_cast at h2 ⊢
        omega

theorem findLeastDistanceIndex_range (threshold : R) (distances : List R) :
    findLeastDistanceIndex threshold distances = -1
    ∨ (0 ≤ findLeastDistanceIndex threshold distances
        ∧ (findLeastDistanceIndex threshold distances).toNat < distances.length) := by
  unfold findLeastDistanceIndex
  rcases leastLoop_index threshold distances 0 (0, -1) with h | ⟨h1, h2⟩
  · exact Or.inl h
  · refine Or.inr ⟨by simpa using h1, ?_⟩
    simp only [zero_add] at h2
    have h1' : (0 : Int) ≤ (leastLoop threshold distances 0 (0, -1)).2 := by simpa using h1
    omega

theorem appendPoint_ok (newClusters : List (Cluster R)) (k : Nat) (cluster : Cluster R)
    (point : Point R) (hk : newClusters[k]? = some cluster) :
    appendPoint newClusters (k : Int) point
      = .ok (newClusters.set k { cluster with points := cluster.points ++ [point] }) := by
  unfold appendPoint
  rw [if_pos (Int.natCast_nonneg k)]
  simp only [Int.toNat_ofNat, hk]

end Assign

section AssignLoop

variable {R : Type} [Zero R] [One R] [HAdd R R R] [HSub R R R] [HMul R R R] [HDiv R R R] [Neg R]
  [HPow R Nat R] [NatCast R] [LT R] [LE R] [BEq R] [DecidableEq R]
  [∀ a b : R, Decidable (a < b)] [∀ a b : R, Decidable (a ≤ b)]

/-- What `updateClusters` does with one point once all the distances are
stored: the point is appended to the cluster that `findLeastDistanceIndex`
names, if it names one. -/
theorem assignLoop_filled (sqrt : R → R) (threshold : R) (n : Nat) (point : Point R)
    (newClusters : List (Cluster R)) (rest : List (Cluster R)) :
    ∀ (pre suf : List R), rest ≠ [] → suf.length = rest.length →
      pre.length + rest.length = n →
      assignLoop sqrt threshold (n : Int) point rest pre.length (pre ++ suf, newClusters)
        = if findLeastDistanceIndex threshold
              (pre ++ rest.map fun c => findDistance sqrt c.centroid point) ≠ -1 then
            (appendPoint newClusters
              (findLeastDistanceIndex threshold
                (pre ++ rest.map fun c => findDistance sqrt c.centroid point)) point).bind
              fun nc => .ok (pre ++ rest.map fun c => findDistance sqrt c.centroid point, nc)
          else .ok (pre ++ rest.map fun c => findDistance sqrt c.centroid point, newClusters) := by
  induction rest with
  | nil => intro pre suf h; exact absurd rfl h
  | cons c cs ih =>
    intro pre suf _ hsuf hn
    cases suf with
    | nil => simp at hsuf
    | cons s suf =>
      simp only [List.length_cons, Nat.succ.injEq] at hsuf
      rw [assignLoop, assignStep]
      simp only [setDistance_append, bind_ok_eq]
      by_cases hcs : cs = []
      · subst hcs
        have hi : (pre.length : Int) = (n : Int) - 1 := by
          simp only [List.length_cons, List.length_nil] at hn
          omega
        have hs : suf = [] := List.length_eq_zero.mp hsuf
        subst hs
        rw [if_pos hi]
        simp only [List.map_cons, List.map_nil]
        by_cases hidx : findLeastDistanceIndex threshold
            (pre ++ [findDistance sqrt c.centroid point]) ≠ -1
        · rw [if_pos hidx, if_pos hidx]
          cases happ : appendPoint newClusters (findLeastDistanceIndex threshold
            (pre ++ [findDistance sqrt c.centroid point])) point with
          | error e => rfl
          | ok nc => rfl
        · rw [if_neg hidx, if_neg hidx]
          rfl
      · have hi : ¬ (pre.length : Int) = (n : Int) - 1 := by
          have : 0 < cs.length := List.length_pos.mpr hcs
          simp only [List.length_cons] at hn
          omega
        rw [if_neg hi]
        have := ih (pre ++ [findDistance sqrt c.centroid point]) suf hcs hsuf
          (by simp only [List.length_append, List.length_cons, List.length_nil,
                List.length_cons] at hn ⊢; omega)
        simp only [List.length_append, List.length_cons, List.length_nil, List.append_assoc,
          List.singleton_append, zero_add] at this
        simp only [pure_eq_ok, bind_ok_eq, List.map_cons]
        exact this

theorem assignLoop_all (sqrt : R → R) (threshold : R) (point : Point R)
    (clusters : List (Cluster R)) (hc : clusters ≠ []) (distances : List R)
    (hd : distances.length = clusters.length) (newClusters : List (Cluster R)) :
    assignLoop sqrt threshold (clusters.length : Int) point clusters 0 (distances, newClusters)
      = if findLeastDistanceIndex threshold (centroidDistances sqrt clusters point) ≠ -1 then
          (appendPoint newClusters
            (findLeastDistanceIndex threshold (centroidDistances sqrt clusters point)) point).bind
            fun nc => .ok (centroidDistances sqrt clusters point, nc)
        else .ok (centroidDistances sqrt clusters point, newClusters) :=
  assignLoop_filled sqrt threshold clusters.length point newClusters clusters [] distances hc hd
    (by simp)

end AssignLoop

section Nearest

variable {R : Type} [Zero R] [One R] [HAdd R R R] [HSub R R R] [HMul R R R] [HDiv R R R] [Neg R]
  [HPow R Nat R] [NatCast R] [LT R] [LE R] [BEq R] [DecidableEq R]
  [∀ a b : R, Decidable (a < b)] [∀ a b : R, Decidable (a ≤ b)]

/-- With `threshold = 0` the body of the loop takes the distance when it is
the first or below the least value, whatever the comparisons with the
threshold give. -/
theorem leastStep_zero (h0 : ((0 : R) == 0) = true) (i : Nat) (distance : R) (st : R × Int) :
    leastStep 0 i distance st
      = if i = 0 ∨ distance < st.1 then (distance, (i : Int)) else st := by
  unfold leastStep
  by_cases h : i = 0 ∨ distance < st.1
  · rw [if_pos h, if_pos h]
    by_cases h1 : (0 : R) ≥ 0 ∧ distance ≤ 0
    · rw [if_pos h1]
    · rw [if_neg h1, if_pos h0]
  · rw [if_neg h, if_neg h]

/-- The running strict minimum from index `i` on under `threshold = 0`: either
nothing in `rest` is below `leastValue` and the state is kept, or the state
ends at the first position of the least element of `rest`. -/
theorem leastLoop_zero (Reg : R → Prop) (hR : Comparable Reg) (rest : List R) :
    (∀ d ∈ rest, Reg d) →
    ∀ (i : Nat) (leastValue : R) (leastIndex : Int), i ≠ 0 → Reg leastValue →
      (leastLoop 0 rest i (leastValue, leastIndex) = (leastValue, leastIndex)
        ∧ ∀ d ∈ rest, leastValue ≤ d)
      ∨ ∃ (k : Nat) (v : R), rest[k]? = some v
          ∧ leastLoop 0 rest i (leastValue, leastIndex) = (v, ((i + k : Nat) : Int))
          ∧ v < leastValue
          ∧ (∀ d ∈ rest, v ≤ d)
          ∧ ∀ (j : Nat) (d : R), j < k → rest[j]? = some d → v < d := by
  induction rest with
  | nil =>
    intro _ i lv li _ _
    exact Or.inl ⟨rfl, fun d hd => by simp at hd⟩
  | cons d ds ih =>
    intro hreg i lv li hi hlv
    have hd0 : Reg d := hreg d (List.mem_cons_self _ _)
    have hds : ∀ x ∈ ds, Reg x := fun x hx => hreg x (List.mem_cons_of_mem _ hx)
    have hmem : ∀ (k : Nat) (v : R), ds[k]? = some v → Reg v := fun k v hkv =>
      hds v (List.mem_iff_getElem?.mpr ⟨k, hkv⟩)
    rw [leastLoop, leastStep_zero hR.zero]
    by_cases hd : d < lv
    · rw [if_pos (Or.inr hd)]
      rcases ih hds (i + 1) d (i : Int) (Nat.succ_ne_zero i) hd0 with
        ⟨hk, hall⟩ | ⟨k, v, hkv, hloop, hlt, hall, hfirst⟩
      · refine Or.inr ⟨0, d, by simp, ?_, hd, ?_, ?_⟩
        · rw [hk]; rfl
        · intro d' hd'
          rcases List.mem_cons.mp hd' with rfl | hd'
          · exact hR.refl _ hd0
          · exact hall d' hd'
        · intro j d' hj _
          exact absurd hj (Nat.not_lt_zero _)
      · have hv : Reg v := hmem k v hkv
        refine Or.inr ⟨k + 1, v, by simpa using hkv, ?_, hR.trans v d lv hv hd0 hlv hlt hd,
          ?_, ?_⟩
        · rw [hloop]
          congr 2
          omega
        · intro d' hd'
          rcases List.mem_cons.mp hd' with rfl | hd'
          · exact hR.of_lt _ _ hv hd0 hlt
          · exact hall d' hd'
        · intro j d' hj hjd
          cases j with
          | zero =>
            simp at hjd
            rw [← hjd]
            exact hlt
          | succ j =>
            exact hfirst j d' (by omega) (by simpa using hjd)
    · rw [if_neg (by simp [hi, hd])]
      rcases ih hds (i + 1) lv li (Nat.succ_ne_zero i) hlv with
        ⟨hk, hall⟩ | ⟨k, v, hkv, hloop, hlt, hall, hfirst⟩
      · refine Or.inl ⟨hk, ?_⟩
        intro d' hd'
        rcases List.mem_cons.mp hd' with rfl | hd'
        · exact hR.of_not_lt _ _ hd0 hlv hd
        · exact hall d' hd'
      · have hv : Reg v := hmem k v hkv
        have hvd : v < d :=
          hR.lt_le v lv d hv hlv hd0 hlt (hR.of_not_lt _ _ hd0 hlv hd)
        refine Or.inr ⟨k + 1, v, by simpa using hkv, ?_, hlt, ?_, ?_⟩
        · rw [hloop]
          congr 2
          omega
        · intro d' hd'
          rcases List.mem_cons.mp hd' with rfl | hd'
          · exact hR.of_lt _ _ hv hd0 hvd
          · exact hall d' hd'
        · intro j d' hj hjd
          cases j with
          | zero =>
            simp at hjd
            rw [← hjd]
            exact hvd
          | succ j =>
            exact hfirst j d' (by omega) (by simpa using hjd)

/-- With `threshold = 0`, `findLeastDistanceIndex` returns the first position
of the least distance. -/
theorem findLeastDistanceIndex_zero (Reg : R → Prop) (hR : Comparable Reg) (d0 : R)
    (rest : List R) (hreg : ∀ d ∈ d0 :: rest, Reg d) :
    ∃ (k : Nat) (v : R), (d0 :: rest)[k]? = some v
      ∧ findLeastDistanceIndex 0 (d0 :: rest) = (k : Int)
      ∧ (∀ d ∈ d0 :: rest, v ≤ d)
      ∧ ∀ (j : Nat) (d : R), j < k → (d0 :: rest)[j]? = some d → v < d := by
  have hd0 : Reg d0 := hreg d0 (List.mem_cons_self _ _)
  have hds : ∀ x ∈ rest, Reg x := fun x hx => hreg x (List.mem_cons_of_mem _ hx)
  unfold findLeastDistanceIndex
  rw [leastLoop, leastStep_zero hR.zero, if_pos (Or.inl rfl)]
  rcases leastLoop_zero Reg hR rest hds 1 d0 0 (by decide) hd0 with
    ⟨hk, hall⟩ | ⟨k, v, hkv, hloop, hlt, hall, hfirst⟩
  · refine ⟨0, d0, by simp, ?_, ?_, ?_⟩
    · show (leastLoop 0 rest (0 + 1) (d0, 0)).2 = _
      rw [hk]; rfl
    · intro d hd
      rcases List.mem_cons.mp hd with rfl | hd
      · exact hR.refl _ hd0
      · exact hall d hd
    · intro j d hj _
      exact absurd hj (Nat.not_lt_zero _)
  · have hv : Reg v := hds v (List.mem_iff_getElem?.mpr ⟨k, hkv⟩)
    refine ⟨k + 1, v, by simpa using hkv, ?_, ?_, ?_⟩
    · show (leastLoop 0 rest (0 + 1) (d0, 0)).2 = _
      rw [hloop]
      show ((1 + k : Nat) : Int) = ((k + 1 : Nat) : Int)
      congr 1
      omega
    · intro d hd
      rcases List.mem_cons.mp hd with rfl | hd
      · exact hR.of_lt _ _ hv hd0 hlt
      · exact hall d hd
    · intro j d hj hjd
      cases j with
      | zero =>
        simp at hjd
        rw [← hjd]
        exact hlt
      | succ j =>
        exact hfirst j d (by omega) (by simpa using hjd)

theorem isNearest_iff (sqrt : R → R) (clusters : List (Cluster R)) (p : Point R) (k : Nat) :
    isNearest sqrt clusters p k = true
      ↔ ∃ v, (centroidDistances sqrt clusters p)[k]? = some v
          ∧ (∀ d ∈ centroidDistances sqrt clusters p, v ≤ d)
          ∧ ∀ d ∈ (centroidDistances sqrt clusters p).take k, v < d := by
  unfold isNearest
  cases h : (centroidDistances sqrt clusters p)[k]? with
  | none => simp
  | some v => simp

theorem isNearest_lt (sqrt : R → R) (clusters : List (Cluster R)) (p : Point R) (k : Nat)
    (h : isNearest sqrt clusters p k = true) : k < clusters.length := by
  obtain ⟨v, hv, _⟩ := (isNearest_iff sqrt clusters p k).mp h
  have := (List.getElem?_eq_some.mp hv).1
  simpa [centroidDistances] using this

theorem isNearest_unique (Reg : R → Prop) (hR : Comparable Reg) (sqrt : R → R)
    (clusters : List (Cluster R)) (p : Point R)
    (hreg : ∀ d ∈ centroidDistances sqrt clusters p, Reg d) (k j : Nat)
    (hk : isNearest sqrt clusters p k = true) (hj : isNearest sqrt clusters p j = true) :
    k = j := by
  obtain ⟨v, hv, hvall, hvfirst⟩ := (isNearest_iff sqrt clusters p k).mp hk
  obtain ⟨w, hw, hwall, hwfirst⟩ := (isNearest_iff sqrt clusters p j).mp hj
  have hvm : v ∈ centroidDistances sqrt clusters p := List.mem_iff_getElem?.mpr ⟨k, hv⟩
  have hwm : w ∈ centroidDistances sqrt clusters p := List.mem_iff_getElem?.mpr ⟨j, hw⟩
  rcases Nat.lt_trichotomy k j with hlt | heq | hgt
  · exfalso
    have hmem : v ∈ (centroidDistances sqrt clusters p).take j := by
      rw [List.mem_iff_getElem?]
      exact ⟨k, by rw [List.getElem?_take, if_pos hlt]; exact hv⟩
    exact hR.not_lt v w (hreg v hvm) (hreg w hwm) (hvall w hwm) (hwfirst v hmem)
  · exact heq
  · exfalso
    have hmem : w ∈ (centroidDistances sqrt clusters p).take k := by
      rw [List.mem_iff_getElem?]
      exact ⟨j, by rw [List.getElem?_take, if_pos hgt]; exact hw⟩
    exact hR.not_lt w v (hreg w hwm) (hreg v hvm) (hwall v hvm) (hvfirst w hmem)

/-- With `threshold = 0` and at least one cluster, `findLeastDistanceIndex` on
the distances to a point names the nearest cluster. -/
theorem findLeastDistanceIndex_nearest (Reg : R → Prop) (hR : Comparable Reg) (sqrt : R → R)
    (clusters : List (Cluster R)) (hc : clusters ≠ []) (p : Point R)
    (hreg : ∀ d ∈ centroidDistances sqrt clusters p, Reg d) :
    ∃ k : Nat, findLeastDistanceIndex 0 (centroidDistances sqrt clusters p) = (k : Int)
      ∧ isNearest sqrt clusters p k = true := by
  cases hD : centroidDistances sqrt clusters p with
  | nil =>
    exfalso
    apply hc
    have := congrArg List.length hD
    simpa [centroidDistances] using this
  | cons d0 rest =>
    rw [hD] at hreg
    obtain ⟨k, v, hkv, hidx, hall, hfirst⟩ := findLeastDistanceIndex_zero Reg hR d0 rest hreg
    refine ⟨k, hidx, ?_⟩
    rw [isNearest_iff, hD]
    refine ⟨v, hkv, hall, fun d hd => ?_⟩
    rw [List.mem_iff_getElem?] at hd
    obtain ⟨j, hj⟩ := hd
    rw [List.getElem?_take] at hj
    by_cases hjk : j < k
    · rw [if_pos hjk] at hj
      exact hfirst j d hjk hj
    · rw [if_neg hjk] at hj
      cases hj

end Nearest

section PointsLoop

variable {R : Type} [Zero R] [One R] [HAdd R R R] [HSub R R R] [HMul R R R] [HDiv R R R] [Neg R]
  [HPow R Nat R] [NatCast R] [LT R] [LE R] [BEq R] [DecidableEq R]
  [∀ a b : R, Decidable (a < b)] [∀ a b : R, Decidable (a ≤ b)]

/-- One point under `threshold = 0`: it is appended to the nearest cluster. -/
theorem assignLoop_nearest (Reg : R → Prop) (hR : Comparable Reg) (sqrt : R → R)
    (point : Point R) (clusters : List (Cluster R)) (hc : clusters ≠ [])
    (hreg : ∀ d ∈ centroidDistances sqrt clusters point, Reg d)
    (distances : List R) (hd : distances.length = clusters.length)
    (newClusters : List (Cluster R)) (hn : newClusters.length = clusters.length) :
    ∃ (k : Nat) (cluster : Cluster R), isNearest sqrt clusters point k = true
      ∧ newClusters[k]? = some cluster
      ∧ assignLoop sqrt 0 (clusters.length : Int) point clusters 0 (distances, newClusters)
          = .ok (centroidDistances sqrt clusters point,
              newClusters.set k { cluster with points := cluster.points ++ [point] }) := by
  obtain ⟨k, hk, hnear⟩ := findLeastDistanceIndex_nearest Reg hR sqrt clusters hc point hreg
  have hlt : k < newClusters.length := by
    rw [hn]; exact isNearest_lt sqrt clusters point k hnear
  refine ⟨k, newClusters[k], hnear, List.getElem?_eq_getElem hlt, ?_⟩
  rw [assignLoop_all sqrt 0 point clusters hc distances hd newClusters, hk,
    if_pos (by omega), appendPoint_ok newClusters k newClusters[k] point
      (List.getElem?_eq_getElem hlt)]
  rfl

/-- The loop over the points under `threshold = 0`: every cluster gets, after
the points it had, the points nearest to it, in their order. -/
theorem pointsLoop_nearest (Reg : R → Prop) (hR : Comparable Reg) (sqrt : R → R)
    (clusters : List (Cluster R)) (hc : clusters ≠ []) (points : List (Point R)) :
    (∀ p ∈ points, ∀ d ∈ centroidDistances sqrt clusters p, Reg d) →
    ∀ (distances : List R) (newClusters : List (Cluster R)),
      distances.length = clusters.length → newClusters.length = clusters.length →
      ∃ (distances' : List R) (newClusters' : List (Cluster R)),
        pointsLoop sqrt 0 (clusters.length : Int) clusters points (distances, newClusters)
          = .ok (distances', newClusters')
        ∧ newClusters'.length = clusters.length
        ∧ ∀ k : Nat, newClusters'[k]?
            = (newClusters[k]?).map fun (c : Cluster R) =>
                { c with points := c.points
                    ++ points.filter fun p => isNearest sqrt clusters p k } := by
  induction points with
  | nil =>
    intro _ distances newClusters _ hn
    refine ⟨distances, newClusters, rfl, hn, fun k => ?_⟩
    cases newClusters[k]? with
    | none => rfl
    | some c => simp
  | cons p ps ih =>
    intro hreg distances newClusters hd hn
    have hp := hreg p (List.mem_cons_self _ _)
    obtain ⟨k, cluster, hnear, hk, hloop⟩ :=
      assignLoop_nearest Reg hR sqrt p clusters hc hp distances hd newClusters hn
    obtain ⟨distances', newClusters', hrest, hlen, hget⟩ :=
      ih (fun q hq => hreg q (List.mem_cons_of_mem _ hq)) (centroidDistances sqrt clusters p)
        (newClusters.set k { cluster with points := cluster.points ++ [p] })
        (by simp [centroidDistances]) (by simpa using hn)
    refine ⟨distances', newClusters', ?_, hlen, fun j => ?_⟩
    · rw [pointsLoop, hloop, bind_ok_eq, hrest]
    · rw [hget j, List.getElem?_set]
      by_cases hkj : k = j
      · subst hkj
        have hlt : k < newClusters.length := (List.getElem?_eq_some.mp hk).1
        rw [if_pos rfl, if_pos hlt, hk]
        simp [List.filter_cons, hnear]
      · rw [if_neg hkj]
        have hj : isNearest sqrt clusters p j = false := by
          cases h : isNearest sqrt clusters p j with
          | false => rfl
          | true => exact absurd (isNearest_unique Reg hR sqrt clusters p hp k j hnear h) hkj
        cases newClusters[j]? with
        | none => rfl
        | some c => simp [List.filter_cons, hj]

/-- The result of `updateClusters` under `threshold = 0` and
`numberOfClusters = len(clusters) ≥ 1`. -/
theorem updateClusters_filter (Reg : R → Prop) (hR : Comparable Reg) (sqrt : R → R)
    (clusters : List (Cluster R)) (hc : clusters ≠ []) (points : List (Point R))
    (hreg : ∀ p ∈ points, ∀ d ∈ centroidDistances sqrt clusters p, Reg d) :
    updateClusters sqrt 0 (clusters.length : Int) clusters points
      = .ok ((List.range clusters.length).map fun k =>
          ⟨⟨0, 0⟩, points.filter fun p => isNearest sqrt clusters p k⟩) := by
  unfold updateClusters
  rw [makeSlice_ok (0 : R) _ (Int.natCast_nonneg _),
    makeSlice_ok (Cluster.zero : Cluster R) _ (Int.natCast_nonneg _)]
  simp only [bind_ok_eq, Int.toNat_ofNat, copyCentroids_eq]
  obtain ⟨distances', newClusters', hloop, hlen, hget⟩ :=
    pointsLoop_nearest Reg hR sqrt clusters hc points hreg (List.replicate clusters.length 0)
      (List.replicate clusters.length Cluster.zero) (by simp) (by simp)
  rw [hloop]
  simp only [bind_ok_eq, pure_eq_ok]
  congr 1
  apply List.ext_getElem?
  intro k
  rw [hget k]
  by_cases hk : k < clusters.length
  · simp [List.getElem?_replicate, hk, Cluster.zero, List.getElem?_range]
  · have hr : (List.range clusters.length)[k]? = none :=
      List.getElem?_eq_none (by rw [List.length_range]; omega)
    simp [List.getElem?_replicate, hk, hr]

end PointsLoop

section Centroids

variable {R : Type} [Zero R] [One R] [HAdd R R R] [HSub R R R] [HMul R R R] [HDiv R R R] [Neg R]
  [HPow R Nat R] [NatCast R] [LT R] [LE R] [BEq R] [DecidableEq R]
  [∀ a b : R, Decidable (a < b)] [∀ a b : R, Decidable (a ≤ b)]

theorem appendPoint_inv (newClusters newClusters' : List (Cluster R)) (index : Int)
    (point : Point R) (z : Point R)
    (h : appendPoint newClusters index point = .ok newClusters') :
    newClusters'.length = newClusters.length
      ∧ ((∀ c ∈ newClusters, c.centroid = z) → ∀ c ∈ newClusters', c.centroid = z) := by
  unfold appendPoint at h
  by_cases h0 : 0 ≤ index
  · rw [if_pos h0] at h
    cases hk : newClusters[index.toNat]? with
    | none => rw [hk] at h; cases h
    | some cluster =>
      rw [hk] at h
      injection h with h
      subst h
      refine ⟨List.length_set _ _ _, fun hz c hc => ?_⟩
      rcases List.mem_or_eq_of_mem_set hc with hc | hc
      · exact hz c hc
      · rw [hc]
        exact hz cluster (List.mem_iff_getElem?.mpr ⟨_, hk⟩)
  · rw [if_neg h0] at h; cases h

theorem appendPoint_total (newClusters : List (Cluster R)) (index : Int) (point : Point R)
    (h0 : 0 ≤ index) (h1 : index.toNat < newClusters.length) :
    ∃ newClusters', appendPoint newClusters index point = .ok newClusters' := by
  unfold appendPoint
  rw [if_pos h0, List.getElem?_eq_getElem h1]
  exact ⟨_, rfl⟩

theorem setDistance_inv (distances distances' : List R) (i : Nat) (d : R)
    (h : setDistance distances i d = .ok distances') : distances'.length = distances.length := by
  unfold setDistance at h
  by_cases hi : i < distances.length
  · rw [if_pos hi] at h
    injection h with h
    subst h
    exact List.length_set _ _ _
  · rw [if_neg hi] at h; cases h

theorem assignStep_inv (sqrt : R → R) (threshold : R) (numberOfClusters : Int) (point : Point R)
    (i : Nat) (cluster : Cluster R) (st st' : List R × List (Cluster R)) (z : Point R)
    (h : assignStep sqrt threshold numberOfClusters point i cluster st = .ok st') :
    st'.1.length = st.1.length ∧ st'.2.length = st.2.length
      ∧ ((∀ c ∈ st.2, c.centroid = z) → ∀ c ∈ st'.2, c.centroid = z) := by
  unfold assignStep at h
  obtain ⟨distances, hset, h⟩ := bind_eq_ok h
  have hlen := setDistance_inv _ _ _ _ hset
  by_cases hi : (i : Int) = numberOfClusters - 1
  · rw [if_pos hi] at h
    by_cases hidx : findLeastDistanceIndex threshold distances ≠ -1
    · simp only [hidx, ne_eq, not_false_eq_true, if_true] at h
      obtain ⟨newClusters, happ, h⟩ := bind_eq_ok h
      obtain ⟨h1, h2⟩ := appendPoint_inv _ _ _ _ z happ
      injection h with h
      subst h
      exact ⟨hlen, h1, h2⟩
    · simp only [hidx, if_false] at h
      injection h with h
      subst h
      exact ⟨hlen, rfl, fun hz => hz⟩
  · rw [if_neg hi] at h
    injection h with h
    subst h
    exact ⟨hlen, rfl, fun hz => hz⟩

theorem assignStep_total (sqrt : R → R) (threshold : R) (numberOfClusters : Int)
    (point : Point R) (i : Nat) (cluster : Cluster R) (st : List R × List (Cluster R))
    (hi : i < st.1.length) (hlen : st.2.length = st.1.length) :
    ∃ st', assignStep sqrt threshold numberOfClusters point i cluster st = .ok st' := by
  unfold assignStep setDistance
  rw [if_pos hi]
  simp only [bind_ok_eq]
  by_cases hc : (i : Int) = numberOfClusters - 1
  · rw [if_pos hc]
    rcases findLeastDistanceIndex_range threshold
      (st.1.set i (findDistance sqrt cluster.centroid point)) with hidx | ⟨h0, h1⟩
    · rw [hidx]
      exact ⟨_, rfl⟩
    · by_cases hidx : findLeastDistanceIndex threshold
          (st.1.set i (findDistance sqrt cluster.centroid point)) ≠ -1
      · rw [if_pos hidx]
        obtain ⟨nc, hnc⟩ := appendPoint_total st.2 _ point h0
          (by rw [hlen]; simpa using h1)
        rw [hnc]
        exact ⟨_, rfl⟩
      · rw [if_neg hidx]
        exact ⟨_, rfl⟩
  · rw [if_neg hc]
    exact ⟨_, rfl⟩

theorem assignLoop_inv (sqrt : R → R) (threshold : R) (numberOfClusters : Int) (point : Point R)
    (z : Point R) (rest : List (Cluster R)) :
    ∀ (i : Nat) (st st' : List R × List (Cluster R)),
      assignLoop sqrt threshold numberOfClusters point rest i st = .ok st' →
      st'.1.length = st.1.length ∧ st'.2.length = st.2.length
        ∧ ((∀ c ∈ st.2, c.centroid = z) → ∀ c ∈ st'.2, c.centroid = z) := by
  induction rest with
  | nil =>
    intro i st st' h
    rw [assignLoop] at h
    injection h with h
    subst h
    exact ⟨rfl, rfl, fun hz => hz⟩
  | cons c cs ih =>
    intro i st st' h
    rw [assignLoop] at h
    obtain ⟨st1, hstep, h⟩ := bind_eq_ok h
    obtain ⟨a1, a2, a3⟩ := assignStep_inv sqrt threshold numberOfClusters point i c st st1 z hstep
    obtain ⟨b1, b2, b3⟩ := ih (i + 1) st1 st' h
    exact ⟨b1.trans a1, b2.trans a2, fun hz => b3 (a3 hz)⟩

theorem assignLoop_total (sqrt : R → R) (threshold : R) (numberOfClusters : Int)
    (point : Point R) (rest : List (Cluster R)) :
    ∀ (i : Nat) (st : List R × List (Cluster R)),
      i + rest.length ≤ st.1.length → st.2.length = st.1.length →
      ∃ st', assignLoop sqrt threshold numberOfClusters point rest i st = .ok st' := by
  induction rest with
  | nil => intro i st _ _; exact ⟨st, rfl⟩
  | cons c cs ih =>
    intro i st hi hlen
    simp only [List.length_cons] at hi
    obtain ⟨st1, hstep⟩ := assignStep_total sqrt threshold numberOfClusters point i c st
      (by omega) hlen
    obtain ⟨a1, a2, _⟩ := assignStep_inv sqrt threshold numberOfClusters point i c st st1
      ⟨0, 0⟩ hstep
    obtain ⟨st', h⟩ := ih (i + 1) st1 (by rw [a1]; omega) (by rw [a1, a2]; exact hlen)
    exact ⟨st', by rw [assignLoop, hstep, bind_ok_eq, h]⟩

theorem pointsLoop_inv (sqrt : R → R) (threshold : R) (numberOfClusters : Int)
    (clusters : List (Cluster R)) (z : Point R) (points : List (Point R)) :
    ∀ (st st' : List R × List (Cluster R)),
      pointsLoop sqrt threshold numberOfClusters clusters points st = .ok st' →
      st'.1.length = st.1.length ∧ st'.2.length = st.2.length
        ∧ ((∀ c ∈ st.2, c.centroid = z) → ∀ c ∈ st'.2, c.centroid = z) := by
  induction points with
  | nil =>
    intro st st' h
    rw [pointsLoop] at h
    injection h with h
    subst h
    exact ⟨rfl, rfl, fun hz => hz⟩
  | cons p ps ih =>
    intro st st' h
    rw [pointsLoop] at h
    obtain ⟨st1, hstep, h⟩ := bind_eq_ok h
    obtain ⟨a1, a2, a3⟩ := assignLoop_inv sqrt threshold numberOfClusters p z clusters 0 st st1 hstep
    obtain ⟨b1, b2, b3⟩ := ih st1 st' h
    exact ⟨b1.trans a1, b2.trans a2, fun hz => b3 (a3 hz)⟩

theorem pointsLoop_total (sqrt : R → R) (threshold : R) (numberOfClusters : Int)
    (clusters : List (Cluster R)) (points : List (Point R)) :
    ∀ (st : List R × List (Cluster R)),
      clusters.length ≤ st.1.length → st.2.length = st.1.length →
      ∃ st', pointsLoop sqrt threshold numberOfClusters clusters points st = .ok st' := by
  induction points with
  | nil => intro st _ _; exact ⟨st, rfl⟩
  | cons p ps ih =>
    intro st hc hlen
    obtain ⟨st1, hstep⟩ := assignLoop_total sqrt threshold numberOfClusters p clusters 0 st
      (by omega) hlen
    obtain ⟨a1, a2, _⟩ := assignLoop_inv sqrt threshold numberOfClusters p ⟨0, 0⟩ clusters 0
      st st1 hstep
    obtain ⟨st', h⟩ := ih st1 (by rw [a1]; exact hc) (by rw [a1, a2]; exact hlen)
    exact ⟨st', by rw [pointsLoop, hstep, bind_ok_eq, h]⟩

/-- Whenever `updateClusters` returns, it returns `numberOfClusters` clusters
with the centroid (0, 0). -/
theorem updateClusters_zero (sqrt : R → R) (threshold : R) (numberOfClusters : Int)
    (clusters : List (Cluster R)) (points : List (Point R)) (result : List (Cluster R))
    (h : updateClusters sqrt threshold numberOfClusters clusters points = .ok result) :
    result.length = numberOfClusters.toNat ∧ ∀ c ∈ result, c.centroid = ⟨0, 0⟩ := by
  unfold updateClusters at h
  obtain ⟨distances, hd, h⟩ := bind_eq_ok h
  obtain ⟨newClusters, hn, h⟩ := bind_eq_ok h
  obtain ⟨_, hd⟩ := makeSlice_eq_ok _ _ _ hd
  obtain ⟨_, hn⟩ := makeSlice_eq_ok _ _ _ hn
  simp only [copyCentroids_eq] at h
  obtain ⟨st', hloop, h⟩ := bind_eq_ok h
  obtain ⟨_, a2, a3⟩ := pointsLoop_inv sqrt threshold numberOfClusters clusters ⟨0, 0⟩ points
    _ st' hloop
  injection h with h
  subst h
  refine ⟨by rw [a2, hn]; simp, a3 (fun c hc => ?_)⟩
  rw [hn] at hc
  rw [List.eq_of_mem_replicate hc]
  rfl

/-- The call returns when `numberOfClusters` is not negative and there are at
most `numberOfClusters` clusters. -/
theorem updateClusters_total (sqrt : R → R) (threshold : R) (numberOfClusters : Int)
    (clusters : List (Cluster R)) (points : List (Point R)) (h0 : 0 ≤ numberOfClusters)
    (hc : (clusters.length : Int) ≤ numberOfClusters) :
    ∃ result, updateClusters sqrt threshold numberOfClusters clusters points = .ok result := by
  unfold updateClusters
  rw [makeSlice_ok (0 : R) _ h0, makeSlice_ok (Cluster.zero : Cluster R) _ h0]
  simp only [bind_ok_eq, copyCentroids_eq]
  obtain ⟨st', h⟩ := pointsLoop_total sqrt threshold numberOfClusters clusters points
    (List.replicate numberOfClusters.toNat 0,
      List.replicate numberOfClusters.toNat Cluster.zero)
    (by simp only [List.length_replicate]; omega) (by simp)
  rw [h]
  exact ⟨st'.2, rfl⟩

end Centroids

section Partition

theorem join_filter_cons {α : Type} (g : α → Nat → Bool) (p : α) (pts : List α) (k : Nat)
    (hk : g p k = true) (huniq : ∀ j, g p j = true → j = k) (ks : List Nat) :
    ks.Nodup → k ∈ ks →
      List.Perm (ks.map fun j => (p :: pts).filter fun q => g q j).flatten
        (p :: (ks.map fun j => pts.filter fun q => g q j).flatten) := by
  induction ks with
  | nil => intro _ h; simp at h
  | cons j js ih =>
    intro hnd hmem
    rw [List.nodup_cons] at hnd
    simp only [List.map_cons, List.flatten_cons]
    by_cases hjk : j = k
    · subst hjk
      have hrest : (js.map fun i => (p :: pts).filter fun q => g q i)
          = js.map fun i => pts.filter fun q => g q i := by
        apply List.map_congr_left
        intro i hi
        have hne : g p i = false := by
          cases h : g p i with
          | false => rfl
          | true => exact absurd (huniq i h ▸ hi) hnd.1
        simp [List.filter_cons, hne]
      rw [hrest]
      simp [List.filter_cons, hk]
    · have hne : g p j = false := by
        cases h : g p j with
        | false => rfl
        | true => exact absurd (huniq j h) hjk
      have hmem' : k ∈ js := by
        rcases List.mem_cons.mp hmem with h | h
        · exact absurd h.symm hjk
        · exact h
      have hf : ((p :: pts).filter fun q => g q j) = pts.filter fun q => g q j := by
        simp [List.filter_cons, hne]
      rw [hf]
      exact ((ih hnd.2 hmem').append_left _).trans List.perm_middle

/-- Splitting a list by a key with values below `n` loses and duplicates
nothing. -/
theorem join_filter_perm {α : Type} (g : α → Nat → Bool) (n : Nat) (pts : List α)
    (h : ∀ p ∈ pts, ∃ k, k < n ∧ g p k = true ∧ ∀ j, g p j = true → j = k) :
    List.Perm ((List.range n).map fun j => pts.filter fun q => g q j).flatten pts := by
  induction pts with
  | nil =>
    have : ((List.range n).map fun j => ([] : List α).filter fun q => g q j)
        = (List.range n).map fun _ => [] := rfl
    rw [this]
    clear this
    induction (List.range n) with
    | nil => exact List.Perm.refl _
    | cons a as ih => simp
  | cons p ps ih =>
    obtain ⟨k, hk, hg, huniq⟩ := h p (List.mem_cons_self _ _)
    exact (join_filter_cons g p ps k hg huniq (List.range n) (List.nodup_range n)
      (List.mem_range.mpr hk)).trans
      (List.Perm.cons p (ih fun q hq => h q (List.mem_cons_of_mem _ hq)))

end Partition

section Nearest2

variable {R : Type} [Zero R] [One R] [HAdd R R R] [HSub R R R] [HMul R R R] [HDiv R R R] [Neg R]
  [HPow R Nat R] [NatCast R] [LT R] [LE R] [BEq R] [DecidableEq R]
  [∀ a b : R, Decidable (a < b)] [∀ a b : R, Decidable (a ≤ b)]

theorem isNearest_iff_clusters (sqrt : R → R) (clusters : List (Cluster R)) (p : Point R)
    (k : Nat) :
    isNearest sqrt clusters p k = true
      ↔ ∃ c, clusters[k]? = some c
          ∧ (∀ c' ∈ clusters, findDistance sqrt c.centroid p ≤ findDistance sqrt c'.centroid p)
          ∧ ∀ c' ∈ clusters.take k,
              findDistance sqrt c.centroid p < findDistance sqrt c'.centroid p := by
  rw [isNearest_iff]
  unfold centroidDistances
  constructor
  · rintro ⟨v, hv, hall, hfirst⟩
    rw [List.getElem?_map] at hv
    cases hc : clusters[k]? with
    | none => rw [hc] at hv; cases hv
    | some c =>
      rw [hc] at hv
      injection hv with hv
      subst hv
      refine ⟨c, rfl, fun c' hc' => hall _ (List.mem_map_of_mem _ hc'), fun c' hc' => ?_⟩
      apply hfirst
      rw [← List.map_take]
      exact List.mem_map_of_mem _ hc'
  · rintro ⟨c, hc, hall, hfirst⟩
    refine ⟨findDistance sqrt c.centroid p, by rw [List.getElem?_map, hc]; rfl, ?_, ?_⟩
    · intro d hd
      obtain ⟨c', hc', rfl⟩ := List.mem_map.mp hd
      exact hall c' hc'
    · intro d hd
      rw [← List.map_take] at hd
      obtain ⟨c', hc', rfl⟩ := List.mem_map.mp hd
      exact hfirst c' hc'

theorem isNearest_exists_unique (Reg : R → Prop) (hR : Comparable Reg) (sqrt : R → R)
    (clusters : List (Cluster R)) (hc : clusters ≠ []) (p : Point R)
    (hreg : ∀ d ∈ centroidDistances sqrt clusters p, Reg d) :
    ∃ k, k < clusters.length ∧ isNearest sqrt clusters p k = true
      ∧ ∀ j, isNearest sqrt clusters p j = true → j = k := by
  obtain ⟨k, _, hk⟩ := findLeastDistanceIndex_nearest Reg hR sqrt clusters hc p hreg
  exact ⟨k, isNearest_lt sqrt clusters p k hk, hk,
    fun j hj => isNearest_unique Reg hR sqrt clusters p hreg j k hj hk⟩

end Nearest2

section Exact

variable {R : Type} [LinearOrderedField R]

/-- In exact arithmetic the comparisons order all values. -/
theorem comparable_exact : Comparable (fun _ : R => True) where
  zero := beq_self_eq_true 0
  refl := fun a _ => le_refl a
  of_lt := fun _ _ _ _ h => le_of_lt h
  of_not_lt := fun _ _ _ _ h => not_lt.mp h
  trans := fun _ _ _ _ _ _ h1 h2 => lt_trans h1 h2
  lt_le := fun _ _ _ _ _ _ h1 h2 => lt_of_lt_of_le h1 h2
  not_lt := fun _ _ _ _ h1 h2 => absurd h1 (not_le.mpr h2)

/-- In exact arithmetic with the real square root, `findDistance` is the
Euclidean distance. -/
theorem findDistance_eq_dist (p q : Point ℝ) :
    findDistance Real.sqrt p q = dist p.vector q.vector := by
  unfold findDistance
  rw [EuclideanSpace.dist_eq, Fin.sum_univ_two]
  simp [Point.vector, Real.dist_eq, sq_abs]

end Exact

section Evaluation

theorem findDistance_sample_near : findDistance Real.sqrt (⟨3, 4⟩ : Point ℝ) ⟨0, 0⟩ = 5 := by
  unfold findDistance
  rw [show ((3 : ℝ) - 0) ^ 2 + (4 - 0) ^ 2 = 5 ^ 2 by norm_num]
  exact Real.sqrt_sq (by norm_num)

theorem findDistance_sample_far : findDistance Real.sqrt (⟨6, 8⟩ : Point ℝ) ⟨0, 0⟩ = 10 := by
  unfold findDistance
  rw [show ((6 : ℝ) - 0) ^ 2 + (8 - 0) ^ 2 = 10 ^ 2 by norm_num]
  exact Real.sqrt_sq (by norm_num)

theorem findDistance_sample_other : findDistance Real.sqrt (⟨3, 4⟩ : Point ℝ) ⟨6, 8⟩ = 5 := by
  unfold findDistance
  rw [show ((3 : ℝ) - 6) ^ 2 + (4 - 8) ^ 2 = 5 ^ 2 by norm_num]
  exact Real.sqrt_sq (by norm_num)

theorem findDistance_sample_self : findDistance Real.sqrt (⟨6, 8⟩ : Point ℝ) ⟨6, 8⟩ = 0 := by
  unfold findDistance
  simp

/-- The sample run: the two points (0, 0) go to the first cluster, the point
(6, 8) to the second, and both returned centroids are (0, 0). -/
theorem updateClusters_sample :
    updateClusters Real.sqrt 0 2 sampleCentroids sampleCloud
      = .ok [⟨⟨0, 0⟩, [⟨0, 0⟩, ⟨0, 0⟩]⟩, ⟨⟨0, 0⟩, [⟨6, 8⟩]⟩] := by
  have h := updateClusters_filter (fun _ => True) comparable_exact Real.sqrt sampleCentroids
    (by simp [sampleCentroids]) sampleCloud (fun _ _ _ _ => trivial)
  have hlen : ((sampleCentroids.length : Nat) : Int) = 2 := rfl
  rw [hlen] at h
  rw [h]
  have h00 : isNearest Real.sqrt sampleCentroids ⟨0, 0⟩ 0 = true := by
    simp [isNearest, centroidDistances, sampleCentroids, findDistance_sample_near,
      findDistance_sample_far]
    norm_num
  have h01 : isNearest Real.sqrt sampleCentroids ⟨0, 0⟩ 1 = false := by
    simp [isNearest, centroidDistances, sampleCentroids, findDistance_sample_near,
      findDistance_sample_far]
    norm_num
  have h10 : isNearest Real.sqrt sampleCentroids ⟨6, 8⟩ 0 = false := by
    simp [isNearest, centroidDistances, sampleCentroids, findDistance_sample_other,
      findDistance_sample_self]
  have h11 : isNearest Real.sqrt sampleCentroids ⟨6, 8⟩ 1 = true := by
    simp [isNearest, centroidDistances, sampleCentroids, findDistance_sample_other,
      findDistance_sample_self]
  have hl : sampleCentroids.length = 2 := rfl
  simp [hl, List.range_succ, sampleCloud, List.filter_cons, h00, h01, h10, h11]

/-- The sample clusters with the single point (0, 0): the second cluster
receives no point and comes back with the centroid (0, 0) instead of (6, 8). -/
theorem updateClusters_sample_single :
    updateClusters Real.sqrt 0 2 sampleCentroids [⟨0, 0⟩]
      = .ok [⟨⟨0, 0⟩, [⟨0, 0⟩]⟩, ⟨⟨0, 0⟩, []⟩] := by
  have h := updateClusters_filter (fun _ => True) comparable_exact Real.sqrt sampleCentroids
    (by simp [sampleCentroids]) [⟨0, 0⟩] (fun _ _ _ _ => trivial)
  have hlen : ((sampleCentroids.length : Nat) : Int) = 2 := rfl
  rw [hlen] at h
  rw [h]
  have h00 : isNearest Real.sqrt sampleCentroids ⟨0, 0⟩ 0 = true := by
    simp [isNearest, centroidDistances, sampleCentroids, findDistance_sample_near,
      findDistance_sample_far]
    norm_num
  have h01 : isNearest Real.sqrt sampleCentroids ⟨0, 0⟩ 1 = false := by
    simp [isNearest, centroidDistances, sampleCentroids, findDistance_sample_near,
      findDistance_sample_far]
    norm_num
  have hl : sampleCentroids.length = 2 := rfl
  simp [hl, List.range_succ, List.filter_cons, h00, h01]

/-- With more clusters than `numberOfClusters` and a point to place, the
store `distances[i]` runs out of range. -/
theorem updateClusters_out_of_range (sqrt : ℝ → ℝ) (threshold : ℝ) :
    updateClusters sqrt threshold 1 sampleCentroids sampleCloud
      = .error Panic.indexOutOfRange := by
  unfold updateClusters
  rw [makeSlice_ok (0 : ℝ) 1 (by decide), makeSlice_ok (Cluster.zero : Cluster ℝ) 1 (by decide)]
  simp only [bind_ok_eq, copyCentroids_eq]
  obtain ⟨st1, hst1⟩ := assignStep_total sqrt threshold 1 (⟨0, 0⟩ : Point ℝ) 0
    (⟨⟨3, 4⟩, []⟩ : Cluster ℝ) (List.replicate (1 : Int).toNat 0,
      List.replicate (1 : Int).toNat Cluster.zero) (by simp) (by simp)
  obtain ⟨a1, _, _⟩ := assignStep_inv sqrt threshold 1 _ 0 _ _ st1 ⟨0, 0⟩ hst1
  have hlen : ¬ (0 + 1 < st1.1.length) := by
    rw [a1]; simp
  simp only [sampleCloud, sampleCentroids, pointsLoop, assignLoop, hst1, bind_ok_eq]
  rw [assignStep, setDistance, if_neg hlen]
  rfl

/-- With a negative `numberOfClusters` the first `make` panics. -/
theorem updateClusters_negative (sqrt : ℝ → ℝ) (threshold : ℝ) :
    updateClusters sqrt threshold (-1) sampleCentroids sampleCloud = .error Panic.makeLen :=
  rfl

end Evaluation

end KMeans

/-! ## The arithmetic of `Float64` -/

set_option maxRecDepth 100000
set_option exponentiation.threshold 3000

namespace Float64

section Order

theorem signed_mul (s : Bool) (m c : Nat) : signed s (m * c) = signed s m * (c : Int) := by
  cases s <;> simp [signed]

theorem toRat_align (s : Bool) (m : Nat) (e k : Int) (hk : k ≤ e) :
    toRat (fin s m e) = ((signed s (m * 2 ^ (e - k).toNat) : Int) : ℚ) * (2 : ℚ) ^ k := by
  have h2 : (2 : ℚ) ≠ 0 := by norm_num
  have he : e = (e - k).toNat + k := by
    rw [Int.toNat_of_nonneg (by omega)]; omega
  rw [toRat, signed_mul]
  push_cast
  rw [mul_assoc, ← zpow_natCast (2 : ℚ) (e - k).toNat, ← zpow_add₀ h2, ← he]

theorem lt_fin_iff (s : Bool) (m : Nat) (e : Int) (t : Bool) (n : Nat) (f : Int) :
    lt (fin s m e) (fin t n f) = true ↔ toRat (fin s m e) < toRat (fin t n f) := by
  have hp : (0 : ℚ) < (2 : ℚ) ^ (min e f) := by positivity
  rw [toRat_align s m e (min e f) (min_le_left _ _), toRat_align t n f (min e f) (min_le_right _ _),
    mul_lt_mul_right hp, Int.cast_lt]
  simp [lt]

theorem le_fin_iff (s : Bool) (m : Nat) (e : Int) (t : Bool) (n : Nat) (f : Int) :
    le (fin s m e) (fin t n f) = true ↔ toRat (fin s m e) ≤ toRat (fin t n f) := by
  have hp : (0 : ℚ) < (2 : ℚ) ^ (min e f) := by positivity
  rw [toRat_align s m e (min e f) (min_le_left _ _), toRat_align t n f (min e f) (min_le_right _ _),
    mul_le_mul_right hp, Int.cast_le]
  simp [le]

/-- On the values other than NaN, `<` is the order of the extended line. -/
theorem lt_iff_rank (a b : Float64) (ha : a ≠ nan) (hb : b ≠ nan) :
    a < b ↔ rank a < rank b := by
  show lt a b = true ↔ _
  cases a with
  | nan => exact absurd rfl ha
  | inf s =>
    cases b with
    | nan => exact absurd rfl hb
    | inf t => cases s <;> cases t <;> simp [lt, rank]
    | fin t n f => cases s <;> simp [lt, rank]
  | fin s m e =>
    cases b with
    | nan => exact absurd rfl hb
    | inf t =>
      cases t
      · simp only [lt, rank, Bool.not_false, true_iff]
        exact WithBot.coe_lt_coe.mpr (WithTop.coe_lt_top _)
      · simp [lt, rank]
    | fin t n f =>
      rw [lt_fin_iff]
      simp [rank]

/-- On the values other than NaN, `<=` is the order of the extended line. -/
theorem le_iff_rank (a b : Float64) (ha : a ≠ nan) (hb : b ≠ nan) :
    a ≤ b ↔ rank a ≤ rank b := by
  show le a b = true ↔ _
  cases a with
  | nan => exact absurd rfl ha
  | inf s =>
    cases b with
    | nan => exact absurd rfl hb
    | inf t => cases s <;> cases t <;> simp [le, rank]
    | fin t n f => cases s <;> simp [le, rank]
  | fin s m e =>
    cases b with
    | nan => exact absurd rfl hb
    | inf t => cases t <;> simp [le, rank]
    | fin t n f =>
      rw [le_fin_iff]
      simp [rank]

/-- No comparison with NaN holds. -/
theorem not_le_nan (a : Float64) : ¬ a ≤ nan ∧ ¬ nan ≤ a := by
  constructor
  · show ¬ le a nan = true
    cases a <;> simp [le]
  · show ¬ le nan a = true
    simp [le]

theorem ne_nan_of_le {a b : Float64} (h : a ≤ b) : a ≠ nan ∧ b ≠ nan := by
  constructor
  · rintro rfl
    exact (not_le_nan b).2 h
  · rintro rfl
    exact (not_le_nan a).1 h

end Order

section Rounding

theorem bitsLoop_spec : ∀ (fuel n : Nat), n ≤ fuel → 0 < n →
    0 < bitsLoop fuel n ∧ 2 ^ (bitsLoop fuel n - 1) ≤ n ∧ n < 2 ^ bitsLoop fuel n := by
  intro fuel
  induction fuel with
  | zero => intro n h hn; omega
  | succ fuel ih =>
    intro n h hn
    rw [bitsLoop, if_neg (by omega)]
    by_cases h2 : n / 2 = 0
    · have h1 : n = 1 := by omega
      subst h1
      cases fuel <;> simp [bitsLoop]
    · obtain ⟨hb, hlo, hhi⟩ := ih (n / 2) (by omega) (by omega)
      refine ⟨by omega, ?_, ?_⟩
      · have e : bitsLoop fuel (n / 2) + 1 - 1 = (bitsLoop fuel (n / 2) - 1) + 1 := by omega
        rw [e, pow_succ]
        omega
      · rw [pow_succ]
        omega

theorem bits_spec (n : Nat) (hn : 0 < n) :
    0 < bits n ∧ 2 ^ (bits n - 1) ≤ n ∧ n < 2 ^ bits n :=
  bitsLoop_spec n n (le_refl n) hn

theorem ilog2_spec (num den : Nat) (hn : 0 < num) (hd : 0 < den) :
    (2 : ℚ) ^ (ilog2 num den) ≤ (num : ℚ) / den
      ∧ (num : ℚ) / den < (2 : ℚ) ^ (ilog2 num den + 1) := by
  obtain ⟨hbn, hnlo, hnhi⟩ := bits_spec num hn
  obtain ⟨hbd, hdlo, hdhi⟩ := bits_spec den hd
  have hdq : (0 : ℚ) < den := by exact_mod_cast hd
  have h2 : (2 : ℚ) ≠ 0 := by norm_num
  have hnlo' : (2 : ℚ) ^ ((bits num : Int) - 1) ≤ num := by
    have : ((bits num : Int) - 1) = ((bits num - 1 : Nat) : Int) := by omega
    rw [this, zpow_natCast]
    exact_mod_cast hnlo
  have hnhi' : (num : ℚ) < (2 : ℚ) ^ (bits num : Int) := by
    rw [zpow_natCast]; exact_mod_cast hnhi
  have hdlo' : (2 : ℚ) ^ ((bits den : Int) - 1) ≤ den := by
    have : ((bits den : Int) - 1) = ((bits den - 1 : Nat) : Int) := by omega
    rw [this, zpow_natCast]
    exact_mod_cast hdlo
  have hdhi' : (den : ℚ) < (2 : ℚ) ^ (bits den : Int) := by
    rw [zpow_natCast]; exact_mod_cast hdhi
  -- the quotient lies between 2^(L-1) and 2^(L+1)
  have hlow : (2 : ℚ) ^ ((bits num : Int) - (bits den : Int) - 1) < (num : ℚ) / den := by
    rw [lt_div_iff₀ hdq]
    calc (2 : ℚ) ^ ((bits num : Int) - (bits den : Int) - 1) * den
        < (2 : ℚ) ^ ((bits num : Int) - (bits den : Int) - 1) * (2 : ℚ) ^ (bits den : Int) :=
          mul_lt_mul_of_pos_left hdhi' (by positivity)
      _ = (2 : ℚ) ^ ((bits num : Int) - 1) := by
          rw [← zpow_add₀ h2]; congr 1; omega
      _ ≤ num := hnlo'
  have hhigh : (num : ℚ) / den < (2 : ℚ) ^ ((bits num : Int) - (bits den : Int) + 1) := by
    rw [div_lt_iff₀ hdq]
    calc (num : ℚ) < (2 : ℚ) ^ (bits num : Int) := hnhi'
      _ = (2 : ℚ) ^ ((bits num : Int) - (bits den : Int) + 1)
            * (2 : ℚ) ^ ((bits den : Int) - 1) := by
          rw [← zpow_add₀ h2]; congr 1; omega
      _ ≤ (2 : ℚ) ^ ((bits num : Int) - (bits den : Int) + 1) * den :=
          mul_le_mul_of_nonneg_left hdlo' (by positivity)
  -- the test of `ilog2` is the comparison of the quotient with 2^L
  have htest : ∀ L : Int, L = (bits num : Int) - (bits den : Int) →
      ((if 0 ≤ L then (if den * 2 ^ L.toNat ≤ num then L else L - 1)
        else (if den ≤ num * 2 ^ (-L).toNat then L else L - 1))
        = if (2 : ℚ) ^ L ≤ (num : ℚ) / den then L else L - 1) := by
    intro L _
    by_cases hL : 0 ≤ L
    · rw [if_pos hL]
      have e : (2 : ℚ) ^ L = ((2 ^ L.toNat : Nat) : ℚ) := by
        rw [Nat.cast_pow, ← zpow_natCast, Int.toNat_of_nonneg hL]; norm_num
      have : (den * 2 ^ L.toNat ≤ num) ↔ (2 : ℚ) ^ L ≤ (num : ℚ) / den := by
        rw [le_div_iff₀ hdq, e, mul_comm]
        exact_mod_cast Iff.rfl
      simp only [this]
    · rw [if_neg hL]
      have e : (2 : ℚ) ^ L = (((2 ^ (-L).toNat : Nat) : ℚ))⁻¹ := by
        rw [Nat.cast_pow, ← zpow_natCast, Int.toNat_of_nonneg (by omega), ← zpow_neg]
        norm_num
      have hp : (0 : ℚ) < ((2 ^ (-L).toNat : Nat) : ℚ) := by positivity
      have : (den ≤ num * 2 ^ (-L).toNat) ↔ (2 : ℚ) ^ L ≤ (num : ℚ) / den := by
        rw [le_div_iff₀ hdq, e, inv_mul_le_iff₀ hp, mul_comm]
        exact_mod_cast Iff.rfl
      simp only [this]
  have hval : ilog2 num den
      = if (2 : ℚ) ^ ((bits num : Int) - (bits den : Int)) ≤ (num : ℚ) / den
        then (bits num : Int) - (bits den : Int) else (bits num : Int) - (bits den : Int) - 1 := by
    unfold ilog2
    exact htest _ rfl
  rw [hval]
  by_cases hq : (2 : ℚ) ^ ((bits num : Int) - (bits den : Int)) ≤ (num : ℚ) / den
  · rw [if_pos hq]
    exact ⟨hq, hhigh⟩
  · rw [if_neg hq]
    refine ⟨le_of_lt hlow, ?_⟩
    have : (bits num : Int) - (bits den : Int) - 1 + 1 = (bits num : Int) - (bits den : Int) := by
      omega
    rw [this]
    exact not_le.mp hq

theorem nearestEven_ge (a b : Nat) : a / b ≤ nearestEven a b := by
  unfold nearestEven
  split_ifs <;> omega

theorem nearestEven_le (a b : Nat) : nearestEven a b ≤ a / b + 1 := by
  unfold nearestEven
  split_ifs <;> omega

/-- Rounding to the nearest integer, ties to even, is monotone in the fraction. -/
theorem nearestEven_mono (a b a' b' : Nat) (hb : 0 < b) (hb' : 0 < b')
    (h : a * b' ≤ a' * b) : nearestEven a b ≤ nearestEven a' b' := by
  have ha := Nat.div_add_mod a b
  have ha' := Nat.div_add_mod a' b'
  have hr := Nat.mod_lt a hb
  have hr' := Nat.mod_lt a' hb'
  have hff : a / b ≤ a' / b' := by
    by_contra hcon
    have hcon : a' / b' + 1 ≤ a / b := by omega
    have h1 : (a' / b' + 1) * b ≤ a := by
      calc (a' / b' + 1) * b ≤ (a / b) * b := Nat.mul_le_mul_right _ hcon
        _ ≤ a := by rw [mul_comm]; omega
    have h2 : a' < (a' / b' + 1) * b' := by
      rw [add_mul, one_mul, mul_comm]; omega
    have h3 : a' * b < (a' / b' + 1) * b' * b := Nat.mul_lt_mul_of_pos_right h2 hb
    have h4 : (a' / b' + 1) * b * b' ≤ a * b' := Nat.mul_le_mul_right _ h1
    have h5 : (a' / b' + 1) * b' * b = (a' / b' + 1) * b * b' := by ring
    omega
  rcases Nat.lt_or_ge (a / b) (a' / b') with hlt | hge
  · calc nearestEven a b ≤ a / b + 1 := nearestEven_le a b
      _ ≤ a' / b' := hlt
      _ ≤ nearestEven a' b' := nearestEven_ge a' b'
  · have heq : a / b = a' / b' := le_antisymm hff hge
    -- the remainders are ordered as the fractions
    have hrem : (a % b) * b' ≤ (a' % b') * b := by
      have e1 : a * b' = b * (a / b) * b' + (a % b) * b' := by rw [← add_mul, ha]
      have e2 : a' * b = b' * (a' / b') * b + (a' % b') * b := by rw [← add_mul, ha']
      have e3 : b * (a / b) * b' = b' * (a' / b') * b := by rw [heq]; ring
      omega
    unfold nearestEven
    rw [← heq]
    by_cases hup : b < 2 * (a % b) ∨ (2 * (a % b) = b ∧ (a / b) % 2 = 1)
    · rw [if_pos hup]
      have hup' : b' < 2 * (a' % b') ∨ (2 * (a' % b') = b' ∧ (a / b) % 2 = 1) := by
        rcases hup with h1 | ⟨h1, h2⟩
        · left
          have : b * b' < 2 * (a % b) * b' := Nat.mul_lt_mul_of_pos_right h1 hb'
          have : b * b' < 2 * (a' % b') * b := by
            have e : 2 * (a % b) * b' = 2 * ((a % b) * b') := by ring
            have e' : 2 * (a' % b') * b = 2 * ((a' % b') * b) := by ring
            omega
          have e : b * b' = b' * b := mul_comm _ _
          rw [e] at this
          exact Nat.lt_of_mul_lt_mul_right this
        · have : b * b' ≤ 2 * (a' % b') * b := by
            have e : b * b' = 2 * ((a % b) * b') := by
              have e0 : 2 * ((a % b) * b') = (2 * (a % b)) * b' := by ring
              rw [e0, h1]
            have e' : 2 * (a' % b') * b = 2 * ((a' % b') * b) := by ring
            omega
          have e : b * b' = b' * b := mul_comm _ _
          rw [e] at this
          have hle : b' ≤ 2 * (a' % b') := Nat.le_of_mul_le_mul_right this hb
          rcases Nat.lt_or_ge b' (2 * (a' % b')) with h3 | h3
          · exact Or.inl h3
          · exact Or.inr ⟨le_antisymm h3 hle, h2⟩
      rw [if_pos hup']
    · rw [if_neg hup]
      split_ifs <;> omega

theorem nearestEven_exact (c b : Nat) (hb : 0 < b) : nearestEven (c * b) b = c := by
  unfold nearestEven
  rw [Nat.mul_mod_left, Nat.mul_div_cancel _ hb]
  simp
  omega

theorem nearestEven_mono_rat (a b a' b' : Nat) (hb : 0 < b) (hb' : 0 < b')
    (h : (a : ℚ) / b ≤ (a' : ℚ) / b') : nearestEven a b ≤ nearestEven a' b' := by
  apply nearestEven_mono a b a' b' hb hb'
  have hbq : (0 : ℚ) < b := by exact_mod_cast hb
  have hbq' : (0 : ℚ) < b' := by exact_mod_cast hb'
  rw [div_le_div_iff₀ hbq hbq'] at h
  exact_mod_cast h

/-- The mantissa is the rounding of a fraction equal to the quotient scaled
by the exponent. -/
theorem mantissa_eq (num den : Nat) (ex : Int) (hd : 0 < den) :
    ∃ A B : Nat, 0 < B ∧ mantissa num den ex = nearestEven A B
      ∧ (A : ℚ) / B = (num : ℚ) / den * (2 : ℚ) ^ (-ex) := by
  have hdq : (den : ℚ) ≠ 0 := by exact_mod_cast (Nat.pos_iff_ne_zero.mp hd)
  unfold mantissa
  by_cases hex : 0 ≤ ex
  · refine ⟨num, den * 2 ^ ex.toNat, by positivity, by rw [if_pos hex], ?_⟩
    have e : (2 : ℚ) ^ (-ex) = (((2 : ℚ) ^ ex.toNat))⁻¹ := by
      rw [zpow_neg, ← zpow_natCast, Int.toNat_of_nonneg hex]
    rw [e]
    push_cast
    field_simp
  · refine ⟨num * 2 ^ (-ex).toNat, den, hd, by rw [if_neg hex], ?_⟩
    have e : (2 : ℚ) ^ (-ex) = (2 : ℚ) ^ (-ex).toNat := by
      rw [← zpow_natCast, Int.toNat_of_nonneg (by omega)]
    rw [e]
    push_cast
    field_simp

theorem mantissa_mono (num den num' den' : Nat) (ex : Int) (hd : 0 < den) (hd' : 0 < den')
    (h : (num : ℚ) / den ≤ (num' : ℚ) / den') :
    mantissa num den ex ≤ mantissa num' den' ex := by
  obtain ⟨A, B, hB, hm, hq⟩ := mantissa_eq num den ex hd
  obtain ⟨A', B', hB', hm', hq'⟩ := mantissa_eq num' den' ex hd'
  rw [hm, hm']
  apply nearestEven_mono_rat A B A' B' hB hB'
  rw [hq, hq']
  exact mul_le_mul_of_nonneg_right h (by positivity)

theorem mantissa_le_of (num den : Nat) (ex : Int) (c : Nat) (hd : 0 < den)
    (h : (num : ℚ) / den ≤ (c : ℚ) * (2 : ℚ) ^ ex) : mantissa num den ex ≤ c := by
  obtain ⟨A, B, hB, hm, hq⟩ := mantissa_eq num den ex hd
  rw [hm]
  have h1 : nearestEven A B ≤ nearestEven (c * 1) 1 := by
    apply nearestEven_mono_rat A B (c * 1) 1 hB Nat.one_pos
    rw [hq]
    have h2 : (2 : ℚ) ≠ 0 := by norm_num
    calc (num : ℚ) / den * (2 : ℚ) ^ (-ex) ≤ (c : ℚ) * (2 : ℚ) ^ ex * (2 : ℚ) ^ (-ex) :=
          mul_le_mul_of_nonneg_right h (by positivity)
      _ = ((c * 1 : Nat) : ℚ) / ((1 : Nat) : ℚ) := by
          rw [mul_assoc, ← zpow_add₀ h2]; simp
  rwa [nearestEven_exact c 1 Nat.one_pos] at h1

theorem le_mantissa_of (num den : Nat) (ex : Int) (c : Nat) (hd : 0 < den)
    (h : (c : ℚ) * (2 : ℚ) ^ ex ≤ (num : ℚ) / den) : c ≤ mantissa num den ex := by
  obtain ⟨A, B, hB, hm, hq⟩ := mantissa_eq num den ex hd
  rw [hm]
  have h1 : nearestEven (c * 1) 1 ≤ nearestEven A B := by
    apply nearestEven_mono_rat (c * 1) 1 A B Nat.one_pos hB
    rw [hq]
    have h2 : (2 : ℚ) ≠ 0 := by norm_num
    calc ((c * 1 : Nat) : ℚ) / ((1 : Nat) : ℚ) = (c : ℚ) * (2 : ℚ) ^ ex * (2 : ℚ) ^ (-ex) := by
          rw [mul_assoc, ← zpow_add₀ h2]; simp
      _ ≤ (num : ℚ) / den * (2 : ℚ) ^ (-ex) := mul_le_mul_of_nonneg_right h (by positivity)
  rwa [nearestEven_exact c 1 Nat.one_pos] at h1

theorem exponent_ge (num den : Nat) : -1074 ≤ exponent num den :=
  le_max_right _ _

theorem exponent_upper (num den : Nat) (hn : 0 < num) (hd : 0 < den) :
    (num : ℚ) / den < (2 : ℚ) ^ (exponent num den + 53) := by
  have h := (ilog2_spec num den hn hd).2
  refine lt_of_lt_of_le h (zpow_le_zpow_right₀ (by norm_num) ?_)
  have : ilog2 num den - 52 ≤ exponent num den := le_max_left _ _
  omega

theorem exponent_lower (num den : Nat) (hn : 0 < num) (hd : 0 < den)
    (hex : exponent num den ≠ -1074) :
    (2 : ℚ) ^ (exponent num den + 52) ≤ (num : ℚ) / den := by
  have h := (ilog2_spec num den hn hd).1
  have : exponent num den = ilog2 num den - 52 := by
    unfold exponent at hex ⊢
    rcases max_cases (ilog2 num den - 52) (-1074) with ⟨h1, _⟩ | ⟨h1, _⟩
    · exact h1
    · exact absurd h1 hex
  rw [this]
  have e : ilog2 num den - 52 + 52 = ilog2 num den := by omega
  rw [e]
  exact h

theorem exponent_mono (num den num' den' : Nat) (hn : 0 < num) (hd : 0 < den)
    (hn' : 0 < num') (hd' : 0 < den') (h : (num : ℚ) / den ≤ (num' : ℚ) / den') :
    exponent num den ≤ exponent num' den' := by
  have h1 := (ilog2_spec num den hn hd).1
  have h2 := (ilog2_spec num' den' hn' hd').2
  have h3 : (2 : ℚ) ^ (ilog2 num den) < (2 : ℚ) ^ (ilog2 num' den' + 1) :=
    lt_of_le_of_lt (le_trans h1 h) h2
  have h4 : ilog2 num den < ilog2 num' den' + 1 :=
    (zpow_lt_zpow_iff_right₀ (by norm_num : (1 : ℚ) < 2)).mp h3
  unfold exponent
  exact max_le_max (by omega) (le_refl _)

theorem mantissa_le_pow (num den : Nat) (hn : 0 < num) (hd : 0 < den) :
    mantissa num den (exponent num den) ≤ 2 ^ 53 := by
  apply mantissa_le_of num den _ _ hd
  have h2 : (2 : ℚ) ≠ 0 := by norm_num
  have e : ((2 ^ 53 : Nat) : ℚ) * (2 : ℚ) ^ (exponent num den)
      = (2 : ℚ) ^ (exponent num den + 53) := by
    rw [zpow_add₀ h2, mul_comm]; norm_num
  rw [e]
  exact le_of_lt (exponent_upper num den hn hd)

theorem pow_le_mantissa (num den : Nat) (hn : 0 < num) (hd : 0 < den)
    (hex : exponent num den ≠ -1074) :
    2 ^ 52 ≤ mantissa num den (exponent num den) := by
  apply le_mantissa_of num den _ _ hd
  have h2 : (2 : ℚ) ≠ 0 := by norm_num
  have e : ((2 ^ 52 : Nat) : ℚ) * (2 : ℚ) ^ (exponent num den)
      = (2 : ℚ) ^ (exponent num den + 52) := by
    rw [zpow_add₀ h2, mul_comm]; norm_num
  rw [e]
  exact exponent_lower num den hn hd hex

/-- The rounded value is monotone in the fraction. -/
theorem nearest_mono (num den num' den' : Nat) (hn : 0 < num) (hd : 0 < den)
    (hn' : 0 < num') (hd' : 0 < den') (h : (num : ℚ) / den ≤ (num' : ℚ) / den') :
    (mantissa num den (exponent num den) : ℚ) * (2 : ℚ) ^ (exponent num den)
      ≤ (mantissa num' den' (exponent num' den') : ℚ) * (2 : ℚ) ^ (exponent num' den') := by
  have h2 : (2 : ℚ) ≠ 0 := by norm_num
  rcases lt_or_eq_of_le (exponent_mono num den num' den' hn hd hn' hd' h) with hlt | heq
  · -- a larger exponent: the mantissa of the first is at most 2^53, that of the second at least 2^52
    have hm : (mantissa num den (exponent num den) : ℚ) ≤ ((2 ^ 53 : Nat) : ℚ) := by
      exact_mod_cast mantissa_le_pow num den hn hd
    have hex' : exponent num' den' ≠ -1074 := by
      have := exponent_ge num den
      omega
    have hm' : ((2 ^ 52 : Nat) : ℚ) ≤ (mantissa num' den' (exponent num' den') : ℚ) := by
      exact_mod_cast pow_le_mantissa num' den' hn' hd' hex'
    calc (mantissa num den (exponent num den) : ℚ) * (2 : ℚ) ^ (exponent num den)
        ≤ ((2 ^ 53 : Nat) : ℚ) * (2 : ℚ) ^ (exponent num den) :=
          mul_le_mul_of_nonneg_right hm (by positivity)
      _ = (2 : ℚ) ^ (exponent num den + 53) := by
          rw [zpow_add₀ h2, mul_comm]; norm_num
      _ ≤ (2 : ℚ) ^ (exponent num' den' + 52) :=
          zpow_le_zpow_right₀ (by norm_num) (by omega)
      _ = ((2 ^ 52 : Nat) : ℚ) * (2 : ℚ) ^ (exponent num' den') := by
          rw [zpow_add₀ h2, mul_comm]; norm_num
      _ ≤ (mantissa num' den' (exponent num' den') : ℚ) * (2 : ℚ) ^ (exponent num' den') :=
          mul_le_mul_of_nonneg_right hm' (by positivity)
  · rw [← heq]
    apply mul_le_mul_of_nonneg_right _ (by positivity)
    exact_mod_cast mantissa_mono num den num' den' _ hd hd' h

/-- The place of a packed value: its value, or the top on overflow. -/
theorem rank_pack (m : Nat) (ex : Int) (hm : m ≤ 2 ^ 53) (hlow : ex = -1074 ∨ 2 ^ 52 ≤ m) :
    rank (pack false m ex)
      = if (2 : ℚ) ^ (1024 : Int) ≤ (m : ℚ) * (2 : ℚ) ^ ex
        then ((⊤ : WithTop ℚ) : WithBot (WithTop ℚ))
        else (((m : ℚ) * (2 : ℚ) ^ ex : ℚ) : WithTop ℚ) := by
  have h2 : (2 : ℚ) ≠ 0 := by norm_num
  have h1 : (1 : ℚ) < 2 := by norm_num
  unfold pack
  by_cases h53 : m = 2 ^ 53
  · rw [if_pos h53]
    have e : (m : ℚ) * (2 : ℚ) ^ ex = (2 : ℚ) ^ (ex + 53) := by
      rw [h53, zpow_add₀ h2, mul_comm]; norm_num
    rw [e]
    by_cases hov : 971 < ex + 1
    · rw [if_pos hov, if_pos ((zpow_le_zpow_iff_right₀ h1).mpr (by omega))]
      rfl
    · rw [if_neg hov, if_neg (fun h => hov (by
        have := (zpow_le_zpow_iff_right₀ h1).mp h
        omega))]
      have hto : toRat (fin false (2 ^ 52) (ex + 1)) = (2 : ℚ) ^ (ex + 53) := by
        have e1 : ex + 53 = (ex + 1) + 52 := by omega
        simp only [toRat, signed, Bool.false_eq_true, if_false]
        rw [e1, zpow_add₀ h2 (ex + 1), mul_comm]
        norm_num
      show (((toRat (fin false (2 ^ 52) (ex + 1)) : ℚ) : WithTop ℚ) : WithBot (WithTop ℚ)) = _
      rw [hto]
  · rw [if_neg h53]
    have hlt : m < 2 ^ 53 := lt_of_le_of_ne hm h53
    by_cases hov : 971 < ex
    · rw [if_pos hov]
      have hm52 : 2 ^ 52 ≤ m := by
        rcases hlow with h | h
        · omega
        · exact h
      have : (2 : ℚ) ^ (1024 : Int) ≤ (m : ℚ) * (2 : ℚ) ^ ex := by
        calc (2 : ℚ) ^ (1024 : Int) ≤ (2 : ℚ) ^ (ex + 52) :=
              zpow_le_zpow_right₀ (by norm_num) (by omega)
          _ = ((2 ^ 52 : Nat) : ℚ) * (2 : ℚ) ^ ex := by
              rw [zpow_add₀ h2, mul_comm]; norm_num
          _ ≤ (m : ℚ) * (2 : ℚ) ^ ex :=
              mul_le_mul_of_nonneg_right (by exact_mod_cast hm52) (by positivity)
      rw [if_pos this]
      rfl
    · rw [if_neg hov]
      have : ¬ (2 : ℚ) ^ (1024 : Int) ≤ (m : ℚ) * (2 : ℚ) ^ ex := by
        rw [not_le]
        calc (m : ℚ) * (2 : ℚ) ^ ex < ((2 ^ 53 : Nat) : ℚ) * (2 : ℚ) ^ ex :=
              mul_lt_mul_of_pos_right (by exact_mod_cast hlt) (by positivity)
          _ = (2 : ℚ) ^ (ex + 53) := by
              rw [zpow_add₀ h2, mul_comm]; norm_num
          _ ≤ (2 : ℚ) ^ (1024 : Int) := zpow_le_zpow_right₀ (by norm_num) (by omega)
      rw [if_neg this]
      simp [rank, toRat, signed]

theorem rank_round (num den : Nat) (hn : 0 < num) (hd : 0 < den) :
    rank (round false num den)
      = if (2 : ℚ) ^ (1024 : Int)
            ≤ (mantissa num den (exponent num den) : ℚ) * (2 : ℚ) ^ (exponent num den)
        then ((⊤ : WithTop ℚ) : WithBot (WithTop ℚ))
        else (((mantissa num den (exponent num den) : ℚ) * (2 : ℚ) ^ (exponent num den) : ℚ)
          : WithTop ℚ) := by
  unfold round
  rw [if_neg (by omega)]
  apply rank_pack _ _ (mantissa_le_pow num den hn hd)
  by_cases hex : exponent num den = -1074
  · exact Or.inl hex
  · exact Or.inr (pow_le_mantissa num den hn hd hex)

theorem rank_round_zero (neg : Bool) (den : Nat) :
    rank (round neg 0 den) = (((0 : ℚ) : WithTop ℚ) : WithBot (WithTop ℚ)) := by
  unfold round
  rw [if_pos rfl]
  cases neg <;> simp [rank, toRat, signed]

theorem round_ne_nan (neg : Bool) (num den : Nat) : round neg num den ≠ nan := by
  unfold round pack
  split_ifs <;> simp

/-- Rounding is monotone: a larger fraction has no smaller rounded value. -/
theorem rank_round_mono (num den num' den' : Nat) (hd : 0 < den) (hd' : 0 < den')
    (h : (num : ℚ) / den ≤ (num' : ℚ) / den') :
    rank (round false num den) ≤ rank (round false num' den') := by
  have hdq : (0 : ℚ) < den := by exact_mod_cast hd
  have hdq' : (0 : ℚ) < den' := by exact_mod_cast hd'
  rcases Nat.eq_zero_or_pos num with h0 | hn
  · subst h0
    rw [rank_round_zero]
    rcases Nat.eq_zero_or_pos num' with h0' | hn'
    · subst h0'
      rw [rank_round_zero]
    · rw [rank_round num' den' hn' hd']
      split_ifs
      · exact le_top
      · exact WithBot.coe_le_coe.mpr (WithTop.coe_le_coe.mpr (by positivity))
  · have hn' : 0 < num' := by
      rcases Nat.eq_zero_or_pos num' with h0' | hn'
      · subst h0'
        have : (0 : ℚ) < (num : ℚ) / den := by positivity
        simp at h
        linarith
      · exact hn'
    rw [rank_round num den hn hd, rank_round num' den' hn' hd']
    have hv := nearest_mono num den num' den' hn hd hn' hd' h
    by_cases ht' : (2 : ℚ) ^ (1024 : Int)
        ≤ (mantissa num' den' (exponent num' den') : ℚ) * (2 : ℚ) ^ (exponent num' den')
    · rw [if_pos ht']
      exact le_top
    · rw [if_neg ht', if_neg (fun ht => ht' (le_trans ht hv))]
      exact WithBot.coe_le_coe.mpr (WithTop.coe_le_coe.mpr hv)

end Rounding

section Operations

theorem ofDyadic_eq (neg : Bool) (m : Nat) (e : Int) :
    ∃ A B : Nat, 0 < B ∧ ofDyadic neg m e = round neg A B
      ∧ (A : ℚ) / B = (m : ℚ) * (2 : ℚ) ^ e := by
  unfold ofDyadic
  by_cases he : 0 ≤ e
  · refine ⟨m * 2 ^ e.toNat, 1, Nat.one_pos, by rw [if_pos he], ?_⟩
    have : (2 : ℚ) ^ e = (2 : ℚ) ^ e.toNat := by
      rw [← zpow_natCast, Int.toNat_of_nonneg he]
    rw [this]
    push_cast
    simp
  · refine ⟨m, 2 ^ (-e).toNat, by positivity, by rw [if_neg he], ?_⟩
    have : (2 : ℚ) ^ e = ((2 : ℚ) ^ (-e).toNat)⁻¹ := by
      rw [← zpow_natCast, Int.toNat_of_nonneg (by omega), zpow_neg, inv_inv]
    rw [this]
    push_cast
    rfl

theorem rank_zero : rank (0 : Float64) = (((0 : ℚ) : WithTop ℚ) : WithBot (WithTop ℚ)) := by
  show rank (fin false 0 (-1074)) = _
  simp [rank, toRat, signed]

theorem rank_one : rank (1 : Float64) = (((1 : ℚ) : WithTop ℚ) : WithBot (WithTop ℚ)) := by
  show rank (fin false (2 ^ 52) (-52)) = _
  have : toRat (fin false (2 ^ 52) (-52)) = 1 := by
    simp only [toRat, signed, Bool.false_eq_true, if_false]
    norm_num
  show (((toRat (fin false (2 ^ 52) (-52)) : ℚ) : WithTop ℚ) : WithBot (WithTop ℚ)) = _
  rw [this]

theorem round_one : round false 1 1 = 1 := by decide

theorem round_zero : round false 0 1 = 0 := by decide

/-- A value from 0 to 1 is finite, and its sign is set only on a zero. -/
theorem unit_cases (x : Float64) (h0 : 0 ≤ x) (h1 : x ≤ 1) :
    ∃ (s : Bool) (m : Nat) (e : Int), x = fin s m e ∧ (s = true → m = 0)
      ∧ 0 ≤ toRat (fin s m e) ∧ toRat (fin s m e) ≤ 1 := by
  have hx := (ne_nan_of_le h0).2
  have r0 := (le_iff_rank 0 x (ne_nan_of_le h0).1 hx).mp h0
  have r1 := (le_iff_rank x 1 hx (ne_nan_of_le h1).2).mp h1
  rw [rank_zero] at r0
  rw [rank_one] at r1
  cases x with
  | nan => exact absurd rfl hx
  | inf s =>
    cases s
    · exact absurd h1 (by decide)
    · exact absurd h0 (by decide)
  | fin s m e =>
    have v0 : 0 ≤ toRat (fin s m e) := by
      have := WithBot.coe_le_coe.mp r0
      exact WithTop.coe_le_coe.mp this
    have v1 : toRat (fin s m e) ≤ 1 := by
      have := WithBot.coe_le_coe.mp r1
      exact WithTop.coe_le_coe.mp this
    refine ⟨s, m, e, rfl, ?_, v0, v1⟩
    intro hs
    subst hs
    by_contra hm
    have hpos : (0 : ℚ) < (m : ℚ) := by
      exact_mod_cast Nat.pos_of_ne_zero hm
    have : toRat (fin true m e) < 0 := by
      simp only [toRat, signed, if_true]
      push_cast
      have : (0 : ℚ) < (2 : ℚ) ^ e := by positivity
      nlinarith
    linarith

/-- The product of two finite values whose sign is set only on a zero: the
rounding of the product of the two values. -/
theorem mul_fin (s : Bool) (m : Nat) (e : Int) (u : Bool) (p : Nat) (g : Int)
    (hs : s = true → m = 0) (hu : u = true → p = 0) :
    ∃ A B : Nat, 0 < B ∧ (A : ℚ) / B = toRat (fin s m e) * toRat (fin u p g)
      ∧ rank (fin s m e * fin u p g) = rank (round false A B)
      ∧ fin s m e * fin u p g ≠ nan := by
  show ∃ A B : Nat, 0 < B ∧ (A : ℚ) / B = toRat (fin s m e) * toRat (fin u p g)
      ∧ rank (mul (fin s m e) (fin u p g)) = rank (round false A B)
      ∧ mul (fin s m e) (fin u p g) ≠ nan
  obtain ⟨A, B, hB, hround, hq⟩ := ofDyadic_eq (xor s u) (m * p) (e + g)
  have h2 : (2 : ℚ) ≠ 0 := by norm_num
  simp only [mul]
  rw [hround]
  refine ⟨A, B, hB, ?_, ?_, round_ne_nan _ _ _⟩
  · rw [hq]
    cases s
    · cases u
      · simp only [toRat, signed, Bool.false_eq_true, if_false]
        push_cast
        rw [zpow_add₀ h2]
        ring
      · simp [hu rfl, toRat, signed]
    · simp [hs rfl, toRat, signed]
  · cases hx : xor s u
    · rfl
    · have hmp : m * p = 0 := by
        cases s
        · cases u
          · simp at hx
          · simp [hu rfl]
        · simp [hs rfl]
      have hA : A = 0 := by
        rw [hmp] at hq
        have hBq : (B : ℚ) ≠ 0 := by exact_mod_cast (Nat.pos_iff_ne_zero.mp hB)
        simp at hq
        rcases hq with h | h
        · exact h
        · exact absurd h (Nat.pos_iff_ne_zero.mp hB)
      rw [hA, rank_round_zero, rank_round_zero]

/-- The product of two values from 0 to 1 is a value from 0 to 1. -/
theorem mul_unit (a b : Float64) (ha : 0 ≤ a ∧ a ≤ 1) (hb : 0 ≤ b ∧ b ≤ 1) :
    0 ≤ a * b ∧ a * b ≤ 1 := by
  obtain ⟨s, m, e, rfl, hs, a0, a1⟩ := unit_cases a ha.1 ha.2
  obtain ⟨u, p, g, rfl, hu, b0, b1⟩ := unit_cases b hb.1 hb.2
  obtain ⟨A, B, hB, hq, hr, hne⟩ := mul_fin s m e u p g hs hu
  have hBq : (0 : ℚ) < B := by exact_mod_cast hB
  constructor
  · rw [le_iff_rank _ _ (by decide) hne, hr, ← round_zero]
    apply rank_round_mono 0 1 A B Nat.one_pos hB
    rw [hq]
    simp only [Nat.cast_zero, zero_div]
    exact mul_nonneg a0 b0
  · rw [le_iff_rank _ _ hne (by decide), hr, ← round_one]
    apply rank_round_mono A B 1 1 hB Nat.one_pos
    rw [hq]
    simp only [Nat.cast_one, div_one]
    calc toRat (fin s m e) * toRat (fin u p g) ≤ 1 * 1 :=
          mul_le_mul a1 b1 b0 (by norm_num)
      _ = 1 := by norm_num

/-- Multiplying by a value from 0 to 1 keeps the order of two such values. -/
theorem mul_le_mul_unit (a b c : Float64) (ha : 0 ≤ a ∧ a ≤ 1) (hb : 0 ≤ b ∧ b ≤ 1)
    (hc : 0 ≤ c ∧ c ≤ 1) (hab : a ≤ b) : a * c ≤ b * c := by
  obtain ⟨s, m, e, rfl, hs, a0, a1⟩ := unit_cases a ha.1 ha.2
  obtain ⟨t, n, f, rfl, ht, b0, b1⟩ := unit_cases b hb.1 hb.2
  obtain ⟨u, p, g, rfl, hu, c0, c1⟩ := unit_cases c hc.1 hc.2
  obtain ⟨A, B, hB, hq, hr, hne⟩ := mul_fin s m e u p g hs hu
  obtain ⟨A', B', hB', hq', hr', hne'⟩ := mul_fin t n f u p g ht hu
  have hv : toRat (fin s m e) ≤ toRat (fin t n f) := (le_fin_iff s m e t n f).mp hab
  rw [le_iff_rank _ _ hne hne', hr, hr']
  apply rank_round_mono A B A' B' hB hB'
  rw [hq, hq']
  exact mul_le_mul_of_nonneg_right hv c0

/-- Adding a value that is not negative to 1 gives at least 1. -/
theorem one_le_one_add (y : Float64) (hy : 0 ≤ y) : 1 ≤ 1 + y := by
  show le (fin false (2 ^ 52) (-52)) (add (fin false (2 ^ 52) (-52)) y) = true
  cases y with
  | nan => exact absurd hy (by decide)
  | inf t =>
    cases t
    · rfl
    · exact absurd hy (by decide)
  | fin t n f =>
    have hy0 : 0 ≤ toRat (fin t n f) := by
      have := (le_fin_iff false 0 (-1074) t n f).mp hy
      simpa [toRat, signed] using this
    have hp : (0 : ℚ) < (2 : ℚ) ^ (min (-52) f) := by positivity
    have hone : toRat (fin false (2 ^ 52) (-52)) = 1 := by
      simp only [toRat, signed, Bool.false_eq_true, if_false]
      norm_num
    have hsum : (((signed false (2 ^ 52 * 2 ^ (-52 - min (-52) f).toNat)
        + signed t (n * 2 ^ (f - min (-52) f).toNat) : Int) : ℚ)) * (2 : ℚ) ^ (min (-52) f)
        = 1 + toRat (fin t n f) := by
      rw [Int.cast_add, add_mul, ← toRat_align false (2 ^ 52) (-52) _ (min_le_left _ _),
        ← toRat_align t n f _ (min_le_right _ _), hone]
    have hpos : 0 < signed false (2 ^ 52 * 2 ^ (-52 - min (-52) f).toNat)
        + signed t (n * 2 ^ (f - min (-52) f).toNat) := by
      have : (0 : ℚ) < (((signed false (2 ^ 52 * 2 ^ (-52 - min (-52) f).toNat)
          + signed t (n * 2 ^ (f - min (-52) f).toNat) : Int) : ℚ)) := by
        by_contra hcon
        have hcon := not_lt.mp hcon
        have := mul_nonpos_of_nonpos_of_nonneg hcon (le_of_lt hp)
        rw [hsum] at this
        linarith
      exact_mod_cast this
    simp only [add]
    rw [if_neg (by omega), decide_eq_false (by omega)]
    obtain ⟨A, B, hB, hround, hq⟩ := ofDyadic_eq false
      (signed false (2 ^ 52 * 2 ^ (-52 - min (-52) f).toNat)
        + signed t (n * 2 ^ (f - min (-52) f).toNat)).natAbs (min (-52) f)
    rw [hround]
    have hge : (1 : ℚ) ≤ (A : ℚ) / B := by
      rw [hq, Nat.cast_natAbs, abs_of_pos hpos, hsum]
      linarith
    have hr := rank_round_mono 1 1 A B Nat.one_pos hB (by simpa using hge)
    rw [round_one] at hr
    exact (le_iff_rank 1 (round false A B) (by decide) (round_ne_nan _ _ _)).mpr hr

/-- The quotient of 1 by a value that is at least 1 is a value from 0 to 1. -/
theorem one_div_unit (w : Float64) (hw : 1 ≤ w) : 0 ≤ 1 / w ∧ 1 / w ≤ 1 := by
  show le (fin false 0 (-1074)) (div (fin false (2 ^ 52) (-52)) w) = true
    ∧ le (div (fin false (2 ^ 52) (-52)) w) (fin false (2 ^ 52) (-52)) = true
  cases w with
  | nan => exact absurd hw (by decide)
  | inf t =>
    cases t
    · exact ⟨by decide, by decide⟩
    · exact absurd hw (by decide)
  | fin t n f =>
    have hone : toRat (fin false (2 ^ 52) (-52)) = 1 := by
      simp only [toRat, signed, Bool.false_eq_true, if_false]
      norm_num
    have hw1 : 1 ≤ toRat (fin t n f) := by
      have := (le_fin_iff false (2 ^ 52) (-52) t n f).mp hw
      rwa [hone] at this
    have hp : (0 : ℚ) < (2 : ℚ) ^ f := by positivity
    have ht : t = false := by
      cases t
      · rfl
      · exfalso
        have : toRat (fin true n f) ≤ 0 := by
          simp only [toRat, signed, if_true]
          push_cast
          have : (0 : ℚ) ≤ (n : ℚ) := Nat.cast_nonneg n
          nlinarith
        linarith
    subst ht
    have hval : toRat (fin false n f) = (n : ℚ) * (2 : ℚ) ^ f := by
      simp [toRat, signed]
    have hn : n ≠ 0 := by
      rintro rfl
      rw [hval] at hw1
      simp at hw1
      linarith
    have hnq : (0 : ℚ) < (n : ℚ) := by exact_mod_cast Nat.pos_of_ne_zero hn
    have h2 : (2 : ℚ) ≠ 0 := by norm_num
    -- the fraction that is rounded is 1 / w
    have hfrac : ∃ A B : Nat, 0 < B ∧ div (fin false (2 ^ 52) (-52)) (fin false n f)
        = round false A B ∧ (A : ℚ) / B = 1 / ((n : ℚ) * (2 : ℚ) ^ f) := by
      simp only [div]
      rw [if_neg hn]
      by_cases hef : (0 : Int) ≤ -52 - f
      · refine ⟨2 ^ 52 * 2 ^ (-52 - f).toNat, n, Nat.pos_of_ne_zero hn, by rw [if_pos hef]; rfl,
          ?_⟩
        have e : (2 : ℚ) ^ f = ((2 : ℚ) ^ 52 * (2 : ℚ) ^ (-52 - f).toNat)⁻¹ := by
          rw [← zpow_natCast (2 : ℚ) (-52 - f).toNat, Int.toNat_of_nonneg hef,
            ← zpow_natCast (2 : ℚ) 52, ← zpow_add₀ h2, ← zpow_neg]
          congr 1
          simp
        rw [e]
        push_cast
        field_simp
        norm_num
      · refine ⟨2 ^ 52, n * 2 ^ (f - -52).toNat, by positivity, by rw [if_neg hef]; rfl, ?_⟩
        have e : (2 : ℚ) ^ f = (2 : ℚ) ^ (f - -52).toNat / (2 : ℚ) ^ 52 := by
          rw [← zpow_natCast (2 : ℚ) (f - -52).toNat, Int.toNat_of_nonneg (by omega),
            ← zpow_natCast (2 : ℚ) 52, ← zpow_sub₀ h2]
          congr 1
          simp
        rw [e]
        push_cast
        field_simp
        norm_num
    obtain ⟨A, B, hB, hround, hq⟩ := hfrac
    rw [hround]
    rw [← hval] at hq
    have hpos : 0 < toRat (fin false n f) := by linarith
    constructor
    · have hr := rank_round_mono 0 1 A B Nat.one_pos hB (by
        rw [hq]; simp only [Nat.cast_zero, zero_div]; positivity)
      rw [round_zero] at hr
      exact (le_iff_rank 0 (round false A B) (by decide) (round_ne_nan _ _ _)).mpr hr
    · have hr := rank_round_mono A B 1 1 hB Nat.one_pos (by
        rw [hq]; simp only [Nat.cast_one, div_one]
        rw [div_le_one hpos]; exact hw1)
      rw [round_one] at hr
      exact (le_iff_rank (round false A B) 1 (round_ne_nan _ _ _) (by decide)).mpr hr

end Operations

end Float64

namespace HMM

/-- The float64 values from 0 to 1 have ordered products. -/
theorem orderedProducts_float : OrderedProducts (fun x : Float64 => 0 ≤ x ∧ x ≤ 1) where
  mul_mem := fun a b ha hb => Float64.mul_unit a b ha hb
  le_refl := fun a ha =>
    (Float64.le_iff_rank a a (Float64.ne_nan_of_le ha.1).2 (Float64.ne_nan_of_le ha.1).2).mpr
      (le_refl _)
  le_trans := fun a b c ha hb hc h1 h2 =>
    (Float64.le_iff_rank a c (Float64.ne_nan_of_le ha.1).2 (Float64.ne_nan_of_le hc.1).2).mpr
      (le_trans
        ((Float64.le_iff_rank a b (Float64.ne_nan_of_le ha.1).2 (Float64.ne_nan_of_le hb.1).2).mp
          h1)
        ((Float64.le_iff_rank b c (Float64.ne_nan_of_le hb.1).2 (Float64.ne_nan_of_le hc.1).2).mp
          h2))
  le_of_lt := fun a b ha hb h =>
    (Float64.le_iff_rank a b (Float64.ne_nan_of_le ha.1).2 (Float64.ne_nan_of_le hb.1).2).mpr
      (le_of_lt
        ((Float64.lt_iff_rank a b (Float64.ne_nan_of_le ha.1).2 (Float64.ne_nan_of_le hb.1).2).mp
          h))
  le_of_not_lt := fun a b ha hb h =>
    (Float64.le_iff_rank b a (Float64.ne_nan_of_le hb.1).2 (Float64.ne_nan_of_le ha.1).2).mpr
      (not_lt.mp fun h' => h
        ((Float64.lt_iff_rank a b (Float64.ne_nan_of_le ha.1).2
          (Float64.ne_nan_of_le hb.1).2).mpr h'))
  mul_le_mul := fun a b c ha hb hc h => Float64.mul_le_mul_unit a b c ha hb hc h

theorem tiny_conformant :
    Conformant 2 2 tinyProbabilities tinyObservations tinyTransitions tinyEmissions where
  states := by decide
  steps := by decide
  plen := rfl
  olen := rfl
  trows := rfl
  tcols := rfl
  erows := rfl
  valid := fun j hj => by
    interval_cases j <;> simp [tinyObservations, tinyEmissions, Vec.ofList, Grid.ofRows]

theorem tiny_regular :
    Regular (fun x : Float64 => 0 ≤ x ∧ x ≤ 1) 2 tinyProbabilities tinyTransitions
      tinyEmissions where
  initial := fun i hi => by interval_cases i <;> decide
  transition := fun k i hk hi => by interval_cases k <;> interval_cases i <;> decide
  emission := fun i c hi hc => by
    have hc2 : c < 2 := hc
    interval_cases i <;> interval_cases c <;> decide

theorem tiny_exact_conformant :
    Conformant 2 2 tinyProbabilities.exact tinyObservations tinyTransitions.exact
      tinyEmissions.exact where
  states := by decide
  steps := by decide
  plen := rfl
  olen := rfl
  trows := rfl
  tcols := rfl
  erows := rfl
  valid := tiny_conformant.valid

theorem toRat_nonneg_of_le (x : Float64) (h : 0 ≤ x ∧ x ≤ 1) : 0 ≤ x.toRat := by
  obtain ⟨s, m, e, rfl, _, h0, _⟩ := Float64.unit_cases x h.1 h.2
  exact h0

theorem tiny_exact_nonNegative :
    NonNegative 2 tinyProbabilities.exact tinyTransitions.exact tinyEmissions.exact where
  initial := fun i hi => toRat_nonneg_of_le _ (tiny_regular.initial i hi)
  transition := fun k i hk hi => toRat_nonneg_of_le _ (tiny_regular.transition k i hk hi)
  emission := fun i c hi hc => toRat_nonneg_of_le _ (tiny_regular.emission i c hi hc)

end HMM

namespace KMeans

/-- The comparisons of float64 order the values other than NaN. -/
theorem comparable_float : Comparable (fun x : Float64 => x ≠ Float64.nan) where
  zero := by decide
  refl := fun a ha => (Float64.le_iff_rank a a ha ha).mpr (le_refl _)
  of_lt := fun a b ha hb h =>
    (Float64.le_iff_rank a b ha hb).mpr (le_of_lt ((Float64.lt_iff_rank a b ha hb).mp h))
  of_not_lt := fun a b ha hb h =>
    (Float64.le_iff_rank b a hb ha).mpr
      (not_lt.mp (fun h' => h ((Float64.lt_iff_rank a b ha hb).mpr h')))
  trans := fun a b c ha hb hc h1 h2 =>
    (Float64.lt_iff_rank a c ha hc).mpr
      (lt_trans ((Float64.lt_iff_rank a b ha hb).mp h1) ((Float64.lt_iff_rank b c hb hc).mp h2))
  lt_le := fun a b c ha hb hc h1 h2 =>
    (Float64.lt_iff_rank a c ha hc).mpr
      (lt_of_lt_of_le ((Float64.lt_iff_rank a b ha hb).mp h1)
        ((Float64.le_iff_rank b c hb hc).mp h2))
  not_lt := fun a b ha hb h1 h2 =>
    absurd ((Float64.le_iff_rank a b ha hb).mp h1)
      (not_le.mpr ((Float64.lt_iff_rank b a hb ha).mp h2))

/-- Both computed distances from the point (1, 0) to the centroids (0, 2^-30)
and (0, 0) are 1. -/
theorem near_distances : centroidDistances Float64.sqrt nearCentroids unitPoint = [1, 1] := by
  decide

end KMeans

/-! # The claims -/

namespace NeuralNet

section Claims1
open Matrix
variable {n i h o : Nat}

end Claims1

end NeuralNet

namespace NeuralNet

section Claims
open Matrix
variable {R : Type} [LinearOrderedField R] {n i h o : Nat}

/-- C2, amended. With positive node counts, at least one epoch, `n ≥ 1` input
rows and a label matrix that has a different number `k` of rows (column counts
as the config asks), `train` does not return an error value: it aborts with the
`mat.ErrShape` panic raised in the first epoch, and the weights and biases the
network held before the call are unchanged. -/
theorem train_row_mismatch_panics (exp : R → R) (net : network R) (bias : R) (r1 : Nat → R)
    {k : Nat} (hk : k ≠ n) (hn : 0 < n) (hi : 0 < i) (hh : 0 < h) (ho : 0 < o)
    (ci : net.config.numberOfInputNodes = (i : Int))
    (ch : net.config.numberOfHiddenNodes = (h : Int))
    (co : net.config.numberOfOutputNodes = (o : Int))
    (he : 0 < net.config.numberOfEpochs)
    (X : Matrix (Fin n) (Fin i) R) (Y : Matrix (Fin k) (Fin o) R) :
    train exp net (Dense.ofMatrix X) (Dense.ofMatrix Y) bias r1 = (net, .error Panic.shape) :=
  train_row_mismatch exp net bias r1 hk hn hi hh ho ci ch co he X Y

/-- Witness of the amended C2: two input rows, one label row. -/
theorem train_row_mismatch_panics_witness :
    train Real.exp (network.new (mainConf 5)) (Dense.ofMatrix sampleInputs)
        (Dense.ofMatrix shortLabels) 0 (fun k => 1 / (k + 2))
      = (network.new (mainConf 5), .error Panic.shape) :=
  train_row_mismatch_panics Real.exp (network.new (mainConf 5)) 0 (fun k => 1 / (k + 2))
    (by decide) (by decide) (by decide) (by decide) (by decide) rfl rfl rfl (by decide)
    sampleInputs shortLabels

/-- C2 as stated fails: on the network of `main` with 5 hidden nodes, two input
rows and one label row, `train` ends in the `mat.ErrShape` panic; no `error`
value is returned. -/
theorem train_row_mismatch_counterexample :
    (Dense.ofMatrix (sampleInputs : Matrix _ _ ℝ)).rows
        ≠ (Dense.ofMatrix (shortLabels : Matrix _ _ ℝ)).rows
    ∧ (train Real.exp (network.new (mainConf 5)) (Dense.ofMatrix sampleInputs)
        (Dense.ofMatrix shortLabels) 0 (fun _ => 0.5)).2 = .error Panic.shape
    ∧ ∀ e : GoError,
        (train Real.exp (network.new (mainConf 5)) (Dense.ofMatrix sampleInputs)
          (Dense.ofMatrix shortLabels) 0 (fun _ => 0.5)).2 ≠ .ok (some e) := by
  have ht := train_row_mismatch Real.exp (network.new (mainConf 5)) 0 (fun _ => 0.5)
    (show 1 ≠ 2 by decide) (show 0 < 2 by decide) (show 0 < 4 by decide)
    (show 0 < 5 by decide) (show 0 < 3 by decide) rfl rfl rfl (by decide)
    sampleInputs shortLabels
  refine ⟨by decide, by rw [ht], fun e => ?_⟩
  rw [ht]
  simp

/-- C3. `predict` returns one of its two empty-model errors, and no output
matrix, exactly when at least one of the four parameter matrices is nil; on a
network built as in `main`, on which `train` was never called, it returns the
error for every input matrix. -/
theorem predict_uninitialized_iff (exp : R → R) (net : network R) (x : Dense R) :
    ((∃ e : GoError, e.isUninitializedModel = true ∧ predict exp net x = .ok (none, some e))
      ↔ (net.hiddenWeights = none ∨ net.hiddenBiases = none ∨ net.outputWeights = none
          ∨ net.outputBiases = none))
    ∧ ∀ config : networkConf R,
        predict exp (network.new config) x = .ok (none, some GoError.weightsEmpty) := by
  refine ⟨?_, fun _ => rfl⟩
  obtain ⟨config, hW, hB, oW, oB⟩ := net
  cases hW <;> cases hB <;> cases oW <;> cases oB <;>
    simp [predict, GoError.isUninitializedModel]
  intro e _
  cases forward exp x _ _ _ _ <;> simp [Functor.map, Except.map]

/-- C4, amended. When all four parameter matrices are present and the input
matrix has a column count `k` different from the row count `i` of
`hiddenWeights` (the number of input nodes of a trained network), `predict`
does not return: the first matrix product panics with `mat.ErrShape`, so the
caller gets neither an output matrix nor an error value. -/
theorem predict_column_mismatch_panics (exp : R → R) (config : networkConf R) {k : Nat}
    (hk : k ≠ i) (X : Matrix (Fin n) (Fin k) R) (Wh : Matrix (Fin i) (Fin h) R)
    (bh : Matrix (Fin 1) (Fin h) R) (Wo : Matrix (Fin h) (Fin o) R)
    (bo : Matrix (Fin 1) (Fin o) R) :
    predict exp ⟨config, some (Dense.ofMatrix Wh), some (Dense.ofMatrix bh),
        some (Dense.ofMatrix Wo), some (Dense.ofMatrix bo)⟩ (Dense.ofMatrix X)
      = .error Panic.shape :=
  predict_shape_panic exp config hk X Wh bh Wo bo

/-- Witness of the amended C4: a 2 × 3 input for a network with 4 input nodes. -/
theorem predict_column_mismatch_panics_witness :
    predict Real.exp ⟨mainConf 5, some (Dense.ofMatrix (initialHiddenWeights 4 5 fun _ => 0.5)),
        some (Dense.ofMatrix (constantRow 5 0)),
        some (Dense.ofMatrix (initialOutputWeights 4 5 3 fun _ => 0.5)),
        some (Dense.ofMatrix (constantRow 3 0))⟩ (Dense.ofMatrix (sampleLabels : Matrix _ _ ℝ))
      = .error Panic.shape :=
  predict_column_mismatch_panics Real.exp (mainConf 5) (by decide) _ _ _ _ _

/-- C4 as stated fails: the network of `main` with 5 hidden nodes, trained on
the two sample rows, is asked to predict on a 2 × 3 matrix although it has 4
input nodes. `train` returned `nil`, and `predict` panics with `mat.ErrShape`:
it returns no error value. -/
theorem predict_column_mismatch_counterexample :
    (train Real.exp (network.new (mainConf 5)) (Dense.ofMatrix sampleInputs)
        (Dense.ofMatrix sampleLabels) 0 (fun _ => 0.5)).2 = .ok none
    ∧ predict Real.exp
        (train Real.exp (network.new (mainConf 5)) (Dense.ofMatrix sampleInputs)
          (Dense.ofMatrix sampleLabels) 0 (fun _ => 0.5)).1
        (Dense.ofMatrix (sampleLabels : Matrix _ _ ℝ)) = .error Panic.shape
    ∧ ∀ (output : Option (Dense ℝ)) (e : GoError),
        predict Real.exp
          (train Real.exp (network.new (mainConf 5)) (Dense.ofMatrix sampleInputs)
            (Dense.ofMatrix sampleLabels) 0 (fun _ => 0.5)).1
          (Dense.ofMatrix (sampleLabels : Matrix _ _ ℝ)) ≠ .ok (output, some e) := by
  have ht := train_eq Real.exp (network.new (mainConf 5)) 0 (fun _ => 0.5)
    (show 0 < 2 by decide) (show 0 < 4 by decide) (show 0 < 5 by decide) (show 0 < 3 by decide)
    rfl rfl rfl sampleInputs sampleLabels
  have hp : predict Real.exp
      (train Real.exp (network.new (mainConf 5)) (Dense.ofMatrix sampleInputs)
        (Dense.ofMatrix sampleLabels) 0 (fun _ => 0.5)).1
      (Dense.ofMatrix (sampleLabels : Matrix _ _ ℝ)) = .error Panic.shape := by
    rw [ht]
    exact predict_shape_panic Real.exp _ (by decide) _ _ _ _ _
  refine ⟨by rw [ht], hp, fun output e => ?_⟩
  rw [hp]
  simp

/-- C5. For a config with positive node counts `i`, `h`, `o` and an
inputs/labels pair with the same number `n ≥ 1` of rows, `i` input columns and
`o` label columns, `train` returns `nil` and stores four matrices of shapes
`i × h`, `1 × h`, `h × o` and `1 × o`; a following `predict` returns neither of
the empty-model errors, whatever its input. -/
theorem train_succeeds_with_declared_shapes (exp : R → R) (net : network R) (bias : R)
    (r1 : Nat → R) (hn : 0 < n) (hi : 0 < i) (hh : 0 < h) (ho : 0 < o)
    (ci : net.config.numberOfInputNodes = (i : Int))
    (ch : net.config.numberOfHiddenNodes = (h : Int))
    (co : net.config.numberOfOutputNodes = (o : Int))
    (X : Matrix (Fin n) (Fin i) R) (Y : Matrix (Fin n) (Fin o) R) :
    ∃ hiddenWeights hiddenBiases outputWeights outputBiases : Dense R,
      train exp net (Dense.ofMatrix X) (Dense.ofMatrix Y) bias r1
        = (⟨net.config, some hiddenWeights, some hiddenBiases, some outputWeights,
            some outputBiases⟩, .ok none)
      ∧ (hiddenWeights.rows = i ∧ hiddenWeights.cols = h)
      ∧ (hiddenBiases.rows = 1 ∧ hiddenBiases.cols = h)
      ∧ (outputWeights.rows = h ∧ outputWeights.cols = o)
      ∧ (outputBiases.rows = 1 ∧ outputBiases.cols = o)
      ∧ ∀ (x : Dense R) (e : GoError),
          predict exp (train exp net (Dense.ofMatrix X) (Dense.ofMatrix Y) bias r1).1 x
            ≠ .ok (none, some e) := by
  refine ⟨_, _, _, _, train_eq exp net bias r1 hn hi hh ho ci ch co X Y, ⟨rfl, rfl⟩, ⟨rfl, rfl⟩,
    ⟨rfl, rfl⟩, ⟨rfl, rfl⟩, fun x e => ?_⟩
  rw [train_eq exp net bias r1 hn hi hh ho ci ch co X Y]
  simp only [predict]
  cases forward exp x _ _ _ _ <;> simp [Functor.map, Except.map, bind, Except.bind, pure, Except.pure]

/-- Witness of C5: the network of `main` with 5 hidden nodes on the two sample
rows. -/
theorem train_succeeds_with_declared_shapes_witness :
    ∃ hiddenWeights hiddenBiases outputWeights outputBiases : Dense ℝ,
      train Real.exp (network.new (mainConf 5)) (Dense.ofMatrix sampleInputs)
          (Dense.ofMatrix sampleLabels) 0 (fun k => 1 / (k + 2))
        = (⟨mainConf 5, some hiddenWeights, some hiddenBiases, some outputWeights,
            some outputBiases⟩, .ok none)
      ∧ (hiddenWeights.rows = 4 ∧ hiddenWeights.cols = 5)
      ∧ (hiddenBiases.rows = 1 ∧ hiddenBiases.cols = 5)
      ∧ (outputWeights.rows = 5 ∧ outputWeights.cols = 3)
      ∧ (outputBiases.rows = 1 ∧ outputBiases.cols = 3)
      ∧ ∀ (x : Dense ℝ) (e : GoError),
          predict Real.exp (train Real.exp (network.new (mainConf 5)) (Dense.ofMatrix sampleInputs)
            (Dense.ofMatrix sampleLabels) 0 (fun k => 1 / (k + 2))).1 x
            ≠ .ok (none, some e) :=
  train_succeeds_with_declared_shapes Real.exp (network.new (mainConf 5)) 0 (fun k => 1 / (k + 2))
    (by decide) (by decide) (by decide) (by decide) rfl rfl rfl sampleInputs sampleLabels

/-- C6. One pass of the loop body of `propagate` on conformant matrices (`n`
samples, `i`, `h`, `o` nodes, all at least 1) returns the pair of weight
matrices of the reference step: with `H = sigmoid(X * Wh + bh)`,
`O = sigmoid(H * Wo + bo)`, `E = Y - O`, `dO = E ⊙ sigmoidPrime(O)` and
`dH = (dO * Woᵀ) ⊙ sigmoidPrime(H)`, the new `Wh` is `Wh + lr • (Xᵀ * dH)` and
the new `Wo` is `Wo + lr • (Hᵀ * dO)`, where `dH` is computed from the `Wo` of
before the update; the `output` matrix is left holding `O`. -/
theorem epoch_eq_referenceStep (exp : R → R) (lr : R) (hn : 0 < n) (hi : 0 < i) (hh : 0 < h)
    (ho : 0 < o) (X : Matrix (Fin n) (Fin i) R) (Y : Matrix (Fin n) (Fin o) R)
    (bh : Matrix (Fin 1) (Fin h) R) (bo : Matrix (Fin 1) (Fin o) R)
    (Wh : Matrix (Fin i) (Fin h) R) (Wo : Matrix (Fin h) (Fin o) R)
    (output : Dense R) (hout : output.cols = 0 ∨ (output.rows = n ∧ output.cols = o)) :
    epoch exp lr (Dense.ofMatrix X) (Dense.ofMatrix Y) (Dense.ofMatrix bh) (Dense.ofMatrix bo)
        ⟨Dense.ofMatrix Wh, Dense.ofMatrix Wo, output⟩
      = .ok ⟨Dense.ofMatrix (referenceStep exp lr X Y bh bo (Wh, Wo)).1,
          Dense.ofMatrix (referenceStep exp lr X Y bh bo (Wh, Wo)).2,
          Dense.ofMatrix (forwardOutput exp X Wh bh Wo bo)⟩ :=
  epoch_ofMatrix exp lr hn hi hh ho X Y bh bo Wh Wo output hout

/-- Witness of C6: the first epoch of the network of `main` with 5 hidden
nodes on the two sample rows, the `output` matrix being still empty. -/
theorem epoch_eq_referenceStep_witness :
    epoch Real.exp 0.1 (Dense.ofMatrix sampleInputs) (Dense.ofMatrix sampleLabels)
        (Dense.ofMatrix (constantRow 5 0)) (Dense.ofMatrix (constantRow 3 0))
        ⟨Dense.ofMatrix (initialHiddenWeights 4 5 fun k => 1 / (k + 2)),
          Dense.ofMatrix (initialOutputWeights 4 5 3 fun k => 1 / (k + 2)), Dense.empty⟩
      = .ok ⟨Dense.ofMatrix (referenceStep Real.exp 0.1 sampleInputs sampleLabels
            (constantRow 5 0) (constantRow 3 0)
            (initialHiddenWeights 4 5 fun k => 1 / (k + 2),
              initialOutputWeights 4 5 3 fun k => 1 / (k + 2))).1,
          Dense.ofMatrix (referenceStep Real.exp 0.1 sampleInputs sampleLabels
            (constantRow 5 0) (constantRow 3 0)
            (initialHiddenWeights 4 5 fun k => 1 / (k + 2),
              initialOutputWeights 4 5 3 fun k => 1 / (k + 2))).2,
          Dense.ofMatrix (forwardOutput Real.exp sampleInputs
            (initialHiddenWeights 4 5 fun k => 1 / (k + 2)) (constantRow 5 0)
            (initialOutputWeights 4 5 3 fun k => 1 / (k + 2)) (constantRow 3 0))⟩ :=
  epoch_eq_referenceStep Real.exp 0.1 (by decide) (by decide) (by decide) (by decide)
    sampleInputs sampleLabels _ _ _ _ Dense.empty (Or.inl rfl)

/-- C7. For a config with positive node counts and conformant inputs and
labels (`n ≥ 1` rows), `train` returns `nil`, and the weights it stores are the
reference step applied `numberOfEpochs` times (`Int.toNat`: zero times when the
number is not positive) to the initial weights drawn from the random source. -/
theorem train_weights_eq_iterate (exp : R → R) (net : network R) (bias : R) (r1 : Nat → R)
    (hn : 0 < n) (hi : 0 < i) (hh : 0 < h) (ho : 0 < o)
    (ci : net.config.numberOfInputNodes = (i : Int))
    (ch : net.config.numberOfHiddenNodes = (h : Int))
    (co : net.config.numberOfOutputNodes = (o : Int))
    (X : Matrix (Fin n) (Fin i) R) (Y : Matrix (Fin n) (Fin o) R) :
    (train exp net (Dense.ofMatrix X) (Dense.ofMatrix Y) bias r1).2 = .ok none
    ∧ (train exp net (Dense.ofMatrix X) (Dense.ofMatrix Y) bias r1).1.hiddenWeights
        = some (Dense.ofMatrix
            ((referenceStep exp net.config.learningRate X Y (constantRow h bias)
              (constantRow o bias))^[net.config.numberOfEpochs.toNat]
              (initialHiddenWeights i h r1, initialOutputWeights i h o r1)).1)
    ∧ (train exp net (Dense.ofMatrix X) (Dense.ofMatrix Y) bias r1).1.outputWeights
        = some (Dense.ofMatrix
            ((referenceStep exp net.config.learningRate X Y (constantRow h bias)
              (constantRow o bias))^[net.config.numberOfEpochs.toNat]
              (initialHiddenWeights i h r1, initialOutputWeights i h o r1)).2) := by
  rw [train_eq exp net bias r1 hn hi hh ho ci ch co X Y]
  exact ⟨rfl, rfl, rfl⟩

/-- Witness of C7: the 100 epochs of `main` on the two sample rows. -/
theorem train_weights_eq_iterate_witness :
    (train Real.exp (network.new (mainConf 5)) (Dense.ofMatrix sampleInputs)
        (Dense.ofMatrix sampleLabels) 0 (fun k => 1 / (k + 2))).2 = .ok none
    ∧ (train Real.exp (network.new (mainConf 5)) (Dense.ofMatrix sampleInputs)
        (Dense.ofMatrix sampleLabels) 0 (fun k => 1 / (k + 2))).1.hiddenWeights
        = some (Dense.ofMatrix
            ((referenceStep Real.exp 0.1 sampleInputs sampleLabels (constantRow 5 0)
              (constantRow 3 0))^[100]
              (initialHiddenWeights 4 5 fun k => 1 / (k + 2),
                initialOutputWeights 4 5 3 fun k => 1 / (k + 2))).1)
    ∧ (train Real.exp (network.new (mainConf 5)) (Dense.ofMatrix sampleInputs)
        (Dense.ofMatrix sampleLabels) 0 (fun k => 1 / (k + 2))).1.outputWeights
        = some (Dense.ofMatrix
            ((referenceStep Real.exp 0.1 sampleInputs sampleLabels (constantRow 5 0)
              (constantRow 3 0))^[100]
              (initialHiddenWeights 4 5 fun k => 1 / (k + 2),
                initialOutputWeights 4 5 3 fun k => 1 / (k + 2))).2) :=
  train_weights_eq_iterate Real.exp (network.new (mainConf 5)) 0 (fun k => 1 / (k + 2))
    (by decide) (by decide) (by decide) (by decide) rfl rfl rfl sampleInputs sampleLabels

/-- C8. Whatever the config, the inputs, the labels, the random draws and the
bias value, when `train` returns `nil` the stored `hiddenBiases` and
`outputBiases` are present and every entry of both equals the bias value: no
epoch changed them. -/
theorem train_biases_constant (exp : R → R) (net : network R) (inputs labels : Dense R)
    (bias : R) (r1 : Nat → R)
    (hok : (train exp net inputs labels bias r1).2 = .ok none) :
    ∃ hiddenBiases outputBiases : Dense R,
      (train exp net inputs labels bias r1).1.hiddenBiases = some hiddenBiases
      ∧ (train exp net inputs labels bias r1).1.outputBiases = some outputBiases
      ∧ (∀ a b, hiddenBiases.data a b = bias)
      ∧ (∀ a b, outputBiases.data a b = bias) :=
  ⟨_, _, (train_ok_biases exp net inputs labels bias r1 hok).1,
    (train_ok_biases exp net inputs labels bias r1 hok).2, fun _ _ => rfl, fun _ _ => rfl⟩

/-- Witness of C8: the 100 epochs of `main` on the two sample rows, with bias
value 0.75. -/
theorem train_biases_constant_witness :
    ∃ hiddenBiases outputBiases : Dense ℝ,
      (train Real.exp (network.new (mainConf 5)) (Dense.ofMatrix sampleInputs)
        (Dense.ofMatrix sampleLabels) 0.75 (fun k => 1 / (k + 2))).1.hiddenBiases
          = some hiddenBiases
      ∧ (train Real.exp (network.new (mainConf 5)) (Dense.ofMatrix sampleInputs)
        (Dense.ofMatrix sampleLabels) 0.75 (fun k => 1 / (k + 2))).1.outputBiases
          = some outputBiases
      ∧ (∀ a b, hiddenBiases.data a b = 0.75)
      ∧ (∀ a b, outputBiases.data a b = 0.75) :=
  train_biases_constant Real.exp (network.new (mainConf 5)) (Dense.ofMatrix sampleInputs)
    (Dense.ofMatrix sampleLabels) 0.75 (fun k => 1 / (k + 2))
    (by
      rw [train_eq Real.exp (network.new (mainConf 5)) 0.75 (fun k => 1 / (k + 2))
        (show 0 < 2 by decide) (show 0 < 4 by decide) (show 0 < 5 by decide)
        (show 0 < 3 by decide) rfl rfl rfl sampleInputs sampleLabels])

/-- C9. On a fitted state `(Wh, bh, Wo, bo)` and a conformant input `X`,
`predict` returns the matrix that the forward half of a training epoch leaves
in `output` for the same `X` and the same parameters, and that matrix is
`sigmoid(sigmoid(X * Wh + bh) * Wo + bo)`, each bias row being added to every
row column by column. -/
theorem predict_eq_epoch_forward (exp : R → R) (config : networkConf R) (lr : R) (hn : 0 < n)
    (hi : 0 < i) (hh : 0 < h) (ho : 0 < o) (X : Matrix (Fin n) (Fin i) R)
    (Y : Matrix (Fin n) (Fin o) R) (bh : Matrix (Fin 1) (Fin h) R)
    (bo : Matrix (Fin 1) (Fin o) R) (Wh : Matrix (Fin i) (Fin h) R)
    (Wo : Matrix (Fin h) (Fin o) R) :
    ∃ p : Params R,
      epoch exp lr (Dense.ofMatrix X) (Dense.ofMatrix Y) (Dense.ofMatrix bh) (Dense.ofMatrix bo)
          ⟨Dense.ofMatrix Wh, Dense.ofMatrix Wo, Dense.empty⟩ = .ok p
      ∧ predict exp ⟨config, some (Dense.ofMatrix Wh), some (Dense.ofMatrix bh),
          some (Dense.ofMatrix Wo), some (Dense.ofMatrix bo)⟩ (Dense.ofMatrix X)
        = .ok (some p.output, none)
      ∧ p.output = Dense.ofMatrix
          (Matrix.of fun a b => sigmoid exp
            ((∑ k, (Matrix.of fun a c => sigmoid exp ((∑ l, X a l * Wh l c) + bh 0 c)) a k
              * Wo k b) + bo 0 b)) :=
  ⟨_, epoch_ofMatrix exp lr hn hi hh ho X Y bh bo Wh Wo Dense.empty (Or.inl rfl),
    predict_fitted exp config hn hh ho X Wh bh Wo bo, rfl⟩

/-- Witness of C9 on the network shape of `main` and the two sample rows. -/
theorem predict_eq_epoch_forward_witness :
    ∃ p : Params ℝ,
      epoch Real.exp 0.1 (Dense.ofMatrix sampleInputs) (Dense.ofMatrix sampleLabels)
          (Dense.ofMatrix (constantRow 5 0)) (Dense.ofMatrix (constantRow 3 0))
          ⟨Dense.ofMatrix (initialHiddenWeights 4 5 fun k => 1 / (k + 2)),
            Dense.ofMatrix (initialOutputWeights 4 5 3 fun k => 1 / (k + 2)), Dense.empty⟩
        = .ok p
      ∧ predict Real.exp ⟨mainConf 5,
          some (Dense.ofMatrix (initialHiddenWeights 4 5 fun k => 1 / (k + 2))),
          some (Dense.ofMatrix (constantRow 5 0)),
          some (Dense.ofMatrix (initialOutputWeights 4 5 3 fun k => 1 / (k + 2))),
          some (Dense.ofMatrix (constantRow 3 0))⟩ (Dense.ofMatrix sampleInputs)
        = .ok (some p.output, none)
      ∧ p.output = Dense.ofMatrix
          (Matrix.of fun a b => sigmoid Real.exp
            ((∑ k, (Matrix.of fun a c => sigmoid Real.exp
                ((∑ l, (sampleInputs : Matrix _ _ ℝ) a l
                    * initialHiddenWeights 4 5 (fun k => 1 / ((k : ℝ) + 2)) l c)
                  + constantRow 5 (0 : ℝ) 0 c)) a k
              * initialOutputWeights 4 5 3 (fun k => 1 / ((k : ℝ) + 2)) k b)
              + constantRow 3 (0 : ℝ) 0 b)) :=
  predict_eq_epoch_forward Real.exp (mainConf 5) 0.1 (by decide) (by decide) (by decide)
    (by decide) sampleInputs sampleLabels _ _ _ _

/-- C10. For a prediction matrix and a one-hot label matrix of the same shape
with `n ≥ 1` rows, the scoring loop of `main` counts row `r` as a hit exactly
when the predicted score in the column whose label is `1.0` is the maximum of
row `r` (a tie for the maximum that includes the true class is a hit), and the
accuracy is the number of hits divided by `n`. -/
theorem accuracy_eq_hits_div_rows {c : Nat} (_hn : 0 < n)
    (outputs labels : Matrix (Fin n) (Fin c) R)
    (hot : ∀ r, ∃ j, labels r j = 1 ∧ ∀ j', j' ≠ j → labels r j' = 0) :
    (∀ (r : Fin n) (hit : Nat),
        scoreRow (Dense.ofMatrix outputs) (Dense.ofMatrix labels) (r.val : Int) hit
          = .ok (if ∃ j, labels r j = 1 ∧ ∀ j', outputs r j' ≤ outputs r j then hit + 1
              else hit))
    ∧ accuracy (Dense.ofMatrix outputs) (Dense.ofMatrix labels)
      = .ok (((Finset.univ.filter fun r =>
          ∃ j, labels r j = 1 ∧ ∀ j', outputs r j' ≤ outputs r j).card : R) / (n : R)) :=
  ⟨scoreRow_ofMatrix outputs labels hot, accuracy_ofMatrix outputs labels hot⟩


/-- Witness of C10: of the two sample rows the first is a hit (a tie for the
maximum that includes the true class) and the second is not; the accuracy is
one half. -/
theorem accuracy_eq_hits_div_rows_witness :
    accuracy (Dense.ofMatrix (sampleOutputs : Matrix _ _ ℝ)) (Dense.ofMatrix sampleLabels)
      = .ok (1 / 2) := by
  have hits : (Finset.univ.filter fun r : Fin 2 => ∃ j : Fin 3,
      (sampleLabels : Matrix _ _ ℝ) r j = 1
        ∧ ∀ j', (sampleOutputs : Matrix _ _ ℝ) r j' ≤ sampleOutputs r j).card = 1 := by
    rw [Finset.card_eq_one]
    refine ⟨0, ?_⟩
    ext r
    fin_cases r <;>
      simp [sampleLabels, sampleOutputs, Fin.exists_fin_succ, Fin.forall_fin_succ] <;> norm_num
  rw [(accuracy_eq_hits_div_rows (by decide) sampleOutputs sampleLabels sampleLabels_oneHot).2,
    hits]
  norm_num

end Claims

section Claims11

variable {R : Type} [Zero R] [One R] [HAdd R R R] [HSub R R R] [HMul R R R] [HDiv R R R] [Neg R]
  [HPow R Nat R] [NatCast R] [LT R] [LE R] [BEq R] [DecidableEq R]
  [∀ a b : R, Decidable (a < b)] [∀ a b : R, Decidable (a ≤ b)]

/-- C11. With the matrices in a store and `x` and the fields of the receiver as
pointers into it, in whatever arithmetic: what a call of `predict` returns to
its caller is the value of the function `predict` of the embedding on the
matrices behind these pointers, so that two calls, in two worlds in which the
input pointers point to equal matrices and the four fields of the two
receivers to equal weights and biases (or are nil alike), return the same, the
same output matrix with a nil error, the same error value, or the same panic,
whatever else the two stores hold and whatever the two configs are. And a call
that returns has changed neither the struct of the receiver nor any matrix
that existed before it, so that a second call in the world it leaves returns
the same as the first. -/
theorem predict_deterministic (exp : R → R) (w₁ w₂ : World R) (x₁ x₂ : Nat)
    (hv₁ : w₁.Valid x₁) (hv₂ : w₂.Valid x₂)
    (hx : w₁.store.load x₁ = w₂.store.load x₂)
    (hhw : w₁.fitted.hiddenWeights = w₂.fitted.hiddenWeights)
    (hhb : w₁.fitted.hiddenBiases = w₂.fitted.hiddenBiases)
    (how : w₁.fitted.outputWeights = w₂.fitted.outputWeights)
    (hob : w₁.fitted.outputBiases = w₂.fitted.outputBiases) :
    predictResult exp x₁ w₁ = predict exp w₁.fitted (w₁.store.load x₁)
    ∧ predictResult exp x₁ w₁ = predictResult exp x₂ w₂
    ∧ ∀ (r : Option Nat × Option GoError) (w' : World R),
        predictRef exp x₁ w₁ = .ok (r, w') →
        w'.net = w₁.net
        ∧ (∀ p, p < w₁.store.next → w'.store.load p = w₁.store.load p)
        ∧ predictResult exp x₁ w' = predictResult exp x₁ w₁ := by
  have hfun : ∀ (a b : World R) (xa xb : Nat), a.Valid xa → b.Valid xb →
      a.store.load xa = b.store.load xb →
      a.fitted.hiddenWeights = b.fitted.hiddenWeights →
      a.fitted.hiddenBiases = b.fitted.hiddenBiases →
      a.fitted.outputWeights = b.fitted.outputWeights →
      a.fitted.outputBiases = b.fitted.outputBiases →
      predictResult exp xa a = predictResult exp xb b := by
    intro a b xa xb hva hvb h0 h1 h2 h3 h4
    rw [predictResult_eq exp xa a hva, predictResult_eq exp xb b hvb, h0]
    unfold predict
    rw [h1, h2, h3, h4]
  refine ⟨predictResult_eq exp x₁ w₁ hv₁, hfun w₁ w₂ x₁ x₂ hv₁ hv₂ hx hhw hhb how hob,
    fun r w' hrun => ?_⟩
  obtain ⟨hnet, hle, hold⟩ := predictRef_frame exp x₁ w₁ hv₁ r w' hrun
  obtain ⟨hx₁, h1, h2, h3, h4⟩ := hv₁
  have hv' : w'.Valid x₁ :=
    ⟨by omega, fun p hp => by rw [hnet] at hp; exact lt_of_lt_of_le (h1 p hp) hle,
      fun p hp => by rw [hnet] at hp; exact lt_of_lt_of_le (h2 p hp) hle,
      fun p hp => by rw [hnet] at hp; exact lt_of_lt_of_le (h3 p hp) hle,
      fun p hp => by rw [hnet] at hp; exact lt_of_lt_of_le (h4 p hp) hle⟩
  have hmap : ∀ (f : Option Nat), (∀ p, f = some p → p < w₁.store.next) →
      f.map w'.store.load = f.map w₁.store.load := by
    intro f hf
    cases f with
    | none => rfl
    | some p => simp only [Option.map_some', hold p (hf p rfl)]
  refine ⟨hnet, hold, hfun w' w₁ x₁ x₁ hv' ⟨hx₁, h1, h2, h3, h4⟩ (hold x₁ hx₁) ?_ ?_ ?_ ?_⟩
  · show w'.net.hiddenWeights.map w'.store.load = w₁.net.hiddenWeights.map w₁.store.load
    rw [hnet]; exact hmap _ h1
  · show w'.net.hiddenBiases.map w'.store.load = w₁.net.hiddenBiases.map w₁.store.load
    rw [hnet]; exact hmap _ h2
  · show w'.net.outputWeights.map w'.store.load = w₁.net.outputWeights.map w₁.store.load
    rw [hnet]; exact hmap _ h3
  · show w'.net.outputBiases.map w'.store.load = w₁.net.outputBiases.map w₁.store.load
    rw [hnet]; exact hmap _ h4

/-- Witness of C11: the two sample rows and the four parameter matrices in two
worlds, at other places of the store and among other matrices in the second,
under the configs of `main` for 5 and for 7 hidden nodes. The call in the
first world returns, with the pointer to a new object and a nil error. -/
theorem predict_deterministic_witness :
    (sampleWorld : World ℝ).Valid 0 ∧ (otherWorld : World ℝ).Valid 4
    ∧ (sampleWorld : World ℝ).store.load 0 = (otherWorld : World ℝ).store.load 4
    ∧ (∃ w' : World ℝ, predictRef Real.exp 0 sampleWorld = .ok ((some 5, none), w'))
    ∧ predictResult Real.exp 0 sampleWorld
        = predict Real.exp (sampleWorld : World ℝ).fitted ((sampleWorld : World ℝ).store.load 0)
    ∧ predictResult Real.exp 0 sampleWorld = predictResult Real.exp 4 otherWorld
    ∧ ∀ (r : Option Nat × Option GoError) (w' : World ℝ),
        predictRef Real.exp 0 sampleWorld = .ok (r, w') →
        w'.net = (sampleWorld : World ℝ).net
        ∧ (∀ p, p < (sampleWorld : World ℝ).store.next →
            w'.store.load p = (sampleWorld : World ℝ).store.load p)
        ∧ predictResult Real.exp 0 w' = predictResult Real.exp 0 sampleWorld :=
  have hv₁ : (sampleWorld : World ℝ).Valid 0 :=
    ⟨by decide, fun p hp => by cases hp; decide, fun p hp => by cases hp; decide,
      fun p hp => by cases hp; decide, fun p hp => by cases hp; decide⟩
  have hv₂ : (otherWorld : World ℝ).Valid 4 :=
    ⟨by decide, fun p hp => by cases hp; decide, fun p hp => by cases hp; decide,
      fun p hp => by cases hp; decide, fun p hp => by cases hp; decide⟩
  ⟨hv₁, hv₂, rfl, predictRef_sampleWorld_returns,
    predict_deterministic Real.exp sampleWorld otherWorld 0 4 hv₁ hv₂ rfl rfl rfl rfl rfl⟩

end Claims11

section Claims
open Matrix
variable {R : Type} [LinearOrderedField R] {n i h o : Nat}

/-- C12. On the reals `sigmoid(0) = 0.5`, `sigmoidPrime(0) = 0.25`, and
`sigmoidPrime(x) ≤ 0.25` for every `x`: the maximum of `sigmoidPrime` is 0.25
and it is attained at 0. -/
theorem sigmoidPrime_max_at_zero :
    sigmoid Real.exp 0 = 0.5 ∧ sigmoidPrime Real.exp 0 = 0.25
      ∧ ∀ x : ℝ, sigmoidPrime Real.exp x ≤ 0.25 := by
  have h0 : sigmoid Real.exp 0 = 1 / 2 := sigmoid_zero
  refine ⟨by rw [h0]; norm_num, by unfold sigmoidPrime; rw [h0]; norm_num, fun x => ?_⟩
  unfold sigmoidPrime
  nlinarith [sq_nonneg (sigmoid Real.exp x - 1 / 2)]

/-- C13. The transposed view `T()` swaps the two dimensions and the two
indices of every entry, and transposing twice gives the matrix back, shape and
entries. -/
theorem transpose_transpose (m : Dense R) :
    m.T.T = m ∧ m.T.rows = m.cols ∧ m.T.cols = m.rows
      ∧ ∀ (a : Fin m.cols) (b : Fin m.rows), m.T.data a b = m.data b a :=
  ⟨rfl, rfl, rfl, fun _ _ => rfl⟩

end Claims

end NeuralNet

namespace HMM

open NeuralNet (Panic forLoop bind_ok_eq bind_error_eq pure_eq_ok)

section Claims

end Claims

end HMM

namespace LinearRegression

section Claims

variable {R : Type} [Zero R] [One R] [HAdd R R R] [HSub R R R] [HMul R R R] [HDiv R R R] [Neg R]
  [HPow R Nat R] [NatCast R] [LT R] [LE R] [BEq R] [DecidableEq R]
  [∀ a b : R, Decidable (a < b)] [∀ a b : R, Decidable (a ≤ b)]

/-- C15, amended. For every list of points, in whatever arithmetic the program
runs, the solver's computation ends normally with the pair
`(slope, yIntercept)` where `slope` is the quotient of the two sums that the
program accumulates from left to right and `yIntercept = yMean - slope*xMean`,
every operation being the one of that arithmetic. In exact arithmetic, for a
non-empty list of points whose x values are not all equal, this pair is
`slope = sum((x-xMean)*(y-yMean)) / sum((x-xMean)^2)` and
`yIntercept = yMean - slope*xMean`, and no line `y = a*x + b` has a smaller sum
of squared residuals than this one. -/
theorem fitLine_least_squares (points : List (Point R)) {F : Type} [LinearOrderedField F]
    (coords : List (Point F)) (hne : coords ≠ [])
    (hx : ¬ ∀ q ∈ coords, ∀ q' ∈ coords, q.x = q'.x) :
    (∃ slope yIntercept : R,
      fitLine points = .ok (slope, yIntercept)
      ∧ slope = sum (points.map fun c => (c.x - (mean points).1) * (c.y - (mean points).2))
                  / sum (points.map fun c => (c.x - (mean points).1) ^ 2)
      ∧ yIntercept = (mean points).2 - slope * (mean points).1)
    ∧ ∃ slope yIntercept : F,
      fitLine coords = .ok (slope, yIntercept)
      ∧ slope = (coords.map fun c => (c.x - xMean coords) * (c.y - yMean coords)).sum
                  / (coords.map fun c => (c.x - xMean coords) ^ 2).sum
      ∧ yIntercept = yMean coords - slope * xMean coords
      ∧ ∀ a b : F, squaredResiduals coords slope yIntercept ≤ squaredResiduals coords a b := by
  refine ⟨⟨_, _, ?_, rfl, rfl⟩, _, _, fitLine_eq coords, rfl, rfl, squaredResiduals_ge coords hne hx⟩
  unfold fitLine
  simp only [getSlice, if_true, List.map_map]
  rfl

/-- The statement of `fitLine_least_squares` at the two points (0, 0) and
(2^-600, 1) in `float64` and at the three sample points in exact arithmetic. -/
theorem fitLine_least_squares_witness :
    samplePoints ≠ []
    ∧ (¬ ∀ q ∈ samplePoints, ∀ q' ∈ samplePoints, q.x = q'.x)
    ∧ (∃ slope yIntercept : Float64,
      fitLine steepPoints = .ok (slope, yIntercept)
      ∧ slope = sum (steepPoints.map fun c =>
                    (c.x - (mean steepPoints).1) * (c.y - (mean steepPoints).2))
                  / sum (steepPoints.map fun c => (c.x - (mean steepPoints).1) ^ 2)
      ∧ yIntercept = (mean steepPoints).2 - slope * (mean steepPoints).1)
    ∧ ∃ slope yIntercept : ℚ,
      fitLine samplePoints = .ok (slope, yIntercept)
      ∧ slope = (samplePoints.map fun c =>
                    (c.x - xMean samplePoints) * (c.y - yMean samplePoints)).sum
                  / (samplePoints.map fun c => (c.x - xMean samplePoints) ^ 2).sum
      ∧ yIntercept = yMean samplePoints - slope * xMean samplePoints
      ∧ ∀ a b : ℚ, squaredResiduals samplePoints slope yIntercept
          ≤ squaredResiduals samplePoints a b :=
  have h1 : samplePoints ≠ [] := by simp [samplePoints]
  have h2 : ¬ ∀ q ∈ samplePoints, ∀ q' ∈ samplePoints, q.x = q'.x := by
    simp [samplePoints]
  ⟨h1, h2, fitLine_least_squares steepPoints samplePoints h1 h2⟩

/-- C15 as stated fails in `float64`: on the two points (0, 0) and (2^-600, 1),
whose x values differ, the squares of the differences from the mean underflow
to 0 and the computation ends with the pair (+Inf, -Inf), whereas the same
computation in exact arithmetic gives the slope `2^600` and the intercept 0,
both of them values of `float64`, and that line passes through both points. -/
theorem fitLine_least_squares_counterexample :
    fitLine steepPoints = .ok (Float64.inf false, Float64.inf true)
    ∧ steepPoints ≠ []
    ∧ (¬ ∀ q ∈ steepPoints, ∀ q' ∈ steepPoints, q.x.toRat = q'.x.toRat)
    ∧ fitLine steepPointsExact = .ok (2 ^ 600, 0)
    ∧ (Float64.ofDyadic false 1 600).toRat = 2 ^ 600
    ∧ squaredResiduals steepPointsExact (2 ^ 600) 0 = 0 := by
  have e : Float64.ofDyadic false 1 (-600) = Float64.fin false (2 ^ 52) (-652) := by decide
  have e2 : Float64.ofDyadic false 1 600 = Float64.fin false (2 ^ 52) 548 := by decide
  have hs : steepPointsExact = [⟨0, 0⟩, ⟨(2 ^ 600)⁻¹, 1⟩] := by
    simp only [steepPointsExact, steepPoints, List.map, e]
    simp only [Float64.toRat, Float64.signed]
    norm_num
  refine ⟨rfl, by simp [steepPoints], ?_, ?_, ?_, ?_⟩
  · intro hq
    have := hq ⟨0, 0⟩ (by simp [steepPoints]) ⟨Float64.ofDyadic false 1 (-600), 1⟩
      (by simp [steepPoints])
    rw [e] at this
    simp [Float64.toRat, Float64.signed] at this
    exact absurd this (by positivity)
  · rw [hs, fitLine_eq]
    norm_num [xMean, yMean]
  · rw [e2]; simp [Float64.toRat, Float64.signed]; norm_num
  · rw [hs]
    norm_num [squaredResiduals]

end Claims

end LinearRegression

namespace NeuralNet

section Claims
open Matrix
variable {R : Type} [Zero R] [One R] [HAdd R R R] [HSub R R R] [HMul R R R] [HDiv R R R] [Neg R]
  [HPow R Nat R] [NatCast R] [LT R] [LE R] [BEq R] [DecidableEq R]
  [∀ a b : R, Decidable (a < b)] [∀ a b : R, Decidable (a ≤ b)]

/-- C16, amended. For an `r × c` matrix with `r, c ≥ 1`, `sumAlongAxis` with
axis 0 returns the `1 × c` matrix whose entry `j` is what `floats.Sum` returns
on column `j`, with axis 1 the `r × 1` matrix whose entry `a` is what
`floats.Sum` returns on row `a`, each with a nil error, in whatever arithmetic
the program runs and whatever `floats.Sum` computes; with any other axis it
returns the invalid-axis error and no matrix, whatever the matrix. In exact
arithmetic, with `floats.Sum` adding from left to right, these entries are the
column sums and the row sums. -/
theorem sumAlongAxis_sums (floatsSum : List R → R) {r c : Nat} (hr : 0 < r) (hc : 0 < c)
    (M : Matrix (Fin r) (Fin c) R) {F : Type} [LinearOrderedField F]
    (N : Matrix (Fin r) (Fin c) F) :
    sumAlongAxis floatsSum 0 (Dense.ofMatrix M)
        = .ok (some (Dense.ofMatrix
            (fun (_ : Fin 1) j => floatsSum (List.ofFn fun a => M a j))), none)
    ∧ sumAlongAxis floatsSum 1 (Dense.ofMatrix M)
        = .ok (some (Dense.ofMatrix
            (fun a (_ : Fin 1) => floatsSum (List.ofFn fun b => M a b))), none)
    ∧ (∀ (axis : Int) (m : Dense R), axis ≠ 0 → axis ≠ 1 →
        sumAlongAxis floatsSum axis m = .ok (none, some GoError.invalidAxis))
    ∧ sumAlongAxis sumLeftToRight 0 (Dense.ofMatrix N)
        = .ok (some (Dense.ofMatrix (fun (_ : Fin 1) j => ∑ a, N a j)), none)
    ∧ sumAlongAxis sumLeftToRight 1 (Dense.ofMatrix N)
        = .ok (some (Dense.ofMatrix (fun a (_ : Fin 1) => ∑ b, N a b)), none) := by
  refine ⟨sumAlongAxis_zero floatsSum hc M, sumAlongAxis_one floatsSum hr M,
    fun axis m h0 h1 => sumAlongAxis_other floatsSum axis h0 h1 m, ?_, ?_⟩
  · rw [sumAlongAxis_zero sumLeftToRight hc N]
    simp only [sumLeftToRight_eq_sum, List.sum_ofFn]
  · rw [sumAlongAxis_one sumLeftToRight hr N]
    simp only [sumLeftToRight_eq_sum, List.sum_ofFn]

/-- Witness of C16: the 1 × 2 matrix with the row `[2^53, 1]` in `float64`,
with `floats.Sum` adding from left to right, and the 1 × 2 matrix with the row
`[1, 2]` over the reals. -/
theorem sumAlongAxis_sums_witness :
    sumAlongAxis sumLeftToRight 0 (Dense.ofMatrix roundedRow)
        = .ok (some (Dense.ofMatrix
            (fun (_ : Fin 1) j => sumLeftToRight (List.ofFn fun a => roundedRow a j))), none)
    ∧ sumAlongAxis sumLeftToRight 1 (Dense.ofMatrix roundedRow)
        = .ok (some (Dense.ofMatrix
            (fun a (_ : Fin 1) => sumLeftToRight (List.ofFn fun b => roundedRow a b))), none)
    ∧ (∀ (axis : Int) (m : Dense Float64), axis ≠ 0 → axis ≠ 1 →
        sumAlongAxis sumLeftToRight axis m = .ok (none, some GoError.invalidAxis))
    ∧ sumAlongAxis sumLeftToRight 0 (Dense.ofMatrix (!![1, 2] : Matrix (Fin 1) (Fin 2) ℝ))
        = .ok (some (Dense.ofMatrix
            (fun (_ : Fin 1) j => ∑ a, (!![1, 2] : Matrix (Fin 1) (Fin 2) ℝ) a j)), none)
    ∧ sumAlongAxis sumLeftToRight 1 (Dense.ofMatrix (!![1, 2] : Matrix (Fin 1) (Fin 2) ℝ))
        = .ok (some (Dense.ofMatrix
            (fun a (_ : Fin 1) => ∑ b, (!![1, 2] : Matrix (Fin 1) (Fin 2) ℝ) a b)), none) :=
  sumAlongAxis_sums sumLeftToRight (by decide) (by decide) roundedRow !![1, 2]

/-- C16 as stated fails in `float64`: on the 1 × 2 matrix with the row
`[2^53, 1]`, `sumAlongAxis` with axis 1 returns the 1 × 1 matrix with the
entry `2^53`, whatever the order in which the two values are added, and the
sum of the row is `2^53 + 1`. -/
theorem sumAlongAxis_sums_counterexample :
    sumAlongAxis sumLeftToRight 1 (Dense.ofMatrix roundedRow)
        = .ok (some (Dense.ofMatrix (single (Float64.ofNat (2 ^ 53)))), none)
    ∧ (roundedRow 0 0 + roundedRow 0 1 = Float64.ofNat (2 ^ 53)
      ∧ roundedRow 0 1 + roundedRow 0 0 = Float64.ofNat (2 ^ 53))
    ∧ (Float64.ofNat (2 ^ 53)).toRat = 2 ^ 53
    ∧ (roundedRow 0 0).toRat + (roundedRow 0 1).toRat = 2 ^ 53 + 1 := by
  have e53 : Float64.ofNat (2 ^ 53) = Float64.fin false (2 ^ 52) 1 := by decide
  have e1 : (1 : Float64) = Float64.fin false (2 ^ 52) (-52) := rfl
  have r0 : roundedRow 0 0 = Float64.fin false (2 ^ 52) 1 := e53
  have r1 : roundedRow 0 1 = Float64.fin false (2 ^ 52) (-52) := rfl
  refine ⟨?_, ⟨?_, ?_⟩, ?_, ?_⟩
  · rw [sumAlongAxis_one sumLeftToRight (by decide) roundedRow]
    have : (fun (a : Fin 1) (_ : Fin 1) => sumLeftToRight (List.ofFn fun b => roundedRow a b))
        = single (Float64.ofNat (2 ^ 53)) := by
      funext a b
      have ha : a = 0 := Subsingleton.elim _ _
      have hb : b = 0 := Subsingleton.elim _ _
      subst ha hb
      simp only [List.ofFn_succ, List.ofFn_zero, sumLeftToRight, List.foldl_cons, List.foldl_nil,
        single, Matrix.of_apply, Matrix.cons_val_zero, Fin.succ_zero_eq_one, r0, r1, e53]
      decide
    rw [this]
  · rw [r0, r1, e53]; decide
  · rw [r0, r1, e53]; decide
  · rw [e53]; simp [Float64.toRat, Float64.signed]; norm_num
  · rw [r0, r1]; simp [Float64.toRat, Float64.signed]; norm_num

end Claims

end NeuralNet

namespace NeuralNet

section Claims
open Matrix
variable {R : Type} [LinearOrderedField R] {n i h o : Nat}

/-- C17, amended. For every real `z` with `a = sigmoid(z)`, the derivative of
`sigmoid` at `z` is `a * (1 - a)`, whereas the slope the training loop uses,
`sigmoidPrime(a) = sigmoid(a) * (1 - sigmoid(a))`, is the derivative of
`sigmoid` at the point `a`; the two agree exactly when `sigmoid(a) = a` or
`sigmoid(a) = 1 - a`. -/
theorem sigmoidPrime_of_activation (z : ℝ) :
    HasDerivAt (sigmoid Real.exp) (sigmoid Real.exp z * (1 - sigmoid Real.exp z)) z
    ∧ HasDerivAt (sigmoid Real.exp) (sigmoidPrime Real.exp (sigmoid Real.exp z))
        (sigmoid Real.exp z)
    ∧ (sigmoidPrime Real.exp (sigmoid Real.exp z)
          = sigmoid Real.exp z * (1 - sigmoid Real.exp z)
        ↔ sigmoid Real.exp (sigmoid Real.exp z) = sigmoid Real.exp z
          ∨ sigmoid Real.exp (sigmoid Real.exp z) = 1 - sigmoid Real.exp z) :=
  ⟨sigmoid_real_deriv z, sigmoidPrime_real_deriv _, product_eq_iff _ _⟩

/-- C17 as stated fails at `z = 0`: the activation is `a = 0.5`, the derivative
of `sigmoid` at 0 is `a * (1 - a) = 0.25`, and the slope the training loop
uses, `sigmoidPrime(0.5)`, is a different number. -/
theorem sigmoidPrime_of_activation_counterexample :
    sigmoid Real.exp 0 = 0.5
    ∧ deriv (sigmoid Real.exp) 0 = sigmoid Real.exp 0 * (1 - sigmoid Real.exp 0)
    ∧ deriv (sigmoid Real.exp) 0 = 0.25
    ∧ sigmoidPrime Real.exp (sigmoid Real.exp 0) ≠ deriv (sigmoid Real.exp) 0 := by
  have h0 : sigmoid Real.exp 0 = 1 / 2 := sigmoid_zero
  have hd : deriv (sigmoid Real.exp) 0 = sigmoid Real.exp 0 * (1 - sigmoid Real.exp 0) :=
    (sigmoid_real_deriv 0).deriv
  refine ⟨by rw [h0]; norm_num, hd, by rw [hd, h0]; norm_num, ?_⟩
  rw [hd, h0]
  intro hc
  have := (product_eq_iff (sigmoid Real.exp (1 / 2)) (1 / 2)).mp hc
  rcases this with h1 | h1
  · exact sigmoid_real_half_ne h1
  · exact sigmoid_real_half_ne (by rw [h1]; norm_num)

/-- C18. On the reals `sigmoid` is differentiable at every `x` and its
derivative there is `sigmoidPrime(x) = sigmoid(x) * (1 - sigmoid(x))`. -/
theorem sigmoidPrime_is_derivative (x : ℝ) :
    DifferentiableAt ℝ (sigmoid Real.exp) x
      ∧ deriv (sigmoid Real.exp) x = sigmoidPrime Real.exp x
      ∧ sigmoidPrime Real.exp x = sigmoid Real.exp x * (1 - sigmoid Real.exp x) :=
  ⟨(sigmoidPrime_real_deriv x).differentiableAt, (sigmoidPrime_real_deriv x).deriv, rfl⟩

end Claims

end NeuralNet

namespace KMeans

section Claims

variable {R : Type} [LinearOrderedField R]

/-- C19. What the code does where the claim fails: with a positive threshold,
when the first distance is beyond the threshold and the other distances are
non-negative, `findLeastDistanceIndex` returns -1, whatever the other
distances are (so also when the smallest of them is within the threshold). -/
theorem findLeastDistanceIndex_first_beyond_threshold (threshold d0 : R) (rest : List R)
    (ht : 0 < threshold) (h0 : threshold < d0) (hrest : ∀ d ∈ rest, 0 ≤ d) :
    findLeastDistanceIndex threshold (d0 :: rest) = -1 := by
  have hstep : leastStep threshold 0 d0 (0, -1) = (0, -1) := by
    unfold leastStep
    rw [if_pos (Or.inl rfl), if_neg (fun h => absurd h.2 (not_le.mpr h0)),
      if_neg (fun h => absurd (beq_iff_eq.mp h) (ne_of_gt ht))]
  unfold findLeastDistanceIndex
  rw [leastLoop, hstep, leastLoop_stuck threshold rest hrest (0 + 1) (by decide)]

/-- The statement of `findLeastDistanceIndex_first_beyond_threshold` at
threshold 5 and distances 10, 1: the result is -1 although the smallest
distance, 1 at index 1, is within the threshold. -/
theorem findLeastDistanceIndex_first_beyond_threshold_witness :
    (0 : ℚ) < 5 ∧ (5 : ℚ) < 10 ∧ (∀ d ∈ [(1 : ℚ)], 0 ≤ d) ∧ (1 : ℚ) ≤ 5
    ∧ findLeastDistanceIndex (5 : ℚ) (10 :: [1]) = -1 :=
  ⟨by norm_num, by norm_num, by simp, by norm_num,
    findLeastDistanceIndex_first_beyond_threshold 5 10 [1] (by norm_num) (by norm_num) (by simp)⟩

/-- C20. What the code does where the claim fails: the loop of
`updateCentroid` stops at the first cluster that has no points; the clusters
before it get the mean of their points as centroid, and that cluster and every
cluster after it are returned as they were, with or without points. -/
theorem updateCentroid_stops_at_empty (pre rest : List (Cluster R)) (e : Cluster R)
    (hpre : ∀ c ∈ pre, c.points ≠ []) (he : e.points = []) :
    updateCentroid (pre ++ e :: rest) = pre.map recenter ++ e :: rest :=
  updateCentroid_append_empty pre rest e hpre he

/-- The statement of `updateCentroid_stops_at_empty` at the two sample
clusters: the second cluster keeps the centroid (0, 0) although the mean of its
points is (2, 4). -/
theorem updateCentroid_stops_at_empty_witness :
    (∀ c ∈ ([] : List (Cluster ℚ)), c.points ≠ [])
    ∧ (⟨⟨1, 1⟩, []⟩ : Cluster ℚ).points = []
    ∧ updateCentroid sampleClusters = sampleClusters
    ∧ (recenter (⟨⟨0, 0⟩, [⟨2, 4⟩]⟩ : Cluster ℚ)).centroid = ⟨2, 4⟩ :=
  ⟨by simp, rfl,
    updateCentroid_stops_at_empty [] [⟨⟨0, 0⟩, [⟨2, 4⟩]⟩] ⟨⟨1, 1⟩, []⟩ (by simp) rfl,
    by simp [recenter, meanPoint]⟩

end Claims

section Claims21

/-- C21, amended. With `threshold = 0` and `numberOfClusters = len(clusters) ≥ 1`,
in float64, when no distance that `findDistance` computes from an input
centroid to an input point is NaN, `updateClusters` returns `len(clusters)`
clusters, and the points of returned cluster `k` are the input points whose
nearest cluster is `k`, in input order. Cluster `k` is nearest to `p` when no
input centroid is at a smaller computed distance from `p` than centroid `k`
and every centroid of a lower index is at a greater computed distance; every
input point has exactly one nearest cluster, and the returned point lists
together are a rearrangement of the input points. This holds whatever
`math.Sqrt` returns. In exact arithmetic with the real square root all of this
holds for all inputs, and the computed distance is the Euclidean distance. -/
theorem updateClusters_assigns_nearest (sqrt : Float64 → Float64)
    (clusters : List (Cluster Float64)) (points : List (Point Float64))
    (hn : 1 ≤ clusters.length)
    (hreg : ∀ p ∈ points, ∀ c ∈ clusters, findDistance sqrt c.centroid p ≠ Float64.nan)
    (exactClusters : List (Cluster ℝ)) (exactPoints : List (Point ℝ))
    (hn' : 1 ≤ exactClusters.length) :
    (∃ result : List (Cluster Float64),
      updateClusters sqrt 0 (clusters.length : Int) clusters points = .ok result
      ∧ result.length = clusters.length
      ∧ (∀ (k : Nat) (hk : k < result.length),
          (result[k]).points = points.filter fun p => isNearest sqrt clusters p k)
      ∧ (∀ (p : Point Float64) (k : Nat), isNearest sqrt clusters p k = true
          ↔ ∃ c, clusters[k]? = some c
              ∧ (∀ c' ∈ clusters,
                  findDistance sqrt c.centroid p ≤ findDistance sqrt c'.centroid p)
              ∧ ∀ c' ∈ clusters.take k,
                  findDistance sqrt c.centroid p < findDistance sqrt c'.centroid p)
      ∧ (∀ p ∈ points, ∃! k, isNearest sqrt clusters p k = true)
      ∧ List.Perm (result.map fun c => c.points).flatten points)
    ∧ (∃ result : List (Cluster ℝ),
      updateClusters Real.sqrt 0 (exactClusters.length : Int) exactClusters exactPoints
        = .ok result
      ∧ result.length = exactClusters.length
      ∧ (∀ (k : Nat) (hk : k < result.length),
          (result[k]).points
            = exactPoints.filter fun p => isNearest Real.sqrt exactClusters p k)
      ∧ (∀ (p : Point ℝ) (k : Nat), isNearest Real.sqrt exactClusters p k = true
          ↔ ∃ c, exactClusters[k]? = some c
              ∧ (∀ c' ∈ exactClusters,
                  dist c.centroid.vector p.vector ≤ dist c'.centroid.vector p.vector)
              ∧ ∀ c' ∈ exactClusters.take k,
                  dist c.centroid.vector p.vector < dist c'.centroid.vector p.vector)
      ∧ (∀ p : Point ℝ, ∃! k, isNearest Real.sqrt exactClusters p k = true)
      ∧ List.Perm (result.map fun c => c.points).flatten exactPoints) := by
  have hc : clusters ≠ [] := fun h => by rw [h] at hn; exact absurd hn (Nat.not_succ_le_zero 0)
  have hc' : exactClusters ≠ [] := fun h => by
    rw [h] at hn'; exact absurd hn' (Nat.not_succ_le_zero 0)
  have hreg' : ∀ p ∈ points, ∀ d ∈ centroidDistances sqrt clusters p, d ≠ Float64.nan := by
    intro p hp d hd
    obtain ⟨c, hc, rfl⟩ := List.mem_map.mp hd
    exact hreg p hp c hc
  constructor
  · refine ⟨_, updateClusters_filter _ comparable_float sqrt clusters hc points hreg', by simp,
      fun k hk => by simp, fun p k => isNearest_iff_clusters sqrt clusters p k,
      fun p hp => ?_, ?_⟩
    · obtain ⟨k, _, hk, huniq⟩ :=
        isNearest_exists_unique _ comparable_float sqrt clusters hc p (hreg' p hp)
      exact ⟨k, hk, huniq⟩
    · rw [List.map_map]
      exact join_filter_perm (fun p k => isNearest sqrt clusters p k) clusters.length points
        (fun p hp => isNearest_exists_unique _ comparable_float sqrt clusters hc p (hreg' p hp))
  · refine ⟨_, updateClusters_filter (fun _ => True) comparable_exact Real.sqrt exactClusters
        hc' exactPoints (fun _ _ _ _ => trivial), by simp, fun k hk => by simp,
      fun p k => ?_, fun p => ?_, ?_⟩
    · simp only [← findDistance_eq_dist]
      exact isNearest_iff_clusters Real.sqrt exactClusters p k
    · obtain ⟨k, _, hk, huniq⟩ := isNearest_exists_unique (fun _ => True) comparable_exact
        Real.sqrt exactClusters hc' p (fun _ _ => trivial)
      exact ⟨k, hk, huniq⟩
    · rw [List.map_map]
      exact join_filter_perm (fun p k => isNearest Real.sqrt exactClusters p k)
        exactClusters.length exactPoints
        (fun p _ => isNearest_exists_unique (fun _ => True) comparable_exact Real.sqrt
          exactClusters hc' p (fun _ _ => trivial))

/-- Witness of C21: in float64 the centroids (0, 2^-30) and (0, 0) and the point
(1, 0) with the correctly rounded square root, and over the reals the two
sample clusters and the three sample points. -/
theorem updateClusters_assigns_nearest_witness :
    1 ≤ nearCentroids.length
    ∧ (∀ p ∈ [unitPoint], ∀ c ∈ nearCentroids,
        findDistance Float64.sqrt c.centroid p ≠ Float64.nan)
    ∧ 1 ≤ sampleCentroids.length
    ∧ (∃ result : List (Cluster Float64),
      updateClusters Float64.sqrt 0 (nearCentroids.length : Int) nearCentroids [unitPoint]
        = .ok result
      ∧ result.length = nearCentroids.length
      ∧ (∀ (k : Nat) (hk : k < result.length),
          (result[k]).points
            = [unitPoint].filter fun p => isNearest Float64.sqrt nearCentroids p k)
      ∧ (∀ (p : Point Float64) (k : Nat), isNearest Float64.sqrt nearCentroids p k = true
          ↔ ∃ c, nearCentroids[k]? = some c
              ∧ (∀ c' ∈ nearCentroids, findDistance Float64.sqrt c.centroid p
                  ≤ findDistance Float64.sqrt c'.centroid p)
              ∧ ∀ c' ∈ nearCentroids.take k, findDistance Float64.sqrt c.centroid p
                  < findDistance Float64.sqrt c'.centroid p)
      ∧ (∀ p ∈ [unitPoint], ∃! k, isNearest Float64.sqrt nearCentroids p k = true)
      ∧ List.Perm (result.map fun c => c.points).flatten [unitPoint])
    ∧ (∃ result : List (Cluster ℝ),
      updateClusters Real.sqrt 0 (sampleCentroids.length : Int) sampleCentroids sampleCloud
        = .ok result
      ∧ result.length = sampleCentroids.length
      ∧ (∀ (k : Nat) (hk : k < result.length),
          (result[k]).points
            = sampleCloud.filter fun p => isNearest Real.sqrt sampleCentroids p k)
      ∧ (∀ (p : Point ℝ) (k : Nat), isNearest Real.sqrt sampleCentroids p k = true
          ↔ ∃ c, sampleCentroids[k]? = some c
              ∧ (∀ c' ∈ sampleCentroids,
                  dist c.centroid.vector p.vector ≤ dist c'.centroid.vector p.vector)
              ∧ ∀ c' ∈ sampleCentroids.take k,
                  dist c.centroid.vector p.vector < dist c'.centroid.vector p.vector)
      ∧ (∀ p : Point ℝ, ∃! k, isNearest Real.sqrt sampleCentroids p k = true)
      ∧ List.Perm (result.map fun c => c.points).flatten sampleCloud) :=
  have h : 1 ≤ nearCentroids.length := by decide
  have hreg : ∀ p ∈ [unitPoint], ∀ c ∈ nearCentroids,
      findDistance Float64.sqrt c.centroid p ≠ Float64.nan := by
    intro p hp c hc
    have hd : findDistance Float64.sqrt c.centroid p
        ∈ centroidDistances Float64.sqrt nearCentroids unitPoint := by
      rw [List.mem_singleton] at hp
      subst hp
      exact List.mem_map_of_mem _ hc
    rw [near_distances] at hd
    simp only [List.mem_cons, List.mem_singleton, List.not_mem_nil, or_false, or_self] at hd
    rw [hd]
    decide
  have h' : 1 ≤ sampleCentroids.length := by decide
  ⟨h, hreg, h', updateClusters_assigns_nearest Float64.sqrt nearCentroids [unitPoint] h hreg
    sampleCentroids sampleCloud h'⟩

/-- C21 as stated fails in `float64`: with the centroids (0, 2^-30) and (0, 0)
and the point (1, 0), `threshold = 0` and `numberOfClusters = 2`, both computed
distances are 1, so the point goes to cluster 0, although centroid 1 is nearer
to it in Euclidean distance than centroid 0. -/
theorem updateClusters_assigns_nearest_counterexample :
    updateClusters Float64.sqrt 0 2 nearCentroids [unitPoint]
      = .ok [⟨⟨0, 0⟩, [unitPoint]⟩, ⟨⟨0, 0⟩, []⟩]
    ∧ centroidDistances Float64.sqrt nearCentroids unitPoint = [1, 1]
    ∧ dist (Point.exact ⟨0, 0⟩).vector unitPoint.exact.vector
        < dist (Point.exact ⟨0, Float64.ofDyadic false 1 (-30)⟩).vector
            unitPoint.exact.vector := by
  refine ⟨rfl, near_distances, ?_⟩
  have e : Float64.ofDyadic false 1 (-30) = Float64.fin false (2 ^ 52) (-82) := by decide
  rw [← findDistance_eq_dist, ← findDistance_eq_dist, e]
  unfold findDistance
  apply Real.sqrt_lt_sqrt (by positivity)
  simp [Point.exact, unitPoint, Float64.toRat, Float64.signed]
  positivity

end Claims21

section Claims

variable {R : Type} [LinearOrderedField R]

/-- C22. For every input, whatever `updateClusters` returns is
`numberOfClusters` clusters that all have the centroid (0, 0), whatever the
centroids of the input clusters are; and the call does return when
`numberOfClusters` is not negative and there are at most `numberOfClusters`
input clusters. -/
theorem updateClusters_centroids_zero (sqrt : R → R) (threshold : R) (numberOfClusters : Int)
    (clusters : List (Cluster R)) (points : List (Point R)) :
    (∀ result, updateClusters sqrt threshold numberOfClusters clusters points = .ok result →
        result.length = numberOfClusters.toNat ∧ ∀ c ∈ result, c.centroid = ⟨0, 0⟩)
    ∧ (0 ≤ numberOfClusters → (clusters.length : Int) ≤ numberOfClusters →
        ∃ result, updateClusters sqrt threshold numberOfClusters clusters points = .ok result) :=
  ⟨fun result h => updateClusters_zero sqrt threshold numberOfClusters clusters points result h,
    fun h0 hc => updateClusters_total sqrt threshold numberOfClusters clusters points h0 hc⟩

/-- Witness of C22: the two sample clusters, centroids (3, 4) and (6, 8), and
the single point (0, 0); the second cluster receives no point and comes back
with the centroid (0, 0). -/
theorem updateClusters_centroids_zero_witness :
    (0 : Int) ≤ 2 ∧ (sampleCentroids.length : Int) ≤ 2
    ∧ ∃ result, updateClusters Real.sqrt 0 2 sampleCentroids [⟨0, 0⟩] = .ok result
        ∧ result.length = 2 ∧ ∀ c ∈ result, c.centroid = ⟨0, 0⟩ :=
  have h0 : (0 : Int) ≤ 2 := by decide
  have hc : (sampleCentroids.length : Int) ≤ 2 := by decide
  have h := updateClusters_centroids_zero Real.sqrt 0 2 sampleCentroids [⟨0, 0⟩]
  ⟨h0, hc, (h.2 h0 hc).elim fun result hr => ⟨result, hr, h.1 result hr⟩⟩

end Claims

end KMeans
